import Mathlib

/-!
# fanctl: the thermal state machine and the speed actuator

A shallow embedding of `fanctl.go`.  The package-level variables of the program are
gathered in the record `State`, the command-line flags that the control core reads in
the record `Config`, and every function of the program becomes a function from the
state before the call to an `Outcome`: the state after a normal return, or the state in
which the process panics.

Numeric conventions.

* `float64` values are rationals.  In the thermal evaluation and in the rate limiter
  `math.Round`, `math.Abs`, `math.Min`, `math.Max`, `math.Pow(x, 2)` and the arithmetic
  are the exact operations, so rounding error of the binary representation is not part
  of the model there.
* The register value of `writeSpeed` is computed as the program computes it: each of the
  four float64 operations rounds to nearest, ties to even (`toFloat64`), and the result
  of `math.Floor` is converted to a 64-bit `int` as on amd64 (`float64ToInt`).
* Go `int` values (`mode`, `lastECVal`) are integers; `int64` subtraction wraps
  (`wrap64`); `byte(value)` is reduction modulo 256.
* `time.Now().Unix()` and the value returned by `readTemp` are inputs of `tempLoop`.
* The `debug` flag only selects console output and is left out, as are the flags the
  control core never reads (`readAddr`, `readMin`, `readMax`).
-/

namespace Fanctl

/-! ## Constants -/

def minFanSpeed : ℚ := 28
def medFanSpeed : ℚ := 35
def highTemp : ℚ := 70
def critTemp : ℚ := 85
def dangerousTemp : ℚ := 94
def sustainedLoadTime : Int := 14
def tempThreshold : ℚ := 4
def normalSpeedChangeRate : ℚ := 1
def critModeSpeedChangeRate : ℚ := 4
def highModeReductionRate : ℚ := 1

/-! ## Arithmetic helpers -/

/-- Go's `math.Round`: nearest integer, halves away from zero. -/
def mathRound (x : ℚ) : ℚ :=
  if 0 ≤ x then ((⌊x + 1 / 2⌋ : Int) : ℚ) else ((⌈x - 1 / 2⌉ : Int) : ℚ)

/-- Two's-complement wrap-around of a 64-bit signed result. -/
def wrap64 (x : Int) : Int :=
  (x + 9223372036854775808) % 18446744073709551616 - 9223372036854775808

/-- The conversion `byte(value)` of a Go `int`. -/
def toByte (value : Int) : Nat :=
  (value % 256).toNat

/-! ## The embedded controller device -/

/-- Reasons for which the process panics. -/
inductive Err where
  | openFailed
  | writeFailed
  | readFileFailed
deriving DecidableEq, Repr

/-- The register file behind `ecPath`, as far as the program observes it. -/
structure Device where
  /-- whether `os.OpenFile(ecPath, os.O_RDWR, 0644)` succeeds -/
  openOk : Bool
  /-- whether `f.WriteAt` succeeds at the given offset -/
  writeOk : Int → Bool
  /-- the byte `f.ReadAt` delivers at each offset (0 where nothing can be read: the
  program ignores the error of `ReadAt`) -/
  regs : Int → Nat
  /-- the successful `WriteAt` calls so far, latest first: offset and byte -/
  writes : List (Int × Nat)

/-- The device after a successful one-byte write. -/
def Device.written (d : Device) (address : Int) (b : Nat) : Device :=
  { d with regs := Function.update d.regs address b, writes := (address, b) :: d.writes }

/-- The file operations of `writeEC`: open, then write one byte at `address`. -/
def Device.writeAt (d : Device) (address : Int) (b : Nat) : Except Err Device :=
  if d.openOk = false then .error .openFailed
  else if d.writeOk address = false then .error .writeFailed
  else .ok (d.written address b)

/-! ## Controller state -/

/-- The flags read by the control core. -/
structure Config where
  ecAddr : Int
  manualAddr : Int
  ecMin : ℚ
  ecMax : ℚ

/-- The values `flag.Parse` leaves when no flag is given. -/
def defaultConfig : Config :=
  { ecAddr := 25, manualAddr := 21, ecMin := 0, ecMax := 48 }

/-- The package-level variables, together with the device they drive. -/
structure State where
  speedSatisfied : Bool
  speedTarget : ℚ
  currSpeed : ℚ
  mode : Int
  currTemp : ℚ
  oldTemp : ℚ
  highTempTimer : Int
  speedChangeRate : ℚ
  lastECVal : Int
  gracefulQuitTried : Bool
  ec : Device

/-- A device on which every access succeeds and every register reads 0. -/
def blankDevice : Device :=
  { openOk := true, writeOk := fun _ => true, regs := fun _ => 0, writes := [] }

/-- The initial values of the package-level variables. -/
def initState (d : Device) : State :=
  { speedSatisfied := false, speedTarget := 10, currSpeed := 0, mode := 0, currTemp := 20,
    oldTemp := 0, highTempTimer := 0, speedChangeRate := 4, lastECVal := 0,
    gracefulQuitTried := false, ec := d }

/-- How a call ends: it returns a value, or the process panics. -/
inductive Outcome (α : Type) where
  | returned (val : α) (s : State)
  | panicked (msg : Err) (s : State)

/-- Sequencing of calls: nothing runs after a panic. -/
def Outcome.andThen {α β : Type} (o : Outcome α) (f : α → State → Outcome β) : Outcome β :=
  match o with
  | .returned a s => f a s
  | .panicked e s => .panicked e s

/-- The state at the end of the call (at the return, or at the panic). -/
def Outcome.state {α : Type} : Outcome α → State
  | .returned _ s => s
  | .panicked _ s => s

/-- Whether the call returned. -/
def Outcome.isReturned {α : Type} : Outcome α → Bool
  | .returned _ _ => true
  | .panicked _ _ => false

/-! ## Shutdown path -/

/-- The function `quit`.  Its call of `disableManualControl` is `writeEC(manualAddr, 0)`,
which on failure calls `quit` again; that nested call finds `gracefulQuitTried` set and
panics with the error of the write, so the recursion is unfolded once here. -/
def quit {α : Type} (cfg : Config) (msg : Err) (s : State) : Outcome α :=
  if s.gracefulQuitTried = false then
    let s1 := { s with gracefulQuitTried := true }
    match s1.ec.writeAt cfg.manualAddr (toByte 0) with
    | .ok d => .panicked msg { s1 with ec := d }
    | .error e => .panicked e s1
  else .panicked msg s

/-! ## Register access -/

def writeEC (cfg : Config) (address : Int) (value : Int) (s : State) : Outcome Unit :=
  match s.ec.writeAt address (toByte value) with
  | .ok d => .returned () { s with ec := d }
  | .error e => quit cfg e s

def readEC (cfg : Config) (address : Int) (s : State) : Outcome Int :=
  if s.ec.openOk = false then quit cfg .openFailed s
  else .returned ((s.ec.regs address % 256 : Nat) : Int) s

def enableManualControl (cfg : Config) (s : State) : Outcome Unit :=
  writeEC cfg cfg.manualAddr 1 s

def disableManualControl (cfg : Config) (s : State) : Outcome Unit :=
  writeEC cfg cfg.manualAddr 0 s

/-! ## Speed curves -/

def calculateLowSpeed (s : State) : ℚ :=
  min (mathRound (s.currTemp ^ 2 * s.currTemp / 11842)) medFanSpeed

def calculateHighSpeed (s : State) : ℚ :=
  min (max (mathRound (s.currTemp * 2.7 - 157)) medFanSpeed) 100

def calculateCritSpeed (s : State) : ℚ :=
  min (max (mathRound (s.currTemp * 2.9 - 172)) medFanSpeed) 100

def updateSpeed (s : State) : State :=
  if s.mode = 1 then
    { s with speedTarget := calculateHighSpeed s }
  else if s.mode = 0 then
    let s1 := { s with speedTarget := calculateLowSpeed s }
    if s1.speedTarget ≤ minFanSpeed then { s1 with speedTarget := 0 } else s1
  else if s.mode = 2 then
    { s with speedTarget := calculateCritSpeed s }
  else s

/-! ## Actuator -/

/-- The largest and the smallest `int` of a 64-bit platform. -/
def maxInt64 : Int := 9223372036854775807
def minInt64 : Int := -9223372036854775808

/-- Rounding to the nearest integer, a tie going to the even one. -/
def roundEven (x : ℚ) : Int :=
  if x - ⌊x⌋ < 1 / 2 then ⌊x⌋
  else if 1 / 2 < x - ⌊x⌋ then ⌊x⌋ + 1
  else if ⌊x⌋ % 2 = 0 then ⌊x⌋ else ⌊x⌋ + 1

/-- The binary exponent of a float64 of the magnitude of `x`: the `e` with
`2^e ≤ |x| < 2^(e+1)`, and -1022 in the subnormal range below `2^(-1022)`. -/
def exponent64 (x : ℚ) : Int :=
  if |x| < (2 : ℚ) ^ (-1022 : Int) then -1022 else Int.log 2 |x|

/-- The spacing of the float64 values at the magnitude of `x`: 52 fraction bits. -/
def ulp64 (x : ℚ) : ℚ := (2 : ℚ) ^ (exponent64 x - 52)

/-- The real number `x` rounded to the float64 grid (IEEE 754 round to nearest, ties to
even), the exponent not yet bounded above. -/
def roundFloat (x : ℚ) : ℚ :=
  (if x < 0 then -1 else 1) * ((roundEven (|x| / ulp64 x) : Int) : ℚ) * ulp64 x

/-- The float64 result of an operation whose exact result is `x`; `none` stands for a
result that is not finite. -/
def toFloat64 (x : ℚ) : Option ℚ :=
  if |roundFloat x| < (2 : ℚ) ^ (1024 : Nat) then some (roundFloat x) else none

/-- The rational `x` is a float64 value. -/
def IsFloat64 (x : ℚ) : Prop := toFloat64 x = some x

/-- The function `math.Floor` on a float64. -/
def mathFloor (f : Option ℚ) : Option ℚ := f.map fun v => ((⌊v⌋ : Int) : ℚ)

/-- The conversion `int(f)` of a float64 as amd64 performs it: truncation toward zero, and
the smallest `int` for a value that is not finite or does not fit 64 bits. -/
def float64ToInt (f : Option ℚ) : Int :=
  match f with
  | some v =>
    let t : Int := if 0 ≤ v then ⌊v⌋ else ⌈v⌉
    if minInt64 ≤ t ∧ t ≤ maxInt64 then t else minInt64
  | none => minInt64

/-- The float64 value of `currSpeed / 100 * (ecMax - ecMin) + ecMin` in `writeSpeed`: each
of the four operations rounds its exact result (no fused multiply-add, as on amd64). -/
def ecScaled (cfg : Config) (currSpeed : ℚ) : Option ℚ :=
  (toFloat64 (currSpeed / 100)).bind fun a =>
    (toFloat64 (cfg.ecMax - cfg.ecMin)).bind fun d =>
      (toFloat64 (a * d)).bind fun p => toFloat64 (p + cfg.ecMin)

/-- The same value with no overflow check, for flags and speeds that stay finite. -/
def ecRounded (cfg : Config) (currSpeed : ℚ) : ℚ :=
  roundFloat (roundFloat (roundFloat (currSpeed / 100) * roundFloat (cfg.ecMax - cfg.ecMin))
    + cfg.ecMin)

/-- The register value computed in `writeSpeed`. -/
def ecValOf (cfg : Config) (currSpeed : ℚ) : Int :=
  float64ToInt (mathFloor (ecScaled cfg currSpeed))

def writeSpeed (cfg : Config) (s : State) : Outcome Unit :=
  let ecVal := ecValOf cfg s.currSpeed
  if ecVal ≠ s.lastECVal then
    writeEC cfg cfg.ecAddr ecVal { s with lastECVal := ecVal }
  else .returned () s

def speedLoop (cfg : Config) (s : State) : Outcome Unit :=
  let s :=
    if s.mode = 2 then { s with speedChangeRate := critModeSpeedChangeRate }
    else { s with speedChangeRate := normalSpeedChangeRate }
  if |s.speedTarget - s.currSpeed| > s.speedChangeRate then
    let s :=
      if s.speedTarget > s.currSpeed then
        { s with currSpeed := s.currSpeed + min (s.speedTarget - s.currSpeed) s.speedChangeRate }
      else if s.mode = 0 then
        { s with currSpeed := s.currSpeed - min (s.currSpeed - s.speedTarget) s.speedChangeRate }
      else
        { s with currSpeed := s.currSpeed - min (s.currSpeed - s.speedTarget) highModeReductionRate }
    writeSpeed cfg s
  else if s.speedSatisfied = false then
    writeSpeed cfg { s with currSpeed := s.speedTarget, speedSatisfied := true }
  else .returned () s

/-! ## Manual-control handshake -/

def checkManualControl (cfg : Config) (s : State) : Outcome Unit :=
  (readEC cfg cfg.manualAddr s).andThen fun v s =>
    if v = 0 then
      let s := { s with speedTarget := 0 }
      let s := { s with mode := 0 }
      (enableManualControl cfg s).andThen fun _ s => writeSpeed cfg s
    else .returned () s

/-! ## Thermal evaluation -/

/-- The function `tempLoop`; `sample` is the value returned by `readTemp` and `now` the
value of `time.Now().Unix()`. -/
def tempLoop (cfg : Config) (sample : ℚ) (now : Int) (s : State) : Outcome Unit :=
  let s := { s with currTemp := sample }
  if s.currTemp ≥ dangerousTemp then
    writeSpeed cfg { s with currSpeed := 100 }
  else
    let currTime := now
    let s :=
      if s.highTempTimer > 0 then
        if s.currTemp < highTemp then { s with highTempTimer := 0 }
        else
          let timeDelta := wrap64 (currTime - s.highTempTimer)
          if timeDelta > sustainedLoadTime then
            updateSpeed { s with mode := 1, highTempTimer := 0 }
          else s
      else s
    let tempDelta := s.currTemp - s.oldTemp
    if s.mode = 0 then
      if s.currTemp > highTemp ∧ s.highTempTimer = 0 then
        .returned () { s with highTempTimer := currTime, speedTarget := medFanSpeed }
      else if |tempDelta| > tempThreshold then
        .returned () (updateSpeed { s with oldTemp := s.currTemp })
      else .returned () s
    else if s.mode = 1 then
      if s.currTemp < highTemp - tempThreshold then
        .returned () { s with mode := 0 }
      else if s.currTemp > critTemp then
        .returned () { s with mode := 2 }
      else if |tempDelta| > tempThreshold then
        .returned () (updateSpeed { s with oldTemp := s.currTemp })
      else .returned () s
    else
      if s.currTemp < critTemp - tempThreshold then
        .returned () { s with mode := 1 }
      else .returned () (updateSpeed s)

/-- The function `loop`: the slow tick. -/
def loop (cfg : Config) (sample : ℚ) (now : Int) (s : State) : Outcome Unit :=
  (checkManualControl cfg s).andThen fun _ s => tempLoop cfg sample now s

/-! ## Runs of the scheduler -/

/-- One step of the scheduler: a thermal evaluation, an actuator tick, or the
manual-control check. -/
inductive Tick where
  | eval (sample : ℚ) (now : Int)
  | actuate
  | handshake

def Tick.run (cfg : Config) : Tick → State → Outcome Unit
  | .eval sample now, s => tempLoop cfg sample now s
  | .actuate, s => speedLoop cfg s
  | .handshake, s => checkManualControl cfg s

/-- Steps taken one after the other; a panic ends the run. -/
def runTicks (cfg : Config) : List Tick → State → Outcome Unit
  | [], s => .returned () s
  | tk :: rest, s => (tk.run cfg s).andThen fun _ s1 => runTicks cfg rest s1

/-- The actuator run `n` times in a row. -/
def speedLoopN (cfg : Config) : Nat → State → Outcome Unit
  | 0, s => .returned () s
  | n + 1, s => (speedLoop cfg s).andThen fun _ s1 => speedLoopN cfg n s1

/-- The state after the first `n` evaluation ticks of an unending sequence of samples
and clock values. -/
def tempRun (cfg : Config) (samples : Nat → ℚ × Int) (s : State) : Nat → State
  | 0 => s
  | n + 1 => (tempLoop cfg (samples n).1 (samples n).2 (tempRun cfg samples s n)).state

/-- A clock value as `time.Now().Unix()` returns it: positive and within `int64`. -/
def IsUnixTime (t : Int) : Prop := 0 < t ∧ t < 9223372036854775808

/-- An evaluation tick that samples a temperature above `highTemp` and at most `critTemp`
no later than `sustainedLoadTime` after `t0`; actuator ticks and manual-control checks
are unconstrained. -/
def Tick.HoldsHigh (t0 : Int) : Tick → Prop
  | .eval sample now => highTemp < sample ∧ sample ≤ critTemp ∧ IsUnixTime now
      ∧ now - t0 ≤ sustainedLoadTime
  | _ => True

/-- The rate limit that `speedLoop` selects for a mode. -/
def rateOf (mode : Int) : ℚ :=
  if mode = 2 then critModeSpeedChangeRate else normalSpeedChangeRate

/-- The size of a step of `speedLoop` that does not yet reach the target: the rate limit,
except that a decreasing step outside mode Low uses `highModeReductionRate`. -/
def stepOf (s : State) : ℚ :=
  if s.speedTarget > s.currSpeed then rateOf s.mode
  else if s.mode = 0 then rateOf s.mode
  else highModeReductionRate

/-- The flag `speedSatisfied` is set only where `currSpeed` equals the target. -/
def Settled (s : State) : Prop :=
  s.speedSatisfied = true → s.currSpeed = s.speedTarget

/-- A run of a manual-control check, an actuator tick and an evaluation at 71 degrees,
14 s after a timer start at clock 1000. -/
def holdRun : List Tick := [Tick.handshake, Tick.actuate, Tick.eval 71 1014]

/-- A controller in mode Critical running at 100 percent whose target has dropped to 88. -/
def critDescent : State :=
  { initState blankDevice with mode := 2, speedTarget := 88, currSpeed := 100 }

/-- Whether an actuator tick reaches a call of `writeSpeed`. -/
def CallsWriteSpeed (s : State) : Prop :=
  |s.speedTarget - s.currSpeed| > rateOf s.mode ∨ s.speedSatisfied = false

/-- The variables as `speedLoop` has set them when it calls `writeSpeed` or returns
without calling it. -/
def stepped (s : State) : State :=
  let s :=
    if s.mode = 2 then { s with speedChangeRate := critModeSpeedChangeRate }
    else { s with speedChangeRate := normalSpeedChangeRate }
  if |s.speedTarget - s.currSpeed| > s.speedChangeRate then
    if s.speedTarget > s.currSpeed then
      { s with currSpeed := s.currSpeed + min (s.speedTarget - s.currSpeed) s.speedChangeRate }
    else if s.mode = 0 then
      { s with currSpeed := s.currSpeed - min (s.currSpeed - s.speedTarget) s.speedChangeRate }
    else
      { s with currSpeed := s.currSpeed - min (s.currSpeed - s.speedTarget) highModeReductionRate }
  else if s.speedSatisfied = false then
    { s with currSpeed := s.speedTarget, speedSatisfied := true }
  else s

/-- The temperatures at which an evaluation tick in mode Low (0) or High (1) neither
changes the mode nor starts the timer. -/
def InZone (mode : Int) (T : ℚ) : Prop :=
  (mode = 0 ∧ T ≤ highTemp) ∨ (mode = 1 ∧ highTemp - tempThreshold ≤ T ∧ T ≤ critTemp)

/-- Samples alternating between 86 and 90 degrees, all within `tempThreshold` of 88, taken
100 s apart. -/
def oscillation (n : Nat) : ℚ × Int :=
  (if n % 2 = 0 then 86 else 90, 100 * ((n : Int) + 1))

/-- Samples alternating between 72 and 76 degrees, one second apart. -/
def steadySamples (n : Nat) : ℚ × Int :=
  (if n % 2 = 0 then 72 else 76, 1000 + (n : Int))

/-- A controller in mode High whose last target update was at 74 degrees. -/
def steadyHigh : State :=
  { initState blankDevice with mode := 1, oldTemp := 74, speedTarget := 43 }

/-- The pending-promotion check of `tempLoop`: the block guarded by `highTempTimer > 0`. -/
def timerPhase (currTime : Int) (s : State) : State :=
  if s.highTempTimer > 0 then
    if s.currTemp < highTemp then { s with highTempTimer := 0 }
    else if wrap64 (currTime - s.highTempTimer) > sustainedLoadTime then
      updateSpeed { s with mode := 1, highTempTimer := 0 }
    else s
  else s

/-- The per-mode step of `tempLoop`: the chain of tests on `mode`. -/
def modePhase (currTime : Int) (s : State) : State :=
  if s.mode = 0 then
    if s.currTemp > highTemp ∧ s.highTempTimer = 0 then
      { s with highTempTimer := currTime, speedTarget := medFanSpeed }
    else if |s.currTemp - s.oldTemp| > tempThreshold then
      updateSpeed { s with oldTemp := s.currTemp }
    else s
  else if s.mode = 1 then
    if s.currTemp < highTemp - tempThreshold then { s with mode := 0 }
    else if s.currTemp > critTemp then { s with mode := 2 }
    else if |s.currTemp - s.oldTemp| > tempThreshold then
      updateSpeed { s with oldTemp := s.currTemp }
    else s
  else
    if s.currTemp < critTemp - tempThreshold then { s with mode := 1 }
    else updateSpeed s

/-- The state after an evaluation tick below `dangerousTemp`: the two phases in
sequence. -/
def thermalStep (T : ℚ) (t : Int) (s : State) : State :=
  modePhase t (timerPhase t { s with currTemp := T })

/-- A measure of how many mode changes are still possible while the samples stay within
`tempThreshold / 2` of `p`. -/
def bandRank (p : ℚ) (s : State) : Nat :=
  if p + tempThreshold / 2 < highTemp then
    (if s.mode = 0 then 0 else if s.mode = 1 then 1 else 2)
  else if p + tempThreshold / 2 ≤ critTemp then
    (if s.mode = 1 then 0 else 1)
  else
    (if s.mode = 0 then 5
     else (if s.highTempTimer > 0 then 3 else 0) + (if s.mode = 1 then 1 else 0))

/-- An evaluation tick that reads a positive clock; the other ticks read none. -/
def Tick.ClockPositive : Tick → Prop
  | .eval _ now => 0 < now
  | _ => True

/-- The states the program can be in between two ticks: it starts from the initial values
of the variables on any device, every tick allowed by `ok` that returns leads to a further
state, and between ticks the environment may change what the device holds and whether
it answers (the log of the program's own writes apart). -/
inductive ReachableWith (cfg : Config) (ok : Tick → Prop) : State → Prop
  | init (d : Device) : ReachableWith cfg ok (initState d)
  | tick (tk : Tick) (s s' : State) : ReachableWith cfg ok s → ok tk →
      tk.run cfg s = .returned () s' → ReachableWith cfg ok s'
  | env (s : State) (d : Device) : ReachableWith cfg ok s → d.writes = s.ec.writes →
      ReachableWith cfg ok { s with ec := d }

/-- Reachability with arbitrary samples and clock values. -/
def Reachable (cfg : Config) (s : State) : Prop :=
  ReachableWith cfg (fun _ => True) s

/-- Both speeds are percentages. -/
def SpeedsInRange (s : State) : Prop :=
  0 ≤ s.speedTarget ∧ s.speedTarget ≤ 100 ∧ 0 ≤ s.currSpeed ∧ s.currSpeed ≤ 100

/-- The timer holds 0 or a positive clock value, and it runs in mode Low only. -/
def TimerInLow (s : State) : Prop :=
  0 ≤ s.highTempTimer ∧ (s.highTempTimer ≠ 0 → s.mode = 0)

/-- The flags 0 and 100, which make the register value the percentage itself. -/
def percentConfig : Config := { defaultConfig with ecMax := 100 }

/-- The flags 0 and 10^19. -/
def hugeConfig : Config := { defaultConfig with ecMax := 10000000000000000000 }

/-- A controller at 29 percent whose last written register value is 28. -/
def staleStep : State := { initState blankDevice with currSpeed := 29, lastECVal := 28 }

/-- A start-up as `main` runs it: the slow tick at 20 degrees, an actuator tick, and the
next slow tick at 72 degrees. -/
def latchRun : List Tick :=
  [Tick.handshake, Tick.eval 20 1000, Tick.actuate, Tick.handshake, Tick.eval 72 1002]

/-! ## Sensor read, literal shutdown chain and curve values -/

/-- Go's `strings.TrimRight(s, "\n")`: the text without its trailing newlines. -/
def trimRightNewline (cs : List Char) : List Char :=
  (cs.reverse.dropWhile (fun c => c = '\n')).reverse

/-- The value of a non-empty run of decimal digits; `none` for the empty text and for a
text with any other character. -/
def parseDigits (cs : List Char) : Option Nat :=
  if cs = [] then none
  else cs.foldl
    (fun acc c => acc.bind fun n => if c.isDigit then some (n * 10 + (c.toNat - 48)) else none)
    (some 0)

/-- Go's `strconv.Atoi` on a 64-bit platform: the value and whether the error is nil.
A text that is not an optional sign followed by decimal digits gives 0 with a syntax
error; a value outside `int64` gives the nearest bound with a range error. -/
def atoi (cs : List Char) : Int × Bool :=
  let neg := cs.head? = some '-'
  let body := if cs.head? = some '-' ∨ cs.head? = some '+' then cs.tail else cs
  match parseDigits body with
  | none => (0, false)
  | some n =>
    let v : Int := if neg then -(n : Int) else (n : Int)
    if v > maxInt64 then (maxInt64, false)
    else if v < minInt64 then (minInt64, false)
    else (v, true)

/-- The function `readTemp`; `file` is the content of the file at `thermalZone`, or `none`
when `ioutil.ReadFile` fails.  The error of `strconv.Atoi` is discarded, as in the
source. -/
def readTemp (cfg : Config) (file : Option String) (s : State) : Outcome ℚ :=
  match file with
  | none => quit cfg .readFileFailed s
  | some f =>
    let tempInt := (atoi (trimRightNewline f.toList)).1
    .returned ((tempInt : ℚ) / 1000) s

/-- The function `tempLoop` together with its call of `readTemp`. -/
def tempLoopOnFile (cfg : Config) (file : Option String) (now : Int) (s : State) :
    Outcome Unit :=
  (readTemp cfg file s).andThen fun sample s1 => tempLoop cfg sample now s1

/-- The calls on the fatal-error path of the source. -/
inductive Call where
  | quit (msg : Err)
  | disableManualControl
  | writeEC (address value : Int)

/-- The functions `quit`, `disableManualControl` and `writeEC` as the source writes them,
calling one another; `fuel` bounds the depth of the calls.  The result is how the call ends
and how many times `disableManualControl` was entered on the way. -/
def exec (cfg : Config) : Nat → Call → State → Option (Outcome Unit × Nat)
  | 0, _, _ => none
  | fuel + 1, .quit msg, s =>
    if s.gracefulQuitTried = false then
      match exec cfg fuel .disableManualControl { s with gracefulQuitTried := true } with
      | none => none
      | some (.returned _ s1, k) => some (.panicked msg s1, k)
      | some (.panicked e s1, k) => some (.panicked e s1, k)
    else some (.panicked msg s, 0)
  | fuel + 1, .disableManualControl, s =>
    match exec cfg fuel (.writeEC cfg.manualAddr 0) s with
    | none => none
    | some (o, k) => some (o, k + 1)
  | fuel + 1, .writeEC address value, s =>
    match s.ec.writeAt address (toByte value) with
    | .ok d => some (.returned () { s with ec := d }, 0)
    | .error e => exec cfg fuel (.quit e) s

/-- A device file that cannot be opened. -/
def deadDevice : Device := { blankDevice with openOk := false }

/-- The value that `updateSpeed` assigns to `speedTarget` in mode Low at the temperature
`T`. -/
def lowTarget (T : ℚ) : ℚ :=
  (updateSpeed { initState blankDevice with mode := 0, currTemp := T }).speedTarget

/-- An evaluation tick in mode Low starts the promotion timer. -/
def StartsTimer (T : ℚ) (s : State) : Prop :=
  s.mode = 0 ∧ T > highTemp ∧ s.highTempTimer = 0

/-- A controller in mode Critical with the target at 100 percent. -/
def steadyCrit : State :=
  { initState blankDevice with mode := 2, oldTemp := 74, speedTarget := 100 }

/-- A promotion (timer start at clock 100, promotion at clock 200) followed by a demotion
at 65 degrees. -/
def demotionRun : List Tick := [Tick.eval 71 100, Tick.eval 71 200, Tick.eval 65 300]

/-- What register traffic and the shutdown path leave alone: every variable of the
control logic. -/
structure SameControl (s s' : State) : Prop where
  speedSatisfied : s'.speedSatisfied = s.speedSatisfied
  speedTarget : s'.speedTarget = s.speedTarget
  currSpeed : s'.currSpeed = s.currSpeed
  mode : s'.mode = s.mode
  currTemp : s'.currTemp = s.currTemp
  oldTemp : s'.oldTemp = s.oldTemp
  highTempTimer : s'.highTempTimer = s.highTempTimer
  speedChangeRate : s'.speedChangeRate = s.speedChangeRate

/-! ## float64 rounding -/

theorem roundEven_ge (x : ℚ) : ⌊x⌋ ≤ roundEven x := by
  unfold roundEven
  split_ifs <;> omega

theorem roundEven_le (x : ℚ) : roundEven x ≤ ⌊x⌋ + 1 := by
  unfold roundEven
  split_ifs <;> omega

theorem roundEven_intCast (n : Int) : roundEven (n : ℚ) = n := by
  unfold roundEven
  simp

theorem roundEven_mono (x y : ℚ) (h : x ≤ y) : roundEven x ≤ roundEven y := by
  have hf : ⌊x⌋ ≤ ⌊y⌋ := Int.floor_mono h
  rcases lt_or_eq_of_le hf with hlt | heq
  · exact le_trans (roundEven_le x) (le_trans (by omega) (roundEven_ge y))
  · have hxy : x - ⌊x⌋ ≤ y - ⌊y⌋ := by rw [heq]; linarith
    unfold roundEven
    rw [heq]
    split_ifs <;> first | omega | (exfalso; linarith)

theorem abs_roundEven_sub (x : ℚ) : |((roundEven x : Int) : ℚ) - x| ≤ 1 / 2 := by
  have h1 : (⌊x⌋ : ℚ) ≤ x := Int.floor_le x
  have h2 : x < ⌊x⌋ + 1 := Int.lt_floor_add_one x
  rw [abs_le]
  unfold roundEven
  split_ifs <;> push_cast <;> constructor <;> linarith

theorem two_zpow_pos (e : Int) : (0 : ℚ) < (2 : ℚ) ^ e := zpow_pos (by norm_num) e

theorem two_zpow_mono {a b : Int} (h : a ≤ b) : (2 : ℚ) ^ a ≤ (2 : ℚ) ^ b :=
  zpow_le_zpow_right₀ (by norm_num) h

theorem exponent64_ge (x : ℚ) : -1022 ≤ exponent64 x := by
  unfold exponent64
  split_ifs with h
  · exact le_rfl
  · have hx : (2 : ℚ) ^ (-1022 : Int) ≤ |x| := not_lt.mp h
    have hpos : 0 < |x| := lt_of_lt_of_le (two_zpow_pos _) hx
    have := (Int.zpow_le_iff_le_log (b := 2) (by norm_num) hpos (x := -1022)).mp
      (by simpa using hx)
    exact this

theorem abs_lt_exponent64 (x : ℚ) : |x| < (2 : ℚ) ^ (exponent64 x + 1) := by
  unfold exponent64
  split_ifs with h
  · exact lt_of_lt_of_le h (two_zpow_mono (by norm_num))
  · have := Int.lt_zpow_succ_log_self (b := 2) (by norm_num) |x|
    simpa using this

theorem exponent64_le_abs (x : ℚ) (h : (2 : ℚ) ^ (-1022 : Int) ≤ |x|) :
    (2 : ℚ) ^ exponent64 x ≤ |x| := by
  unfold exponent64
  rw [if_neg (not_lt.mpr h)]
  have hpos : 0 < |x| := lt_of_lt_of_le (two_zpow_pos _) h
  have := Int.zpow_log_le_self (b := 2) (by norm_num) hpos
  simpa using this

theorem exponent64_eq (x : ℚ) (e : Int) (he : -1022 ≤ e) (h1 : (2 : ℚ) ^ e ≤ |x|)
    (h2 : |x| < (2 : ℚ) ^ (e + 1)) : exponent64 x = e := by
  have hn : (2 : ℚ) ^ (-1022 : Int) ≤ |x| := le_trans (two_zpow_mono he) h1
  have hpos : 0 < |x| := lt_of_lt_of_le (two_zpow_pos _) hn
  unfold exponent64
  rw [if_neg (not_lt.mpr hn)]
  have a1 : e ≤ Int.log 2 |x| :=
    (Int.zpow_le_iff_le_log (b := 2) (by norm_num) hpos).mp (by simpa using h1)
  have a2 : Int.log 2 |x| < e + 1 :=
    (Int.lt_zpow_iff_log_lt (b := 2) (by norm_num) hpos).mp (by simpa using h2)
  omega

theorem exponent64_le (x : ℚ) (k : Int) (hk : -1022 ≤ k) (h : |x| < (2 : ℚ) ^ (k + 1)) :
    exponent64 x ≤ k := by
  unfold exponent64
  split_ifs with hs
  · exact hk
  · have hn : (2 : ℚ) ^ (-1022 : Int) ≤ |x| := not_lt.mp hs
    have hpos : 0 < |x| := lt_of_lt_of_le (two_zpow_pos _) hn
    have a2 : Int.log 2 |x| < k + 1 :=
      (Int.lt_zpow_iff_log_lt (b := 2) (by norm_num) hpos).mp (by simpa using h)
    omega

theorem exponent64_mono (x y : ℚ) (h : |x| ≤ |y|) : exponent64 x ≤ exponent64 y :=
  exponent64_le x _ (exponent64_ge y) (lt_of_le_of_lt h (abs_lt_exponent64 y))

theorem exponent64_neg (x : ℚ) : exponent64 (-x) = exponent64 x := by
  unfold exponent64
  rw [abs_neg]

theorem ulp64_pos (x : ℚ) : 0 < ulp64 x := two_zpow_pos _

theorem ulp64_neg (x : ℚ) : ulp64 (-x) = ulp64 x := by
  unfold ulp64
  rw [exponent64_neg]

theorem roundFloat_of_nonneg (x : ℚ) (h : 0 ≤ x) :
    roundFloat x = ((roundEven (x / ulp64 x) : Int) : ℚ) * ulp64 x := by
  unfold roundFloat
  rw [if_neg (not_lt.mpr h), abs_of_nonneg h, one_mul]

theorem roundFloat_zero : roundFloat 0 = 0 := by
  rw [roundFloat_of_nonneg 0 le_rfl, zero_div]
  have : roundEven 0 = 0 := by simpa using roundEven_intCast 0
  rw [this]
  simp

theorem roundFloat_neg (x : ℚ) : roundFloat (-x) = -roundFloat x := by
  rcases lt_trichotomy x 0 with h | h | h
  · unfold roundFloat
    rw [if_neg (by linarith), if_pos h, abs_neg, ulp64_neg]
    ring
  · rw [h, neg_zero, roundFloat_zero, neg_zero]
  · unfold roundFloat
    rw [if_pos (by linarith), if_neg (by linarith), abs_neg, ulp64_neg]
    ring

theorem roundFloat_nonneg (x : ℚ) (h : 0 ≤ x) : 0 ≤ roundFloat x := by
  rw [roundFloat_of_nonneg x h]
  have h0 : (0 : Int) ≤ roundEven (x / ulp64 x) := by
    have := roundEven_mono 0 (x / ulp64 x) (div_nonneg h (le_of_lt (ulp64_pos x)))
    have h00 : roundEven 0 = 0 := by simpa using roundEven_intCast 0
    rwa [h00] at this
  exact mul_nonneg (by exact_mod_cast h0) (le_of_lt (ulp64_pos x))

theorem two_pow53_mul (e : Int) :
    (((2 : Int) ^ 53 : Int) : ℚ) * (2 : ℚ) ^ (e - 52) = (2 : ℚ) ^ (e + 1) := by
  have : (2 : ℚ) ^ (e + 1) = (2 : ℚ) ^ (53 : Int) * (2 : ℚ) ^ (e - 52) := by
    rw [← zpow_add₀ (by norm_num)]
    congr 1
    ring
  rw [this]
  norm_num

theorem two_pow52_mul (e : Int) :
    (((2 : Int) ^ 52 : Int) : ℚ) * (2 : ℚ) ^ (e - 52) = (2 : ℚ) ^ e := by
  have : (2 : ℚ) ^ e = (2 : ℚ) ^ (52 : Int) * (2 : ℚ) ^ (e - 52) := by
    rw [← zpow_add₀ (by norm_num)]
    congr 1
    ring
  rw [this]
  norm_num

/-- A rounded value stays in the binade of its argument, end points included. -/
theorem roundFloat_le_binade (x : ℚ) (h : 0 ≤ x) :
    roundFloat x ≤ (2 : ℚ) ^ (exponent64 x + 1) := by
  rw [roundFloat_of_nonneg x h]
  have hu := ulp64_pos x
  have hx : x / ulp64 x ≤ (((2 : Int) ^ 53 : Int) : ℚ) := by
    rw [div_le_iff₀ hu]
    have h2 := abs_lt_exponent64 x
    rw [abs_of_nonneg h] at h2
    have : (((2 : Int) ^ 53 : Int) : ℚ) * ulp64 x = (2 : ℚ) ^ (exponent64 x + 1) :=
      two_pow53_mul _
    rw [this]
    exact le_of_lt h2
  have hr := roundEven_mono _ _ hx
  rw [roundEven_intCast] at hr
  have hr2 : ((roundEven (x / ulp64 x) : Int) : ℚ) ≤ (((2 : Int) ^ 53 : Int) : ℚ) := by
    exact_mod_cast hr
  calc ((roundEven (x / ulp64 x) : Int) : ℚ) * ulp64 x
      ≤ (((2 : Int) ^ 53 : Int) : ℚ) * ulp64 x := mul_le_mul_of_nonneg_right hr2 (le_of_lt hu)
    _ = (2 : ℚ) ^ (exponent64 x + 1) := two_pow53_mul _

theorem roundFloat_ge_binade (x : ℚ) (h : (2 : ℚ) ^ (-1022 : Int) ≤ x) :
    (2 : ℚ) ^ exponent64 x ≤ roundFloat x := by
  have h0 : 0 ≤ x := le_trans (le_of_lt (two_zpow_pos _)) h
  rw [roundFloat_of_nonneg x h0]
  have hu := ulp64_pos x
  have key : (((2 : Int) ^ 52 : Int) : ℚ) * ulp64 x = (2 : ℚ) ^ exponent64 x :=
    two_pow52_mul _
  have hx : (((2 : Int) ^ 52 : Int) : ℚ) ≤ x / ulp64 x := by
    rw [le_div_iff₀ hu, key]
    have := exponent64_le_abs x (by rwa [abs_of_nonneg h0])
    rwa [abs_of_nonneg h0] at this
  have hr := roundEven_mono _ _ hx
  rw [roundEven_intCast] at hr
  have hr2 : (((2 : Int) ^ 52 : Int) : ℚ) ≤ ((roundEven (x / ulp64 x) : Int) : ℚ) := by
    exact_mod_cast hr
  calc (2 : ℚ) ^ exponent64 x = (((2 : Int) ^ 52 : Int) : ℚ) * ulp64 x := key.symm
    _ ≤ _ := mul_le_mul_of_nonneg_right hr2 (le_of_lt hu)

theorem roundFloat_mono_nonneg (x y : ℚ) (hx : 0 ≤ x) (h : x ≤ y) :
    roundFloat x ≤ roundFloat y := by
  have hy : 0 ≤ y := le_trans hx h
  have he : exponent64 x ≤ exponent64 y :=
    exponent64_mono x y (by rwa [abs_of_nonneg hx, abs_of_nonneg hy])
  rcases lt_or_eq_of_le he with hlt | heq
  · have hyn : (2 : ℚ) ^ (-1022 : Int) ≤ y := by
      by_contra hc
      have : exponent64 y = -1022 := by
        unfold exponent64
        rw [if_pos (by rw [abs_of_nonneg hy]; exact not_le.mp hc)]
      have := exponent64_ge x
      omega
    calc roundFloat x ≤ (2 : ℚ) ^ (exponent64 x + 1) := roundFloat_le_binade x hx
      _ ≤ (2 : ℚ) ^ exponent64 y := two_zpow_mono (by omega)
      _ ≤ roundFloat y := roundFloat_ge_binade y hyn
  · have hu : ulp64 x = ulp64 y := by unfold ulp64; rw [heq]
    rw [roundFloat_of_nonneg x hx, roundFloat_of_nonneg y hy, hu]
    have hdiv : x / ulp64 y ≤ y / ulp64 y := div_le_div_of_nonneg_right h (le_of_lt (ulp64_pos y))
    have := roundEven_mono _ _ hdiv
    exact mul_le_mul_of_nonneg_right (by exact_mod_cast this) (le_of_lt (ulp64_pos y))

theorem roundFloat_mono (x y : ℚ) (h : x ≤ y) : roundFloat x ≤ roundFloat y := by
  rcases le_or_lt 0 x with hx | hx
  · exact roundFloat_mono_nonneg x y hx h
  · rcases le_or_lt 0 y with hy | hy
    · have h1 := roundFloat_nonneg (-x) (by linarith)
      rw [roundFloat_neg] at h1
      have h2 := roundFloat_nonneg y hy
      linarith
    · have := roundFloat_mono_nonneg (-y) (-x) (by linarith) (by linarith)
      rw [roundFloat_neg, roundFloat_neg] at this
      linarith

theorem abs_roundFloat_sub (x : ℚ) : |roundFloat x - x| ≤ ulp64 x / 2 := by
  have hu := ulp64_pos x
  have key : ∀ z : ℚ, 0 ≤ z → |roundFloat z - z| ≤ ulp64 z / 2 := by
    intro z hz
    have hz2 := ulp64_pos z
    rw [roundFloat_of_nonneg z hz]
    have h := abs_roundEven_sub (z / ulp64 z)
    have e : ((roundEven (z / ulp64 z) : Int) : ℚ) * ulp64 z - z
        = (((roundEven (z / ulp64 z) : Int) : ℚ) - z / ulp64 z) * ulp64 z := by
      field_simp
    rw [e, abs_mul, abs_of_pos hz2]
    calc |((roundEven (z / ulp64 z) : Int) : ℚ) - z / ulp64 z| * ulp64 z
        ≤ 1 / 2 * ulp64 z := mul_le_mul_of_nonneg_right h (le_of_lt hz2)
      _ = ulp64 z / 2 := by ring
  rcases le_or_lt 0 x with hx | hx
  · exact key x hx
  · have := key (-x) (by linarith)
    rw [roundFloat_neg, ulp64_neg] at this
    have e : -roundFloat x - -x = -(roundFloat x - x) := by ring
    rwa [e, abs_neg] at this

theorem ulp64_le (x : ℚ) (k : Int) (hk : -1022 ≤ k) (h : |x| < (2 : ℚ) ^ (k + 1)) :
    ulp64 x ≤ (2 : ℚ) ^ (k - 52) := by
  unfold ulp64
  exact two_zpow_mono (by have := exponent64_le x k hk h; omega)

theorem roundFloat_exact (x : ℚ) (n : Int) (h : |x| / ulp64 x = n) : roundFloat x = x := by
  have key : ∀ z : ℚ, 0 ≤ z → ∀ m : Int, z / ulp64 z = m → roundFloat z = z := by
    intro z hz m hm
    rw [roundFloat_of_nonneg z hz, hm, roundEven_intCast, ← hm]
    field_simp [ne_of_gt (ulp64_pos z)]
  rcases le_or_lt 0 x with hx | hx
  · rw [abs_of_nonneg hx] at h
    exact key x hx n h
  · rw [abs_of_neg hx] at h
    have := key (-x) (by linarith) n (by rw [ulp64_neg]; exact h)
    rw [roundFloat_neg] at this
    linarith

/-- Rounding of a value whose binade is known. -/
theorem roundFloat_binade (x : ℚ) (e : Int) (hx : 0 ≤ x) (he : -1022 ≤ e)
    (h1 : (2 : ℚ) ^ e ≤ x) (h2 : x < (2 : ℚ) ^ (e + 1)) :
    roundFloat x = ((roundEven (x / (2 : ℚ) ^ (e - 52)) : Int) : ℚ) * (2 : ℚ) ^ (e - 52) := by
  have hexp : exponent64 x = e :=
    exponent64_eq x e he (by rwa [abs_of_nonneg hx]) (by rwa [abs_of_nonneg hx])
  rw [roundFloat_of_nonneg x hx]
  unfold ulp64
  rw [hexp]

theorem toFloat64_of_lt (x : ℚ) (h : |roundFloat x| < (2 : ℚ) ^ (1024 : Nat)) :
    toFloat64 x = some (roundFloat x) := by
  unfold toFloat64
  rw [if_pos h]

/-- A value between two values that round to finite numbers rounds to a finite number. -/
theorem toFloat64_of_bounds (x lo hi : ℚ) (h1 : lo ≤ x) (h2 : x ≤ hi)
    (hlo : -(2 : ℚ) ^ (1024 : Nat) < roundFloat lo) (hhi : roundFloat hi < (2 : ℚ) ^ (1024 : Nat)) :
    toFloat64 x = some (roundFloat x) := by
  apply toFloat64_of_lt
  rw [abs_lt]
  exact ⟨lt_of_lt_of_le hlo (roundFloat_mono _ _ h1), lt_of_le_of_lt (roundFloat_mono _ _ h2) hhi⟩

theorem roundFloat_intCast (n : Int) (h : |n| < 2 ^ 53) : roundFloat (n : ℚ) = n := by
  have hk : exponent64 (n : ℚ) ≤ 52 := by
    apply exponent64_le _ 52 (by norm_num)
    have : |(n : ℚ)| < 2 ^ 53 := by exact_mod_cast h
    calc |(n : ℚ)| < 2 ^ 53 := this
      _ = (2 : ℚ) ^ ((52 : Int) + 1) := by norm_num
  have hu : ulp64 (n : ℚ) = ((2 : ℚ) ^ (52 - exponent64 (n : ℚ)).toNat)⁻¹ := by
    unfold ulp64
    have e1 : exponent64 (n : ℚ) - 52 = -(((52 - exponent64 (n : ℚ)).toNat : Int)) := by
      omega
    rw [e1, zpow_neg, zpow_natCast]
  apply roundFloat_exact (n : ℚ) (|n| * 2 ^ (52 - exponent64 (n : ℚ)).toNat)
  rw [hu, div_inv_eq_mul]
  push_cast
  rfl

theorem roundFloat_natCast (n : Nat) (h : n < 2 ^ 53) : roundFloat (n : ℚ) = n := by
  have := roundFloat_intCast (n : Int) (by rw [abs_of_nonneg (by positivity)]; exact_mod_cast h)
  simpa using this

/-- A value whose binade is known and which is a multiple of the spacing there is a
float64 value. -/
theorem roundFloat_exact_binade (x : ℚ) (e n : Int) (he : -1022 ≤ e)
    (h1 : (2 : ℚ) ^ e ≤ |x|) (h2 : |x| < (2 : ℚ) ^ (e + 1))
    (hn : |x| / (2 : ℚ) ^ (e - 52) = n) : roundFloat x = x := by
  apply roundFloat_exact x n
  unfold ulp64
  rw [exponent64_eq x e he h1 h2]
  exact hn

theorem roundFloat_one : roundFloat 1 = 1 := by
  simpa using roundFloat_natCast 1 (by norm_num)

theorem float64ToInt_floor (v : ℚ) (h1 : minInt64 ≤ ⌊v⌋) (h2 : ⌊v⌋ ≤ maxInt64) :
    float64ToInt (mathFloor (some v)) = ⌊v⌋ := by
  simp only [mathFloor, Option.map_some', float64ToInt]
  have e : (if (0 : ℚ) ≤ ((⌊v⌋ : Int) : ℚ) then ⌊((⌊v⌋ : Int) : ℚ)⌋ else ⌈((⌊v⌋ : Int) : ℚ)⌉)
      = ⌊v⌋ := by
    split_ifs <;> simp
  rw [e, if_pos ⟨h1, h2⟩]

/-! ## The register value -/

theorem roundFloat_of_isFloat64 (x : ℚ) (h : IsFloat64 x) : roundFloat x = x := by
  unfold IsFloat64 toFloat64 at h
  split_ifs at h
  exact Option.some.inj h

theorem roundFloat_two_pow62 : roundFloat ((2 : ℚ) ^ (62 : Nat)) = (2 : ℚ) ^ (62 : Nat) :=
  roundFloat_exact_binade _ 62 (2 ^ 52) (by norm_num) (by norm_num) (by norm_num)
    (by norm_num)

theorem roundFloat_three_pow61 :
    roundFloat (3 * (2 : ℚ) ^ (61 : Nat)) = 3 * (2 : ℚ) ^ (61 : Nat) :=
  roundFloat_exact_binade _ 62 (3 * 2 ^ 51) (by norm_num) (by norm_num) (by norm_num)
    (by norm_num)

theorem roundFloat_neg_pow61 :
    roundFloat (-(2 : ℚ) ^ (61 : Nat)) = -(2 : ℚ) ^ (61 : Nat) := by
  rw [roundFloat_neg]
  congr 1
  exact roundFloat_exact_binade _ 61 (2 ^ 52) (by norm_num) (by norm_num) (by norm_num)
    (by norm_num)

theorem toFloat64_of_abs_le (x M : ℚ) (h : |roundFloat x| ≤ M) (hM : M < (2 : ℚ) ^ (1024 : Nat)) :
    toFloat64 x = some (roundFloat x) :=
  toFloat64_of_lt x (lt_of_le_of_lt h hM)

/-- The rounded speed fraction of a percentage lies between 0 and 1. -/
theorem roundFloat_fraction (x : ℚ) (h0 : 0 ≤ x) (h1 : x ≤ 100) :
    0 ≤ roundFloat (x / 100) ∧ roundFloat (x / 100) ≤ 1 := by
  refine ⟨roundFloat_nonneg _ (by positivity), ?_⟩
  have := roundFloat_mono (x / 100) 1 (by rw [div_le_one (by norm_num)]; exact h1)
  rwa [roundFloat_one] at this

/-- For flags between `-2^61` and `2^61` and a percentage, no operation of the mapping
overflows, and the result stays within the 64-bit integers. -/
theorem ecScaled_finite (cfg : Config) (x : ℚ) (h0 : 0 ≤ x) (h1 : x ≤ 100)
    (hle : cfg.ecMin ≤ cfg.ecMax) (hlo : -(2 : ℚ) ^ (61 : Nat) ≤ cfg.ecMin)
    (hhi : cfg.ecMax ≤ (2 : ℚ) ^ (61 : Nat)) :
    ecScaled cfg x = some (ecRounded cfg x)
    ∧ roundFloat cfg.ecMin ≤ ecRounded cfg x
    ∧ -(2 : ℚ) ^ (61 : Nat) ≤ ecRounded cfg x
    ∧ ecRounded cfg x ≤ 3 * (2 : ℚ) ^ (61 : Nat) := by
  obtain ⟨hA0, hA1⟩ := roundFloat_fraction x h0 h1
  have hbig : (3 : ℚ) * (2 : ℚ) ^ (61 : Nat) < (2 : ℚ) ^ (1024 : Nat) := by norm_num
  have hbig2 : (2 : ℚ) ^ (62 : Nat) < (2 : ℚ) ^ (1024 : Nat) := by norm_num
  have hD0 : 0 ≤ roundFloat (cfg.ecMax - cfg.ecMin) := roundFloat_nonneg _ (by linarith)
  have hD1 : roundFloat (cfg.ecMax - cfg.ecMin) ≤ (2 : ℚ) ^ (62 : Nat) := by
    have := roundFloat_mono (cfg.ecMax - cfg.ecMin) ((2 : ℚ) ^ (62 : Nat))
      (by norm_num at hlo hhi ⊢; linarith)
    rwa [roundFloat_two_pow62] at this
  have hAD0 : 0 ≤ roundFloat (x / 100) * roundFloat (cfg.ecMax - cfg.ecMin) :=
    mul_nonneg hA0 hD0
  have hAD1 : roundFloat (x / 100) * roundFloat (cfg.ecMax - cfg.ecMin) ≤ (2 : ℚ) ^ (62 : Nat) :=
    le_trans (mul_le_of_le_one_left hD0 hA1) hD1
  have hP0 : 0 ≤ roundFloat (roundFloat (x / 100) * roundFloat (cfg.ecMax - cfg.ecMin)) :=
    roundFloat_nonneg _ hAD0
  have hP1 : roundFloat (roundFloat (x / 100) * roundFloat (cfg.ecMax - cfg.ecMin))
      ≤ (2 : ℚ) ^ (62 : Nat) := by
    have := roundFloat_mono _ _ hAD1
    rwa [roundFloat_two_pow62] at this
  have hV0 : roundFloat cfg.ecMin ≤ ecRounded cfg x :=
    roundFloat_mono _ _ (by linarith)
  have hV0b : -(2 : ℚ) ^ (61 : Nat) ≤ ecRounded cfg x := by
    have := roundFloat_mono _ _ hlo
    rw [roundFloat_neg_pow61] at this
    exact le_trans this hV0
  have hV1 : ecRounded cfg x ≤ 3 * (2 : ℚ) ^ (61 : Nat) := by
    have := roundFloat_mono
      (roundFloat (roundFloat (x / 100) * roundFloat (cfg.ecMax - cfg.ecMin)) + cfg.ecMin)
      (3 * (2 : ℚ) ^ (61 : Nat)) (by norm_num at hP1 hhi ⊢; linarith)
    rwa [roundFloat_three_pow61] at this
  refine ⟨?_, hV0, hV0b, hV1⟩
  unfold ecScaled
  rw [toFloat64_of_abs_le (x / 100) 1 (by rw [abs_of_nonneg hA0]; exact hA1) (by norm_num),
    Option.some_bind,
    toFloat64_of_abs_le (cfg.ecMax - cfg.ecMin) _ (by rw [abs_of_nonneg hD0]; exact hD1) hbig2,
    Option.some_bind,
    toFloat64_of_abs_le _ _ (by rw [abs_of_nonneg hP0]; exact hP1) hbig2,
    Option.some_bind]
  exact toFloat64_of_abs_le _ (3 * (2 : ℚ) ^ (61 : Nat))
    (by
      rw [abs_le]
      exact ⟨by unfold ecRounded at hV0b; norm_num at hV0b ⊢; linarith, hV1⟩) hbig

theorem ecValOf_eq_floor (cfg : Config) (x : ℚ) (h0 : 0 ≤ x) (h1 : x ≤ 100)
    (hle : cfg.ecMin ≤ cfg.ecMax) (hlo : -(2 : ℚ) ^ (61 : Nat) ≤ cfg.ecMin)
    (hhi : cfg.ecMax ≤ (2 : ℚ) ^ (61 : Nat)) :
    ecValOf cfg x = ⌊ecRounded cfg x⌋ := by
  obtain ⟨hs, -, hlo2, hhi2⟩ := ecScaled_finite cfg x h0 h1 hle hlo hhi
  unfold ecValOf
  rw [hs]
  apply float64ToInt_floor
  · have : ((-(2 : Int) ^ 61 : Int) : ℚ) ≤ ecRounded cfg x := by push_cast; exact hlo2
    have := Int.le_floor.mpr this
    unfold minInt64
    omega
  · have h3 : ecRounded cfg x < (((3 * 2 ^ 61 + 1 : Int) : Int) : ℚ) := by
      push_cast; linarith
    have := Int.floor_lt.mpr h3
    unfold maxInt64
    omega

theorem ecRounded_mono (cfg : Config) (hle : cfg.ecMin ≤ cfg.ecMax) (x y : ℚ) (h : x ≤ y) :
    ecRounded cfg x ≤ ecRounded cfg y := by
  unfold ecRounded
  apply roundFloat_mono
  apply add_le_add_right
  apply roundFloat_mono
  apply mul_le_mul_of_nonneg_right
  · exact roundFloat_mono _ _ (div_le_div_of_nonneg_right h (by norm_num))
  · exact roundFloat_nonneg _ (by linarith)

theorem ecRounded_zero (cfg : Config) (h : IsFloat64 cfg.ecMin) :
    ecRounded cfg 0 = cfg.ecMin := by
  unfold ecRounded
  rw [zero_div, roundFloat_zero, zero_mul, roundFloat_zero, zero_add,
    roundFloat_of_isFloat64 _ h]

theorem ecRounded_hundred (cfg : Config) (h : IsFloat64 cfg.ecMax)
    (hd : IsFloat64 (cfg.ecMax - cfg.ecMin)) : ecRounded cfg 100 = cfg.ecMax := by
  unfold ecRounded
  rw [div_self (by norm_num), roundFloat_one, one_mul, roundFloat_of_isFloat64 _ hd,
    roundFloat_of_isFloat64 _ hd, sub_add_cancel, roundFloat_of_isFloat64 _ h]

/-- A nonnegative value whose binade is known and which is a multiple of the spacing there
is a float64 value. -/
theorem roundFloat_exact_pos (x : ℚ) (e n : Int) (hx : 0 ≤ x) (he : -1022 ≤ e)
    (h1 : (2 : ℚ) ^ e ≤ x) (h2 : x < (2 : ℚ) ^ (e + 1))
    (hn : x / (2 : ℚ) ^ (e - 52) = n) : roundFloat x = x :=
  roundFloat_exact_binade x e n he (by rwa [abs_of_nonneg hx]) (by rwa [abs_of_nonneg hx])
    (by rwa [abs_of_nonneg hx])

/-- The rounding error of a value below `2^(k+1)` is at most `2^(k-53)`. -/
theorem roundFloat_error (x : ℚ) (k : Int) (hk : -1022 ≤ k) (h : |x| < (2 : ℚ) ^ (k + 1)) :
    |roundFloat x - x| ≤ (2 : ℚ) ^ (k - 53) := by
  have h1 := abs_roundFloat_sub x
  have h2 := ulp64_le x k hk h
  have e : (2 : ℚ) ^ (k - 52) / 2 = (2 : ℚ) ^ (k - 53) := by
    have : (2 : ℚ) ^ (k - 52) = (2 : ℚ) ^ (k - 53) * 2 := by
      rw [← zpow_add_one₀ (by norm_num)]
      congr 1
      ring
    rw [this]
    ring
  calc |roundFloat x - x| ≤ ulp64 x / 2 := h1
    _ ≤ (2 : ℚ) ^ (k - 52) / 2 := by linarith
    _ = (2 : ℚ) ^ (k - 53) := e

/-- With the default flags 0 and 48 the rounded value is within `2^(-46)` of the exact
one. -/
theorem ecRounded_default_near (cfg : Config) (hmin : cfg.ecMin = 0) (hmax : cfg.ecMax = 48)
    (x : ℚ) (h0 : 0 ≤ x) (h1 : x ≤ 100) :
    |ecRounded cfg x - x / 100 * 48| ≤ (2 : ℚ) ^ (-46 : Int) := by
  unfold ecRounded
  rw [hmin, hmax, sub_zero, add_zero]
  have h48 : roundFloat 48 = 48 := by simpa using roundFloat_natCast 48 (by norm_num)
  rw [h48]
  obtain ⟨hA0, hA1⟩ := roundFloat_fraction x h0 h1
  have hx : |x / 100| < (2 : ℚ) ^ ((0 : Int) + 1) := by
    rw [abs_of_nonneg (by positivity)]
    have : x / 100 ≤ 1 := by rw [div_le_one (by norm_num)]; exact h1
    norm_num
    linarith
  have e1 := roundFloat_error (x / 100) 0 (by norm_num) hx
  have hAD : |roundFloat (x / 100) * 48| < (2 : ℚ) ^ ((5 : Int) + 1) := by
    rw [abs_of_nonneg (by positivity)]
    norm_num
    linarith
  have e2 := roundFloat_error (roundFloat (x / 100) * 48) 5 (by norm_num) hAD
  have hP0 : 0 ≤ roundFloat (roundFloat (x / 100) * 48) := roundFloat_nonneg _ (by positivity)
  have hP1 : roundFloat (roundFloat (x / 100) * 48) ≤ 48 := by
    have := roundFloat_mono (roundFloat (x / 100) * 48) 48 (by linarith)
    rwa [h48] at this
  have hP : |roundFloat (roundFloat (x / 100) * 48)| < (2 : ℚ) ^ ((5 : Int) + 1) := by
    rw [abs_of_nonneg hP0]
    norm_num
    linarith
  have e3 := roundFloat_error (roundFloat (roundFloat (x / 100) * 48)) 5 (by norm_num) hP
  rw [abs_le] at e1 e2 e3 ⊢
  norm_num at e1 e2 e3 ⊢
  constructor <;> linarith

/-- With the default flags and a whole-number percentage, the float64 computation gives the
exact floor. -/
theorem ecValOf_default (cfg : Config) (hmin : cfg.ecMin = 0) (hmax : cfg.ecMax = 48)
    (n : Nat) (hn : n ≤ 100) :
    ecValOf cfg (n : ℚ) = ((n * 48 / 100 : Nat) : Int) := by
  have h0 : (0 : ℚ) ≤ (n : ℚ) := by positivity
  have h1 : (n : ℚ) ≤ 100 := by exact_mod_cast hn
  rw [ecValOf_eq_floor cfg n h0 h1 (by rw [hmin, hmax]; norm_num) (by rw [hmin]; norm_num)
    (by rw [hmax]; norm_num)]
  have hnear := ecRounded_default_near cfg hmin hmax n h0 h1
  rw [abs_le] at hnear
  have hdm : n * 48 = 100 * (n * 48 / 100) + n * 48 % 100 := (Nat.div_add_mod _ _).symm
  have hq : (n : ℚ) * 48 = 100 * ((n * 48 / 100 : Nat) : ℚ) + ((n * 48 % 100 : Nat) : ℚ) := by
    exact_mod_cast hdm
  have hex : (n : ℚ) / 100 * 48 = ((n * 48 / 100 : Nat) : ℚ) + ((n * 48 % 100 : Nat) : ℚ) / 100 := by
    field_simp
    linarith
  by_cases hr : n * 48 % 100 = 0
  · -- the exact value is a whole number: every step is exact
    have hcases : n = 0 ∨ n = 25 ∨ n = 50 ∨ n = 75 ∨ n = 100 := by omega
    have h48 : roundFloat 48 = 48 := by simpa using roundFloat_natCast 48 (by norm_num)
    have hval : ecRounded cfg n = ((n * 48 / 100 : Nat) : ℚ) := by
      unfold ecRounded
      rw [hmin, hmax, sub_zero, add_zero, h48]
      rcases hcases with h | h | h | h | h <;> subst h
      · norm_num [roundFloat_zero]
      · have a : roundFloat ((1 / 4 : ℚ)) = 1 / 4 :=
          roundFloat_exact_pos (1 / 4) (-2) (2 ^ 52) (by norm_num) (by norm_num) (by norm_num)
            (by norm_num) (by norm_num)
        have b : roundFloat 12 = 12 := by simpa using roundFloat_natCast 12 (by norm_num)
        norm_num [a, b]
      · have a : roundFloat ((1 / 2 : ℚ)) = 1 / 2 :=
          roundFloat_exact_pos (1 / 2) (-1) (2 ^ 52) (by norm_num) (by norm_num) (by norm_num)
            (by norm_num) (by norm_num)
        have b : roundFloat 24 = 24 := by simpa using roundFloat_natCast 24 (by norm_num)
        norm_num [a, b]
      · have a : roundFloat ((3 / 4 : ℚ)) = 3 / 4 :=
          roundFloat_exact_pos (3 / 4) (-1) (3 * 2 ^ 51) (by norm_num) (by norm_num) (by norm_num)
            (by norm_num) (by norm_num)
        have b : roundFloat 36 = 36 := by simpa using roundFloat_natCast 36 (by norm_num)
        norm_num [a, b]
      · norm_num [roundFloat_one, h48]
    rw [hval]
    exact Int.floor_natCast _
  · have hr1 : 1 ≤ n * 48 % 100 := by omega
    have hr4 : n * 48 % 100 % 4 = 0 := by omega
    have hr2 : 4 ≤ n * 48 % 100 := by omega
    have hr3 : n * 48 % 100 ≤ 96 := by omega
    have hrl : (4 : ℚ) ≤ ((n * 48 % 100 : Nat) : ℚ) := by exact_mod_cast hr2
    have hru : ((n * 48 % 100 : Nat) : ℚ) ≤ 96 := by exact_mod_cast hr3
    rw [hex] at hnear
    clear hex hq hdm hr hr1 hr4 hr2 hr3
    generalize n * 48 / 100 = m at hnear ⊢
    generalize n * 48 % 100 = r at hnear hrl hru
    rw [Int.floor_eq_iff]
    norm_num at hnear
    push_cast
    constructor <;> linarith [hnear.1, hnear.2]

/-- The flags 0 and 100. -/
theorem ecValOf_percent_29 (cfg : Config) (hmin : cfg.ecMin = 0) (hmax : cfg.ecMax = 100) :
    ecValOf cfg 29 = 28 := by
  have h100 : roundFloat 100 = 100 := by simpa using roundFloat_natCast 100 (by norm_num)
  have ha : roundFloat ((29 : ℚ) / 100) = 5224175567749775 / 18014398509481984 := by
    rw [roundFloat_binade _ (-2) (by norm_num) (by norm_num) (by norm_num) (by norm_num)]
    norm_num [roundEven]
  have hp : roundFloat ((5224175567749775 : ℚ) / 18014398509481984 * 100)
      = 8162774324609023 / 281474976710656 := by
    rw [roundFloat_binade _ 4 (by norm_num) (by norm_num) (by norm_num) (by norm_num)]
    norm_num [roundEven]
  have hv : roundFloat ((8162774324609023 : ℚ) / 281474976710656)
      = 8162774324609023 / 281474976710656 :=
    roundFloat_exact_pos _ 4 8162774324609023 (by norm_num) (by norm_num) (by norm_num)
      (by norm_num) (by norm_num)
  rw [ecValOf_eq_floor cfg 29 (by norm_num) (by norm_num) (by rw [hmin, hmax]; norm_num)
    (by rw [hmin]; norm_num) (by rw [hmax]; norm_num)]
  unfold ecRounded
  rw [hmin, hmax, sub_zero, add_zero, h100, ha, hp, hv]
  norm_num

theorem isFloat64_of_exact (x : ℚ) (h : roundFloat x = x) (hlt : |x| < (2 : ℚ) ^ (1024 : Nat)) :
    IsFloat64 x := by
  unfold IsFloat64
  rw [toFloat64_of_lt x (by rw [h]; exact hlt), h]

theorem isFloat64_natCast (n : Nat) (h : n < 2 ^ 53) : IsFloat64 (n : ℚ) := by
  apply isFloat64_of_exact _ (roundFloat_natCast n h)
  rw [abs_of_nonneg (by positivity)]
  have h1 : (n : ℚ) < 2 ^ 53 := by exact_mod_cast h
  have h2 : (2 : ℚ) ^ 53 < (2 : ℚ) ^ (1024 : Nat) := by norm_num
  linarith

/-- With flags between 0 and 255 the rounded value of a percentage stays below 256. -/
theorem ecRounded_byte (cfg : Config) (x : ℚ) (h0 : 0 ≤ x) (h1 : x ≤ 100)
    (hle : cfg.ecMin ≤ cfg.ecMax) (hmin : 0 ≤ cfg.ecMin) (hmax : cfg.ecMax ≤ 255) :
    0 ≤ ecRounded cfg x ∧ ecRounded cfg x < 256 := by
  obtain ⟨hA0, hA1⟩ := roundFloat_fraction x h0 h1
  have hD0 : 0 ≤ roundFloat (cfg.ecMax - cfg.ecMin) := roundFloat_nonneg _ (by linarith)
  have h255 : roundFloat 255 = 255 := by simpa using roundFloat_natCast 255 (by norm_num)
  have hD255 : roundFloat (cfg.ecMax - cfg.ecMin) ≤ 255 := by
    have := roundFloat_mono (cfg.ecMax - cfg.ecMin) 255 (by linarith)
    rwa [h255] at this
  have eD := roundFloat_error (cfg.ecMax - cfg.ecMin) 7 (by norm_num)
    (by rw [abs_of_nonneg (by linarith)]; norm_num; linarith)
  have hAD0 : 0 ≤ roundFloat (x / 100) * roundFloat (cfg.ecMax - cfg.ecMin) :=
    mul_nonneg hA0 hD0
  have hAD1 : roundFloat (x / 100) * roundFloat (cfg.ecMax - cfg.ecMin)
      ≤ roundFloat (cfg.ecMax - cfg.ecMin) := mul_le_of_le_one_left hD0 hA1
  have eP := roundFloat_error (roundFloat (x / 100) * roundFloat (cfg.ecMax - cfg.ecMin)) 7
    (by norm_num) (by rw [abs_of_nonneg hAD0]; norm_num; linarith)
  have hP0 : 0 ≤ roundFloat (roundFloat (x / 100) * roundFloat (cfg.ecMax - cfg.ecMin)) :=
    roundFloat_nonneg _ hAD0
  rw [abs_le] at eD eP
  norm_num at eD eP
  have hsum : roundFloat (roundFloat (x / 100) * roundFloat (cfg.ecMax - cfg.ecMin))
      + cfg.ecMin ≤ 255 + 1 / 35184372088832 := by linarith [eD.1, eD.2, eP.1, eP.2]
  have hexact : roundFloat ((255 : ℚ) + 1 / 35184372088832) = 255 + 1 / 35184372088832 :=
    roundFloat_exact_pos _ 7 (255 * 2 ^ 45 + 1) (by norm_num) (by norm_num) (by norm_num)
      (by norm_num) (by norm_num)
  constructor
  · exact roundFloat_nonneg _ (by linarith)
  · have := roundFloat_mono _ _ hsum
    rw [hexact] at this
    unfold ecRounded
    linarith

theorem roundFloat_ten_pow19 :
    roundFloat (10000000000000000000 : ℚ) = 10000000000000000000 :=
  roundFloat_exact_pos _ 63 (2 ^ 8 * 5 ^ 19) (by norm_num) (by norm_num) (by norm_num)
    (by norm_num) (by norm_num)

/-- With the flags 0 and 10^19 the value at 100 percent leaves the 64-bit integers. -/
theorem ecValOf_overflow (cfg : Config) (hmin : cfg.ecMin = 0)
    (hmax : cfg.ecMax = 10000000000000000000) : ecValOf cfg 100 = minInt64 := by
  have hbig : |(10000000000000000000 : ℚ)| < (2 : ℚ) ^ (1024 : Nat) := by
    rw [abs_of_nonneg (by norm_num)]; norm_num
  have h1 : toFloat64 ((100 : ℚ) / 100) = some 1 := by
    have := isFloat64_natCast 1 (by norm_num)
    unfold IsFloat64 at this
    norm_num at this ⊢
    exact this
  have h2 : toFloat64 (10000000000000000000 : ℚ) = some 10000000000000000000 :=
    isFloat64_of_exact _ roundFloat_ten_pow19 hbig
  unfold ecValOf ecScaled
  rw [hmin, hmax, sub_zero, h1, Option.some_bind, h2, Option.some_bind, one_mul, h2,
    Option.some_bind, add_zero, h2]
  norm_num [mathFloor, float64ToInt, minInt64, maxInt64]

/-- With flags between 0 and 255 the float64 value of the mapping is within `2^(-43)` of
the exact value of the formula. -/
theorem ecRounded_near (cfg : Config) (x : ℚ) (h0 : 0 ≤ x) (h1 : x ≤ 100)
    (hle : cfg.ecMin ≤ cfg.ecMax) (hmin : 0 ≤ cfg.ecMin) (hmax : cfg.ecMax ≤ 255) :
    |ecRounded cfg x - (x / 100 * (cfg.ecMax - cfg.ecMin) + cfg.ecMin)|
      ≤ (2 : ℚ) ^ (-43 : Int) := by
  obtain ⟨hA0, hA1⟩ := roundFloat_fraction x h0 h1
  have hx0 : 0 ≤ x / 100 := by positivity
  have hx1 : x / 100 ≤ 1 := by rw [div_le_one (by norm_num)]; exact h1
  have hd0 : 0 ≤ cfg.ecMax - cfg.ecMin := by linarith
  have hD0 : 0 ≤ roundFloat (cfg.ecMax - cfg.ecMin) := roundFloat_nonneg _ hd0
  have h255 : roundFloat 255 = 255 := by simpa using roundFloat_natCast 255 (by norm_num)
  have hD255 : roundFloat (cfg.ecMax - cfg.ecMin) ≤ 255 := by
    have := roundFloat_mono (cfg.ecMax - cfg.ecMin) 255 (by linarith)
    rwa [h255] at this
  have eA := roundFloat_error (x / 100) 0 (by norm_num)
    (by rw [abs_of_nonneg hx0]; norm_num; linarith)
  have eD := roundFloat_error (cfg.ecMax - cfg.ecMin) 7 (by norm_num)
    (by rw [abs_of_nonneg hd0]; norm_num; linarith)
  have hAD0 : 0 ≤ roundFloat (x / 100) * roundFloat (cfg.ecMax - cfg.ecMin) :=
    mul_nonneg hA0 hD0
  have hAD1 : roundFloat (x / 100) * roundFloat (cfg.ecMax - cfg.ecMin) ≤ 255 :=
    le_trans (mul_le_of_le_one_left hD0 hA1) hD255
  have eP := roundFloat_error (roundFloat (x / 100) * roundFloat (cfg.ecMax - cfg.ecMin)) 7
    (by norm_num) (by rw [abs_of_nonneg hAD0]; norm_num; linarith)
  have hP0 : 0 ≤ roundFloat (roundFloat (x / 100) * roundFloat (cfg.ecMax - cfg.ecMin)) :=
    roundFloat_nonneg _ hAD0
  have hP1 : roundFloat (roundFloat (x / 100) * roundFloat (cfg.ecMax - cfg.ecMin)) ≤ 255 := by
    have := roundFloat_mono _ _ hAD1
    rwa [h255] at this
  have eV := roundFloat_error
    (roundFloat (roundFloat (x / 100) * roundFloat (cfg.ecMax - cfg.ecMin)) + cfg.ecMin) 8
    (by norm_num) (by rw [abs_of_nonneg (by linarith)]; norm_num; linarith)
  -- the product of the two rounded factors against the exact product
  have eprod : |roundFloat (x / 100) * roundFloat (cfg.ecMax - cfg.ecMin)
      - x / 100 * (cfg.ecMax - cfg.ecMin)| ≤ 255 * (2 : ℚ) ^ ((0 : Int) - 53)
        + (2 : ℚ) ^ ((7 : Int) - 53) := by
    have e : roundFloat (x / 100) * roundFloat (cfg.ecMax - cfg.ecMin)
        - x / 100 * (cfg.ecMax - cfg.ecMin)
        = (roundFloat (x / 100) - x / 100) * roundFloat (cfg.ecMax - cfg.ecMin)
          + x / 100 * (roundFloat (cfg.ecMax - cfg.ecMin) - (cfg.ecMax - cfg.ecMin)) := by
      ring
    rw [e]
    refine le_trans (abs_add _ _) (add_le_add ?_ ?_)
    · rw [abs_mul, abs_of_nonneg hD0, mul_comm]
      exact mul_le_mul hD255 eA (abs_nonneg _) (by norm_num)
    · rw [abs_mul, abs_of_nonneg hx0]
      calc x / 100 * |roundFloat (cfg.ecMax - cfg.ecMin) - (cfg.ecMax - cfg.ecMin)|
          ≤ 1 * (2 : ℚ) ^ ((7 : Int) - 53) := mul_le_mul hx1 eD (abs_nonneg _) (by norm_num)
        _ = (2 : ℚ) ^ ((7 : Int) - 53) := one_mul _
  unfold ecRounded
  rw [abs_le] at eP eV eprod ⊢
  norm_num at eP eV eprod ⊢
  constructor <;> linarith [eP.1, eP.2, eV.1, eV.2, eprod.1, eprod.2]

/-- With the flags 0 and 10^19 the value at 0 percent is 0. -/
theorem ecValOf_huge_zero : ecValOf hugeConfig 0 = 0 := by
  have hbig : |(10000000000000000000 : ℚ)| < (2 : ℚ) ^ (1024 : Nat) := by
    rw [abs_of_nonneg (by norm_num)]; norm_num
  have h0 : toFloat64 0 = some 0 := by
    simpa using isFloat64_natCast 0 (by norm_num)
  have h2 : toFloat64 (10000000000000000000 : ℚ) = some 10000000000000000000 :=
    isFloat64_of_exact _ roundFloat_ten_pow19 hbig
  have e1 : hugeConfig.ecMin = 0 := rfl
  have e2 : hugeConfig.ecMax = 10000000000000000000 := rfl
  unfold ecValOf ecScaled
  rw [e1, e2, sub_zero, zero_div, h0, Option.some_bind, h2, Option.some_bind, zero_mul, h0,
    Option.some_bind, add_zero, h0]
  norm_num [mathFloor, float64ToInt, minInt64, maxInt64]

theorem ecValOf_defaultConfig (n : Nat) (hn : n ≤ 100) :
    ecValOf defaultConfig (n : ℚ) = ((n * 48 / 100 : Nat) : Int) :=
  ecValOf_default defaultConfig rfl rfl n hn

/-! ## Register traffic: basic facts -/

theorem Device.writeAt_ok (d : Device) (address : Int) (b : Nat)
    (ho : d.openOk = true) (hw : d.writeOk address = true) :
    d.writeAt address b = .ok (d.written address b) := by
  simp [Device.writeAt, ho, hw]

theorem quit_state {α : Type} (cfg : Config) (e : Err) (s : State) :
    ∃ g d, (quit cfg e s : Outcome α).state = { s with gracefulQuitTried := g, ec := d } := by
  unfold quit
  by_cases h : s.gracefulQuitTried = false
  · simp only [h, if_true]
    cases hw : Device.writeAt s.ec cfg.manualAddr (toByte 0) with
    | ok d => exact ⟨true, d, by simp [Outcome.state, hw]⟩
    | error e2 => exact ⟨true, s.ec, by simp [Outcome.state, hw]⟩
  · refine ⟨s.gracefulQuitTried, s.ec, ?_⟩
    rw [if_neg h]
    rfl

theorem writeEC_state (cfg : Config) (address value : Int) (s : State) :
    ∃ g d, (writeEC cfg address value s).state = { s with gracefulQuitTried := g, ec := d } := by
  unfold writeEC
  cases hw : Device.writeAt s.ec address (toByte value) with
  | ok d => exact ⟨s.gracefulQuitTried, d, by simp [Outcome.state]⟩
  | error e => exact quit_state cfg e s

theorem writeEC_ok (cfg : Config) (address value : Int) (s : State)
    (ho : s.ec.openOk = true) (hw : s.ec.writeOk address = true) :
    writeEC cfg address value s
      = .returned () { s with ec := s.ec.written address (toByte value) } := by
  simp [writeEC, Device.writeAt_ok _ _ _ ho hw]

theorem writeSpeed_state (cfg : Config) (s : State) :
    ∃ g d, (writeSpeed cfg s).state
      = { s with lastECVal := ecValOf cfg s.currSpeed, gracefulQuitTried := g, ec := d } := by
  unfold writeSpeed
  by_cases h : ecValOf cfg s.currSpeed = s.lastECVal
  · exact ⟨s.gracefulQuitTried, s.ec, by simp [h, Outcome.state]⟩
  · obtain ⟨g, d, hgd⟩ := writeEC_state cfg cfg.ecAddr (ecValOf cfg s.currSpeed)
      { s with lastECVal := ecValOf cfg s.currSpeed }
    exact ⟨g, d, by simp [h, hgd]⟩

theorem writeSpeed_ok (cfg : Config) (s : State)
    (ho : s.ec.openOk = true) (hw : s.ec.writeOk cfg.ecAddr = true) :
    writeSpeed cfg s = .returned ()
      (if ecValOf cfg s.currSpeed ≠ s.lastECVal then
        { s with lastECVal := ecValOf cfg s.currSpeed,
                 ec := s.ec.written cfg.ecAddr (toByte (ecValOf cfg s.currSpeed)) }
       else s) := by
  unfold writeSpeed
  by_cases h : ecValOf cfg s.currSpeed = s.lastECVal
  · simp [h]
  · simp only [ne_eq, h, not_false_eq_true, if_true]
    exact writeEC_ok cfg cfg.ecAddr _ _ ho hw

theorem writeSpeed_same (cfg : Config) (s : State) : SameControl s (writeSpeed cfg s).state := by
  obtain ⟨g, d, h⟩ := writeSpeed_state cfg s
  rw [h]
  exact ⟨rfl, rfl, rfl, rfl, rfl, rfl, rfl, rfl⟩

theorem writeEC_same (cfg : Config) (a v : Int) (s : State) :
    SameControl s (writeEC cfg a v s).state := by
  obtain ⟨g, d, h⟩ := writeEC_state cfg a v s
  rw [h]
  exact ⟨rfl, rfl, rfl, rfl, rfl, rfl, rfl, rfl⟩

theorem quit_same {α : Type} (cfg : Config) (e : Err) (s : State) :
    SameControl s (quit cfg e s : Outcome α).state := by
  obtain ⟨g, d, h⟩ := quit_state (α := α) cfg e s
  rw [h]
  exact ⟨rfl, rfl, rfl, rfl, rfl, rfl, rfl, rfl⟩

theorem quit_isReturned {α : Type} (cfg : Config) (e : Err) (s : State) :
    (quit cfg e s : Outcome α).isReturned = false := by
  unfold quit
  split_ifs
  · simp only
    split <;> rfl
  · rfl

/-- The actuator never touches the thermal variables. -/
theorem speedLoop_frame (cfg : Config) (s : State) :
    (speedLoop cfg s).state.mode = s.mode
    ∧ (speedLoop cfg s).state.speedTarget = s.speedTarget
    ∧ (speedLoop cfg s).state.oldTemp = s.oldTemp
    ∧ (speedLoop cfg s).state.highTempTimer = s.highTempTimer
    ∧ (speedLoop cfg s).state.currTemp = s.currTemp := by
  unfold speedLoop
  simp only
  split_ifs <;>
    first
      | exact ⟨rfl, rfl, rfl, rfl, rfl⟩
      | (refine ⟨?_, ?_, ?_, ?_, ?_⟩
         · rw [(writeSpeed_same cfg _).mode]
         · rw [(writeSpeed_same cfg _).speedTarget]
         · rw [(writeSpeed_same cfg _).oldTemp]
         · rw [(writeSpeed_same cfg _).highTempTimer]
         · rw [(writeSpeed_same cfg _).currTemp])

/-- The manual-control check leaves the timer alone and either keeps the mode or resets
it to Low. -/
theorem checkManualControl_frame (cfg : Config) (s : State) :
    (checkManualControl cfg s).state.highTempTimer = s.highTempTimer
    ∧ ((checkManualControl cfg s).state.mode = s.mode
        ∨ (checkManualControl cfg s).state.mode = 0) := by
  unfold checkManualControl readEC
  by_cases ho : s.ec.openOk = false
  · rw [if_pos ho]
    cases hq : (quit cfg Err.openFailed s : Outcome Int) with
    | returned v s1 =>
      have := quit_isReturned (α := Int) cfg Err.openFailed s
      rw [hq] at this
      exact absurd this (by simp [Outcome.isReturned])
    | panicked e s1 =>
      have := quit_same (α := Int) cfg Err.openFailed s
      rw [hq] at this
      exact ⟨this.highTempTimer, Or.inl this.mode⟩
  · rw [if_neg ho]
    simp only [Outcome.andThen]
    split_ifs with hv
    · cases he : enableManualControl cfg
          { s with speedTarget := 0, mode := 0 } with
      | returned u s1 =>
        have h1 := writeEC_same cfg cfg.manualAddr 1 { s with speedTarget := 0, mode := 0 }
        unfold enableManualControl at he
        rw [he] at h1
        have h2 := writeSpeed_same cfg s1
        simp only [Outcome.state] at h1
        exact ⟨by rw [h2.highTempTimer, h1.highTempTimer], Or.inr (by rw [h2.mode, h1.mode])⟩
      | panicked e s1 =>
        have h1 := writeEC_same cfg cfg.manualAddr 1 { s with speedTarget := 0, mode := 0 }
        unfold enableManualControl at he
        rw [he] at h1
        simp only [Outcome.state] at h1
        exact ⟨h1.highTempTimer, Or.inr h1.mode⟩
    · exact ⟨rfl, Or.inl rfl⟩

theorem wrap64_of_unix (t t0 : Int) (ht : IsUnixTime t) (ht0 : IsUnixTime t0) :
    wrap64 (t - t0) = t - t0 := by
  unfold IsUnixTime at ht ht0
  unfold wrap64
  omega

/-! ## C1: the dangerous-temperature override -/

/-- C1: a thermal evaluation whose sample is at least `dangerousTemp` leaves `currSpeed`
at exactly 100 whatever the mode, the target and the rate were, and leaves `mode`,
`speedTarget`, `oldTemp`, `highTempTimer` and `speedSatisfied` as they were; it returns
whenever the device accepts the write. -/
theorem dangerous_override (cfg : Config) (sample : ℚ) (now : Int) (s : State)
    (h : sample ≥ dangerousTemp) :
    (tempLoop cfg sample now s).state.currSpeed = 100
    ∧ (tempLoop cfg sample now s).state.mode = s.mode
    ∧ (tempLoop cfg sample now s).state.speedTarget = s.speedTarget
    ∧ (tempLoop cfg sample now s).state.oldTemp = s.oldTemp
    ∧ (tempLoop cfg sample now s).state.highTempTimer = s.highTempTimer
    ∧ (tempLoop cfg sample now s).state.speedSatisfied = s.speedSatisfied
    ∧ (s.ec.openOk = true → s.ec.writeOk cfg.ecAddr = true →
        (tempLoop cfg sample now s).isReturned = true) := by
  have e : tempLoop cfg sample now s
      = writeSpeed cfg { s with currTemp := sample, currSpeed := 100 } := by
    simp [tempLoop, h]
  obtain ⟨g, d, hgd⟩ := writeSpeed_state cfg { s with currTemp := sample, currSpeed := 100 }
  rw [e, hgd]
  refine ⟨rfl, rfl, rfl, rfl, rfl, rfl, ?_⟩
  intro ho hw
  rw [writeSpeed_ok cfg { s with currTemp := sample, currSpeed := 100 } ho hw]
  rfl

theorem dangerous_override_witness :
    (95 : ℚ) ≥ dangerousTemp
    ∧ (tempLoop defaultConfig 95 1000 (initState blankDevice)).state.currSpeed = 100
    ∧ (tempLoop defaultConfig 95 1000 (initState blankDevice)).state.speedTarget = 10 := by
  have hT : (95 : ℚ) ≥ dangerousTemp := by norm_num [dangerousTemp]
  have h := dangerous_override defaultConfig 95 1000 (initState blankDevice) hT
  exact ⟨hT, h.1, h.2.2.1⟩

/-! ## C2: sustained-load promotion -/

theorem tempLoop_start (cfg : Config) (sample : ℚ) (now : Int) (s : State)
    (hm : s.mode = 0) (ht : s.highTempTimer = 0)
    (h1 : highTemp < sample) (h2 : sample ≤ critTemp) :
    (tempLoop cfg sample now s).state.highTempTimer = now
    ∧ (tempLoop cfg sample now s).state.mode = 0
    ∧ (tempLoop cfg sample now s).state.speedTarget = medFanSpeed := by
  have hd : ¬ (sample ≥ dangerousTemp) := by
    unfold dangerousTemp; unfold critTemp at h2; linarith
  simp [tempLoop, hd, hm, ht, h1, Outcome.state]

theorem tempLoop_hold (cfg : Config) (sample : ℚ) (now t0 : Int) (s : State)
    (hm : s.mode = 0) (ht : s.highTempTimer = t0) (ht0 : IsUnixTime t0)
    (h1 : highTemp < sample) (h2 : sample ≤ critTemp) (hnow : IsUnixTime now)
    (hd : now - t0 ≤ sustainedLoadTime) :
    (tempLoop cfg sample now s).state.highTempTimer = t0
    ∧ (tempLoop cfg sample now s).state.mode = 0 := by
  have hdg : ¬ (sample ≥ dangerousTemp) := by
    unfold dangerousTemp; unfold critTemp at h2; linarith
  have hpos : s.highTempTimer > 0 := by rw [ht]; exact ht0.1
  have hne : ¬ (s.highTempTimer = 0) := by omega
  have hlt : ¬ (sample < highTemp) := by linarith
  have hw : ¬ (wrap64 (now - s.highTempTimer) > sustainedLoadTime) := by
    rw [ht, wrap64_of_unix _ _ hnow ht0]; omega
  simp only [tempLoop, hdg, hpos, hlt, hw, hm, hne, if_true, if_false, and_false]
  by_cases hdelta : |sample - s.oldTemp| > tempThreshold
  · simp [hdelta, Outcome.state, updateSpeed, hm, ht]
    split <;> simp [ht]
  · simp [hdelta, Outcome.state, ht]

theorem tempLoop_promote (cfg : Config) (sample : ℚ) (now t0 : Int) (s : State)
    (ht : s.highTempTimer = t0) (ht0 : IsUnixTime t0)
    (h1 : highTemp < sample) (h2 : sample ≤ critTemp) (hnow : IsUnixTime now)
    (hd : now - t0 > sustainedLoadTime) :
    (tempLoop cfg sample now s).state.mode = 1
    ∧ (tempLoop cfg sample now s).state.highTempTimer = 0
    ∧ (tempLoop cfg sample now s).state.speedTarget
        = min (max (mathRound (sample * 2.7 - 157)) medFanSpeed) 100 := by
  have hdg : ¬ (sample ≥ dangerousTemp) := by
    unfold dangerousTemp; unfold critTemp at h2; linarith
  have hpos : s.highTempTimer > 0 := by rw [ht]; exact ht0.1
  have hlt : ¬ (sample < highTemp) := by linarith
  have hw : wrap64 (now - s.highTempTimer) > sustainedLoadTime := by
    rw [ht, wrap64_of_unix _ _ hnow ht0]; omega
  have hlow : ¬ (sample < highTemp - tempThreshold) := by
    unfold highTemp tempThreshold; unfold highTemp at h1; linarith
  have hcrit : ¬ (sample > critTemp) := by linarith
  simp only [tempLoop, hdg, hpos, hlt, hw, if_true, if_false, updateSpeed]
  simp only [one_ne_zero, if_false, if_true, hlow, hcrit]
  by_cases hdelta : |sample - s.oldTemp| > tempThreshold
  · simp [hdelta, Outcome.state, updateSpeed, calculateHighSpeed]
  · simp [hdelta, Outcome.state, calculateHighSpeed]

theorem tempLoop_cancel (cfg : Config) (sample : ℚ) (now t0 : Int) (s : State)
    (hm : s.mode = 0) (ht : s.highTempTimer = t0) (ht0 : IsUnixTime t0)
    (h1 : sample < highTemp) :
    (tempLoop cfg sample now s).state.mode = 0
    ∧ (tempLoop cfg sample now s).state.highTempTimer = 0 := by
  have hdg : ¬ (sample ≥ dangerousTemp) := by
    unfold dangerousTemp; unfold highTemp at h1; linarith
  have hpos : s.highTempTimer > 0 := by rw [ht]; exact ht0.1
  have hgt : ¬ (sample > highTemp) := by linarith
  simp only [tempLoop, hdg, hpos, h1, hm, hgt, if_true, if_false, false_and]
  by_cases hdelta : |sample - s.oldTemp| > tempThreshold
  · simp [hdelta, Outcome.state, updateSpeed, hm]
    split <;> simp
  · simp [hdelta, Outcome.state]

theorem runTicks_hold (cfg : Config) (t0 : Int) (ht0 : IsUnixTime t0) (ticks : List Tick) :
    ∀ s : State, s.mode = 0 → s.highTempTimer = t0 → (∀ tk ∈ ticks, tk.HoldsHigh t0) →
      (runTicks cfg ticks s).state.mode = 0
      ∧ (runTicks cfg ticks s).state.highTempTimer = t0 := by
  induction ticks with
  | nil => intro s hm ht _; exact ⟨hm, ht⟩
  | cons tk rest ih =>
    intro s hm ht hall
    have hstep : (tk.run cfg s).state.mode = 0 ∧ (tk.run cfg s).state.highTempTimer = t0 := by
      cases tk with
      | eval sample now =>
        have hh := hall (Tick.eval sample now) (List.mem_cons_self _ _)
        obtain ⟨h1, h2, h3, h4⟩ := hh
        have := tempLoop_hold cfg sample now t0 s hm ht ht0 h1 h2 h3 h4
        exact ⟨this.2, this.1⟩
      | actuate =>
        have := speedLoop_frame cfg s
        exact ⟨by rw [Tick.run, this.1, hm], by rw [Tick.run, this.2.2.2.1, ht]⟩
      | handshake =>
        have := checkManualControl_frame cfg s
        refine ⟨?_, by rw [Tick.run, this.1, ht]⟩
        rcases this.2 with h | h
        · rw [Tick.run, h, hm]
        · rw [Tick.run, h]
    unfold runTicks
    cases hr : tk.run cfg s with
    | returned u s1 =>
      rw [hr] at hstep
      exact ih s1 hstep.1 hstep.2 (fun tk2 h2 => hall tk2 (List.mem_cons_of_mem _ h2))
    | panicked e s1 =>
      rw [hr] at hstep
      exact hstep

/-- C2: from mode Low with no timer running, a first sample above `highTemp` (and at most
`critTemp`) at clock `t0` starts the timer; while every later evaluation tick samples such
a temperature no later than `sustainedLoadTime` after `t0` (actuator ticks and
manual-control checks in between allowed) the timer keeps running and the mode stays Low;
the first such tick later than that sets mode High, clears the timer and sets the target
by the High curve; a sample below `highTemp` instead clears the timer and keeps mode Low. -/
theorem sustained_load_promotion (cfg : Config) (s s1 s2 : State) (T0 : ℚ) (t0 : Int)
    (ticks : List Tick) (hmode : s.mode = 0) (htimer : s.highTempTimer = 0)
    (hT0 : highTemp < T0 ∧ T0 ≤ critTemp) (ht0 : IsUnixTime t0)
    (hticks : ∀ tk ∈ ticks, tk.HoldsHigh t0)
    (hs1 : s1 = (tempLoop cfg T0 t0 s).state)
    (hs2 : s2 = (runTicks cfg ticks s1).state) :
    s1.highTempTimer = t0 ∧ s1.mode = 0
    ∧ s2.highTempTimer = t0 ∧ s2.mode = 0
    ∧ (∀ (T : ℚ) (t : Int), highTemp < T → T ≤ critTemp → IsUnixTime t →
        t - t0 > sustainedLoadTime →
        (tempLoop cfg T t s2).state.mode = 1
        ∧ (tempLoop cfg T t s2).state.highTempTimer = 0
        ∧ (tempLoop cfg T t s2).state.speedTarget
            = min (max (mathRound (T * 2.7 - 157)) medFanSpeed) 100)
    ∧ (∀ (T : ℚ) (t : Int), T < highTemp →
        (tempLoop cfg T t s2).state.mode = 0
        ∧ (tempLoop cfg T t s2).state.highTempTimer = 0) := by
  have h1 := tempLoop_start cfg T0 t0 s hmode htimer hT0.1 hT0.2
  rw [← hs1] at h1
  have h2 := runTicks_hold cfg t0 ht0 ticks s1 h1.2.1 h1.1 hticks
  rw [← hs2] at h2
  refine ⟨h1.1, h1.2.1, h2.2, h2.1, ?_, ?_⟩
  · intro T t hT1 hT2 ht hd
    exact tempLoop_promote cfg T t t0 s2 h2.2 ht0 hT1 hT2 ht hd
  · intro T t hT
    exact tempLoop_cancel cfg T t t0 s2 h2.1 h2.2 ht0 hT

theorem sustained_load_promotion_witness :
    (tempLoop defaultConfig 71 1015
      (runTicks defaultConfig holdRun
        (tempLoop defaultConfig 71 1000 (initState blankDevice)).state).state).state.mode = 1
    ∧ (tempLoop defaultConfig 69 1013
      (runTicks defaultConfig holdRun
        (tempLoop defaultConfig 71 1000 (initState blankDevice)).state).state).state.mode = 0 := by
  have hticks : ∀ tk ∈ holdRun, tk.HoldsHigh 1000 := by
    intro tk htk
    simp only [holdRun, List.mem_cons, List.mem_singleton, List.not_mem_nil, or_false] at htk
    rcases htk with h | h | h <;> subst h
    · trivial
    · trivial
    · norm_num [Tick.HoldsHigh, highTemp, critTemp, IsUnixTime, sustainedLoadTime]
  have h := sustained_load_promotion defaultConfig (initState blankDevice) _ _ 71 1000 holdRun
    rfl rfl (by norm_num [highTemp, critTemp]) (by norm_num [IsUnixTime]) hticks rfl rfl
  refine ⟨(h.2.2.2.2.1 71 1015 (by norm_num [highTemp]) (by norm_num [critTemp])
      (by norm_num [IsUnixTime]) (by norm_num [sustainedLoadTime])).1, ?_⟩
  exact (h.2.2.2.2.2 69 1013 (by norm_num [highTemp])).1

/-! ## C3, C4: the actuator -/

theorem rateOf_pos (m : Int) : 1 ≤ rateOf m := by
  unfold rateOf critModeSpeedChangeRate normalSpeedChangeRate
  split_ifs <;> norm_num

/-- The value of `currSpeed` and `speedSatisfied` after an actuator tick. -/
theorem speedLoop_currSpeed (cfg : Config) (s : State) :
    (speedLoop cfg s).state.currSpeed =
      (if |s.speedTarget - s.currSpeed| > rateOf s.mode then
        (if s.speedTarget > s.currSpeed then s.currSpeed + rateOf s.mode
         else if s.mode = 0 then s.currSpeed - rateOf s.mode
         else s.currSpeed - highModeReductionRate)
       else if s.speedSatisfied = false then s.speedTarget else s.currSpeed)
    ∧ (speedLoop cfg s).state.speedSatisfied =
      (if |s.speedTarget - s.currSpeed| > rateOf s.mode then s.speedSatisfied else true) := by
  have hr := rateOf_pos s.mode
  unfold speedLoop
  by_cases hm : s.mode = 2
  · simp only [hm, if_true, rateOf] at hr ⊢
    by_cases hd : |s.speedTarget - s.currSpeed| > critModeSpeedChangeRate
    · simp only [hd, if_true]
      by_cases hup : s.speedTarget > s.currSpeed
      · simp only [hup, if_true]
        rw [(writeSpeed_same cfg _).currSpeed, (writeSpeed_same cfg _).speedSatisfied]
        have : s.speedTarget - s.currSpeed > critModeSpeedChangeRate := by
          rwa [abs_of_pos (by linarith)] at hd
        simp [min_eq_right (le_of_lt this)]
      · simp only [hup, if_false]
        rw [(writeSpeed_same cfg _).currSpeed, (writeSpeed_same cfg _).speedSatisfied]
        have h1 : s.currSpeed - s.speedTarget > critModeSpeedChangeRate := by
          rw [abs_of_nonpos (by linarith)] at hd; linarith
        have h2 : highModeReductionRate ≤ s.currSpeed - s.speedTarget := by
          unfold highModeReductionRate; linarith
        simp [min_eq_right h2]
    · simp only [hd, if_false]
      by_cases hs : s.speedSatisfied = false
      · simp only [hs, if_true]
        rw [(writeSpeed_same cfg _).currSpeed, (writeSpeed_same cfg _).speedSatisfied]
        exact ⟨rfl, rfl⟩
      · simp [hs, Outcome.state]
  · simp only [hm, if_false, rateOf] at hr ⊢
    by_cases hd : |s.speedTarget - s.currSpeed| > normalSpeedChangeRate
    · simp only [hd, if_true]
      by_cases hup : s.speedTarget > s.currSpeed
      · simp only [hup, if_true]
        rw [(writeSpeed_same cfg _).currSpeed, (writeSpeed_same cfg _).speedSatisfied]
        have : s.speedTarget - s.currSpeed > normalSpeedChangeRate := by
          rwa [abs_of_pos (by linarith)] at hd
        simp [min_eq_right (le_of_lt this)]
      · simp only [hup, if_false]
        have h1 : s.currSpeed - s.speedTarget > normalSpeedChangeRate := by
          rw [abs_of_nonpos (by linarith)] at hd; linarith
        have h2 : highModeReductionRate ≤ s.currSpeed - s.speedTarget := by
          unfold highModeReductionRate; unfold normalSpeedChangeRate at h1; linarith
        by_cases h0 : s.mode = 0
        · simp only [h0, if_true]
          rw [(writeSpeed_same cfg _).currSpeed, (writeSpeed_same cfg _).speedSatisfied]
          simp [min_eq_right (le_of_lt h1)]
        · simp only [h0, if_false]
          rw [(writeSpeed_same cfg _).currSpeed, (writeSpeed_same cfg _).speedSatisfied]
          simp [min_eq_right h2]
    · simp only [hd, if_false]
      by_cases hs : s.speedSatisfied = false
      · simp only [hs, if_true]
        rw [(writeSpeed_same cfg _).currSpeed, (writeSpeed_same cfg _).speedSatisfied]
        exact ⟨rfl, rfl⟩
      · simp [hs, Outcome.state]


theorem stepOf_pos (s : State) : 1 ≤ stepOf s := by
  unfold stepOf highModeReductionRate
  split_ifs
  · exact rateOf_pos _
  · exact rateOf_pos _
  · norm_num

theorem stepOf_le_rate (s : State) : stepOf s ≤ rateOf s.mode := by
  unfold stepOf highModeReductionRate
  split_ifs
  · exact le_refl _
  · exact le_refl _
  · exact rateOf_pos _

/-- With a working device the actuator returns, and the device keeps working. -/
theorem speedLoop_ok (cfg : Config) (s : State)
    (ho : s.ec.openOk = true) (hw : s.ec.writeOk cfg.ecAddr = true) :
    speedLoop cfg s = .returned () (speedLoop cfg s).state
    ∧ (speedLoop cfg s).state.ec.openOk = true
    ∧ (speedLoop cfg s).state.ec.writeOk cfg.ecAddr = true := by
  have key : ∀ s1 : State, s1.ec = s.ec →
      writeSpeed cfg s1 = .returned () (writeSpeed cfg s1).state
      ∧ (writeSpeed cfg s1).state.ec.openOk = true
      ∧ (writeSpeed cfg s1).state.ec.writeOk cfg.ecAddr = true := by
    intro s1 hec
    have ho1 : s1.ec.openOk = true := by rw [hec]; exact ho
    have hw1 : s1.ec.writeOk cfg.ecAddr = true := by rw [hec]; exact hw
    rw [writeSpeed_ok cfg s1 ho1 hw1]
    refine ⟨rfl, ?_, ?_⟩
    · simp only [Outcome.state]
      split_ifs
      · exact ho1
      · exact ho1
    · simp only [Outcome.state]
      split_ifs
      · exact hw1
      · exact hw1
  unfold speedLoop
  simp only
  split_ifs
  all_goals first
    | exact key _ rfl
    | exact ⟨rfl, ho, hw⟩

theorem speedLoopN_succ (cfg : Config) (n : Nat) (s : State)
    (ho : s.ec.openOk = true) (hw : s.ec.writeOk cfg.ecAddr = true) :
    speedLoopN cfg (n + 1) s = speedLoopN cfg n (speedLoop cfg s).state := by
  have h := (speedLoop_ok cfg s ho hw).1
  conv_lhs => rw [speedLoopN, h]
  rfl

/-- One actuator tick either lands on the target or shortens the distance to it by the
step size, keeping the direction. -/
theorem speedLoop_progress (cfg : Config) (s : State) (hinv : Settled s) :
    Settled (speedLoop cfg s).state
    ∧ ((speedLoop cfg s).state.currSpeed = s.speedTarget
      ∨ (stepOf (speedLoop cfg s).state = stepOf s
        ∧ |s.speedTarget - (speedLoop cfg s).state.currSpeed|
            = |s.speedTarget - s.currSpeed| - stepOf s)) := by
  have hr := rateOf_pos s.mode
  obtain ⟨hc, hs⟩ := speedLoop_currSpeed cfg s
  obtain ⟨hmode, htgt, -, -, -⟩ := speedLoop_frame cfg s
  by_cases hd : |s.speedTarget - s.currSpeed| > rateOf s.mode
  · rw [if_pos hd] at hc hs
    have hns : s.speedSatisfied ≠ true := by
      intro h
      have := hinv h
      rw [this, sub_self, abs_zero] at hd
      linarith
    refine ⟨?_, Or.inr ?_⟩
    · intro h; rw [hs] at h; exact absurd h hns
    · by_cases hup : s.speedTarget > s.currSpeed
      · rw [if_pos hup] at hc
        have h1 : s.speedTarget - s.currSpeed > rateOf s.mode := by
          rwa [abs_of_pos (by linarith)] at hd
        have hup' : (speedLoop cfg s).state.speedTarget > (speedLoop cfg s).state.currSpeed := by
          rw [htgt, hc]; linarith
        constructor
        · unfold stepOf
          rw [if_pos hup', if_pos hup, hmode]
        · rw [hc, abs_of_pos (by linarith), abs_of_pos (by linarith)]
          unfold stepOf
          rw [if_pos hup]
          ring
      · rw [if_neg hup] at hc
        have h1 : s.currSpeed - s.speedTarget > rateOf s.mode := by
          rw [abs_of_nonpos (by linarith)] at hd; linarith
        by_cases h0 : s.mode = 0
        · rw [if_pos h0] at hc
          have hup' : ¬ ((speedLoop cfg s).state.speedTarget
              > (speedLoop cfg s).state.currSpeed) := by
            rw [htgt, hc]; linarith
          constructor
          · unfold stepOf
            rw [if_neg hup', if_neg hup, hmode]
          · rw [hc, abs_of_nonpos (by linarith), abs_of_nonpos (by linarith)]
            unfold stepOf
            rw [if_neg hup, if_pos h0]
            ring
        · rw [if_neg h0] at hc
          have hup' : ¬ ((speedLoop cfg s).state.speedTarget
              > (speedLoop cfg s).state.currSpeed) := by
            rw [htgt, hc]; unfold highModeReductionRate; linarith
          constructor
          · unfold stepOf
            rw [if_neg hup', if_neg hup, hmode]
          · have : highModeReductionRate ≤ s.currSpeed - s.speedTarget := by
              unfold highModeReductionRate; linarith
            rw [hc, abs_of_nonpos (by linarith), abs_of_nonpos (by linarith)]
            unfold stepOf
            rw [if_neg hup, if_neg h0]
            ring
  · rw [if_neg hd] at hc hs
    by_cases hsat : s.speedSatisfied = false
    · rw [if_pos hsat] at hc
      exact ⟨fun _ => by rw [hc, htgt], Or.inl hc⟩
    · rw [if_neg hsat] at hc
      have hcur : s.currSpeed = s.speedTarget := hinv (by simpa using hsat)
      exact ⟨fun _ => by rw [hc, htgt, hcur], Or.inl (by rw [hc, hcur])⟩

theorem speedLoopN_frame (cfg : Config) (n : Nat) :
    ∀ s : State, s.ec.openOk = true → s.ec.writeOk cfg.ecAddr = true →
      (speedLoopN cfg n s).isReturned = true
      ∧ (speedLoopN cfg n s).state.speedTarget = s.speedTarget
      ∧ (speedLoopN cfg n s).state.mode = s.mode := by
  induction n with
  | zero => intro s _ _; exact ⟨rfl, rfl, rfl⟩
  | succ n ih =>
    intro s ho hw
    obtain ⟨-, ho1, hw1⟩ := speedLoop_ok cfg s ho hw
    obtain ⟨hmode, htgt, -, -, -⟩ := speedLoop_frame cfg s
    rw [speedLoopN_succ cfg n s ho hw]
    obtain ⟨h1, h2, h3⟩ := ih _ ho1 hw1
    exact ⟨h1, by rw [h2, htgt], by rw [h3, hmode]⟩

theorem speedLoopN_reaches (cfg : Config) (n : Nat) :
    ∀ s : State, s.ec.openOk = true → s.ec.writeOk cfg.ecAddr = true → Settled s →
      |s.speedTarget - s.currSpeed| ≤ n * stepOf s →
      (speedLoopN cfg n s).state.currSpeed = s.speedTarget := by
  induction n with
  | zero =>
    intro s _ _ _ hle
    have h0 : |s.speedTarget - s.currSpeed| ≤ 0 := by simpa using hle
    have := abs_eq_zero.mp (le_antisymm h0 (abs_nonneg _))
    show s.currSpeed = s.speedTarget
    linarith
  | succ n ih =>
    intro s ho hw hinv hle
    obtain ⟨-, ho1, hw1⟩ := speedLoop_ok cfg s ho hw
    obtain ⟨-, htgt, -, -, -⟩ := speedLoop_frame cfg s
    obtain ⟨hinv1, hcase⟩ := speedLoop_progress cfg s hinv
    rw [speedLoopN_succ cfg n s ho hw, ← htgt]
    apply ih _ ho1 hw1 hinv1
    have hstep := stepOf_pos (speedLoop cfg s).state
    have hn : (0 : ℚ) ≤ n := Nat.cast_nonneg n
    rcases hcase with h | ⟨h1, h2⟩
    · rw [htgt, h, sub_self, abs_zero]
      exact mul_nonneg hn (by linarith)
    · rw [htgt, h2, h1]
      push_cast at hle
      linarith

/-- A single actuator tick moves `currSpeed` by at most the rate limit and never away
from or across the target. -/
theorem speedLoop_bounds (cfg : Config) (s : State) :
    |(speedLoop cfg s).state.currSpeed - s.currSpeed| ≤ rateOf s.mode
    ∧ min s.currSpeed s.speedTarget ≤ (speedLoop cfg s).state.currSpeed
    ∧ (speedLoop cfg s).state.currSpeed ≤ max s.currSpeed s.speedTarget := by
  have hr := rateOf_pos s.mode
  rw [(speedLoop_currSpeed cfg s).1]
  by_cases hd : |s.speedTarget - s.currSpeed| > rateOf s.mode
  · simp only [hd, if_true]
    by_cases hup : s.speedTarget > s.currSpeed
    · simp only [hup, if_true]
      have : s.speedTarget - s.currSpeed > rateOf s.mode := by
        rwa [abs_of_pos (by linarith)] at hd
      refine ⟨?_, ?_, ?_⟩
      · rw [add_sub_cancel_left, abs_of_nonneg (by linarith)]
      · exact le_trans (min_le_left _ _) (by linarith)
      · exact le_trans (by linarith) (le_max_right _ _)
    · simp only [hup, if_false]
      have h1 : s.currSpeed - s.speedTarget > rateOf s.mode := by
        rw [abs_of_nonpos (by linarith)] at hd; linarith
      by_cases h0 : s.mode = 0
      · simp only [h0, if_true] at h1 hr ⊢
        refine ⟨?_, ?_, ?_⟩
        · rw [sub_sub_cancel_left, abs_neg, abs_of_nonneg (by linarith)]
        · exact le_trans (min_le_right _ _) (by linarith)
        · exact le_trans (by linarith) (le_max_left _ _)
      · simp only [h0, if_false]
        unfold highModeReductionRate
        refine ⟨?_, ?_, ?_⟩
        · rw [sub_sub_cancel_left, abs_neg, abs_of_nonneg (by norm_num)]; exact hr
        · exact le_trans (min_le_right _ _) (by linarith)
        · exact le_trans (by linarith) (le_max_left _ _)
  · simp only [hd, if_false]
    have hd2 : |s.speedTarget - s.currSpeed| ≤ rateOf s.mode := le_of_not_gt hd
    by_cases hs : s.speedSatisfied = false
    · simp only [hs, if_true]
      exact ⟨hd2, min_le_right _ _, le_max_right _ _⟩
    · rw [if_neg hs, sub_self, abs_zero]
      exact ⟨by linarith, min_le_left _ _, le_max_left _ _⟩

theorem speedLoop_rate (cfg : Config) (s : State) :
    (speedLoop cfg s).state.speedChangeRate = rateOf s.mode := by
  unfold speedLoop rateOf
  simp only
  split_ifs <;>
    first
      | rfl
      | rw [(writeSpeed_same cfg _).speedChangeRate]

/-- C4: a single actuator tick changes `currSpeed` by at most `speedChangeRate`, which the
tick sets to 4 in mode Critical and to 1 otherwise, and the new `currSpeed` lies between
the old `currSpeed` and `speedTarget`. -/
theorem speedLoop_step_bounded (cfg : Config) (s : State) :
    (speedLoop cfg s).state.speedChangeRate = (if s.mode = 2 then 4 else 1)
    ∧ |(speedLoop cfg s).state.currSpeed - s.currSpeed|
        ≤ (speedLoop cfg s).state.speedChangeRate
    ∧ min s.currSpeed s.speedTarget ≤ (speedLoop cfg s).state.currSpeed
    ∧ (speedLoop cfg s).state.currSpeed ≤ max s.currSpeed s.speedTarget := by
  rw [speedLoop_rate]
  exact ⟨by simp [rateOf, critModeSpeedChangeRate, normalSpeedChangeRate],
    speedLoop_bounds cfg s⟩

theorem speedLoopN_succ_end (cfg : Config) (n : Nat) :
    ∀ s : State, s.ec.openOk = true → s.ec.writeOk cfg.ecAddr = true →
      (speedLoopN cfg (n + 1) s).state = (speedLoop cfg (speedLoopN cfg n s).state).state := by
  induction n with
  | zero =>
    intro s ho hw
    rw [speedLoopN_succ cfg 0 s ho hw]
    rfl
  | succ n ih =>
    intro s ho hw
    obtain ⟨-, ho1, hw1⟩ := speedLoop_ok cfg s ho hw
    rw [speedLoopN_succ cfg (n + 1) s ho hw, ih _ ho1 hw1, speedLoopN_succ cfg n s ho hw]

theorem speedLoopN_side (cfg : Config) (n : Nat) :
    ∀ s : State, s.ec.openOk = true → s.ec.writeOk cfg.ecAddr = true →
      (s.currSpeed ≤ s.speedTarget → (speedLoopN cfg n s).state.currSpeed ≤ s.speedTarget)
      ∧ (s.speedTarget ≤ s.currSpeed → s.speedTarget ≤ (speedLoopN cfg n s).state.currSpeed) := by
  induction n with
  | zero => intro s _ _; exact ⟨fun h => h, fun h => h⟩
  | succ n ih =>
    intro s ho hw
    obtain ⟨-, ho1, hw1⟩ := speedLoop_ok cfg s ho hw
    obtain ⟨-, htgt, -, -, -⟩ := speedLoop_frame cfg s
    obtain ⟨-, hlo, hhi⟩ := speedLoop_bounds cfg s
    rw [speedLoopN_succ cfg n s ho hw]
    obtain ⟨i1, i2⟩ := ih _ ho1 hw1
    rw [htgt] at i1 i2
    constructor
    · intro h
      exact i1 (by rw [max_eq_right h] at hhi; exact hhi)
    · intro h
      exact i2 (by rw [min_eq_right h] at hlo; exact hlo)

theorem speedLoopN_monotone (cfg : Config) (n : Nat) (s : State)
    (ho : s.ec.openOk = true) (hw : s.ec.writeOk cfg.ecAddr = true) :
    (s.currSpeed ≤ s.speedTarget →
      (speedLoopN cfg n s).state.currSpeed ≤ (speedLoopN cfg (n + 1) s).state.currSpeed
      ∧ (speedLoopN cfg (n + 1) s).state.currSpeed ≤ s.speedTarget)
    ∧ (s.speedTarget ≤ s.currSpeed →
      s.speedTarget ≤ (speedLoopN cfg (n + 1) s).state.currSpeed
      ∧ (speedLoopN cfg (n + 1) s).state.currSpeed ≤ (speedLoopN cfg n s).state.currSpeed) := by
  obtain ⟨-, htgt, -⟩ := speedLoopN_frame cfg n s ho hw
  obtain ⟨-, hlo, hhi⟩ := speedLoop_bounds cfg (speedLoopN cfg n s).state
  rw [htgt] at hlo hhi
  constructor
  · intro h
    have hn := (speedLoopN_side cfg n s ho hw).1 h
    refine ⟨?_, (speedLoopN_side cfg (n + 1) s ho hw).1 h⟩
    rw [speedLoopN_succ_end cfg n s ho hw]
    rw [min_eq_left hn] at hlo
    exact hlo
  · intro h
    have hn := (speedLoopN_side cfg n s ho hw).2 h
    refine ⟨(speedLoopN_side cfg (n + 1) s ho hw).2 h, ?_⟩
    rw [speedLoopN_succ_end cfg n s ho hw]
    rw [max_eq_left hn] at hhi
    exact hhi

/-- C3 (amended): on a working device and from every controller state, repeated actuator
ticks return, keep `speedTarget`, and move `currSpeed` monotonically toward it without
ever crossing it.  Started with `speedSatisfied` false, `currSpeed` equals the target
after `ceil(|delta| / step)` ticks and from then on, where `step` is the rate limit (4 in
Critical, 1 otherwise) except for a decreasing `currSpeed` outside mode Low, where it is
`highModeReductionRate` = 1; so the count `ceil(|delta| / rate)` holds whenever the mode
is not Critical or `currSpeed` is below the target. -/
theorem speedLoop_converges (cfg : Config) (s : State)
    (ho : s.ec.openOk = true) (hw : s.ec.writeOk cfg.ecAddr = true) :
    (∀ n, (speedLoopN cfg n s).isReturned = true
      ∧ (speedLoopN cfg n s).state.speedTarget = s.speedTarget)
    ∧ (s.currSpeed ≤ s.speedTarget → ∀ n,
        (speedLoopN cfg n s).state.currSpeed ≤ (speedLoopN cfg (n + 1) s).state.currSpeed
        ∧ (speedLoopN cfg (n + 1) s).state.currSpeed ≤ s.speedTarget)
    ∧ (s.speedTarget ≤ s.currSpeed → ∀ n,
        s.speedTarget ≤ (speedLoopN cfg (n + 1) s).state.currSpeed
        ∧ (speedLoopN cfg (n + 1) s).state.currSpeed ≤ (speedLoopN cfg n s).state.currSpeed)
    ∧ (s.speedSatisfied = false → ∀ n, ⌈|s.speedTarget - s.currSpeed| / stepOf s⌉₊ ≤ n →
        (speedLoopN cfg n s).state.currSpeed = s.speedTarget)
    ∧ (s.speedSatisfied = false → s.mode ≠ 2 ∨ s.currSpeed ≤ s.speedTarget → ∀ n,
        ⌈|s.speedTarget - s.currSpeed| / rateOf s.mode⌉₊ ≤ n →
        (speedLoopN cfg n s).state.currSpeed = s.speedTarget) := by
  have hset : s.speedSatisfied = false → Settled s := by
    intro hsat h; rw [hsat] at h; exact absurd h (by simp)
  have hconv : s.speedSatisfied = false → ∀ n,
      ⌈|s.speedTarget - s.currSpeed| / stepOf s⌉₊ ≤ n →
      (speedLoopN cfg n s).state.currSpeed = s.speedTarget := by
    intro hsat n hn
    have hset := hset hsat
    apply speedLoopN_reaches cfg n s ho hw hset
    have hpos : 0 < stepOf s := lt_of_lt_of_le one_pos (stepOf_pos s)
    have h1 : |s.speedTarget - s.currSpeed| / stepOf s ≤ (n : ℚ) :=
      le_trans (Nat.le_ceil _) (by exact_mod_cast hn)
    exact (div_le_iff₀ hpos).mp h1
  refine ⟨fun n => ⟨(speedLoopN_frame cfg n s ho hw).1, (speedLoopN_frame cfg n s ho hw).2.1⟩,
    fun h n => (speedLoopN_monotone cfg n s ho hw).1 h,
    fun h n => (speedLoopN_monotone cfg n s ho hw).2 h, hconv, ?_⟩
  intro hsat hcase n hn
  have hset := hset hsat
  have hconv := hconv hsat
  by_cases heq : s.currSpeed = s.speedTarget
  · exact speedLoopN_reaches cfg n s ho hw hset (by
      rw [heq, sub_self, abs_zero]
      exact mul_nonneg (Nat.cast_nonneg n) (le_trans zero_le_one (stepOf_pos s)))
  · have hstep : stepOf s = rateOf s.mode := by
      unfold stepOf
      split_ifs with h1 h2
      · rfl
      · rfl
      · rcases hcase with h | h
        · unfold rateOf highModeReductionRate normalSpeedChangeRate
          rw [if_neg h]
        · exact absurd (lt_of_le_of_ne h heq) h1
    rw [← hstep] at hn
    exact hconv n hn

/-- C3, counterexample: in mode Critical with `currSpeed` 100 and target 88 the claimed
number of ticks is 3, and after 3 actuator ticks `currSpeed` is 97, not 88. -/
theorem speedLoop_converges_counterexample :
    critDescent.mode = 2
    ∧ ⌈|critDescent.speedTarget - critDescent.currSpeed| / rateOf critDescent.mode⌉₊ = 3
    ∧ (speedLoopN defaultConfig 3 critDescent).state.currSpeed = 97
    ∧ (speedLoopN defaultConfig
        ⌈|critDescent.speedTarget - critDescent.currSpeed| / rateOf critDescent.mode⌉₊
        critDescent).state.currSpeed ≠ critDescent.speedTarget := by
  have hceil : ⌈|critDescent.speedTarget - critDescent.currSpeed| / rateOf critDescent.mode⌉₊
      = 3 := by
    norm_num [critDescent, initState, rateOf, critModeSpeedChangeRate, abs_of_nonpos]
  have q99 : ecValOf { ecAddr := 25, manualAddr := 21, ecMin := 0, ecMax := 48 } 99 = 47 := by
    have := ecValOf_defaultConfig 99 (by norm_num)
    norm_num at this
    exact this
  have q98 : ecValOf { ecAddr := 25, manualAddr := 21, ecMin := 0, ecMax := 48 } 98 = 47 := by
    have := ecValOf_defaultConfig 98 (by norm_num)
    norm_num at this
    exact this
  have q97 : ecValOf { ecAddr := 25, manualAddr := 21, ecMin := 0, ecMax := 48 } 97 = 46 := by
    have := ecValOf_defaultConfig 97 (by norm_num)
    norm_num at this
    exact this
  have hrun : (speedLoopN defaultConfig 3 critDescent).state.currSpeed = 97 := by
    norm_num [speedLoopN, speedLoop, writeSpeed, writeEC, Device.writeAt, Device.written,
      Outcome.andThen, Outcome.state, critDescent, initState, blankDevice, defaultConfig,
      q99, q98, q97, critModeSpeedChangeRate, highModeReductionRate, abs_of_nonpos]
  refine ⟨rfl, hceil, hrun, ?_⟩
  rw [hceil, hrun]
  norm_num [critDescent]

theorem speedLoop_converges_witness :
    (initState blankDevice).speedSatisfied = false
    ∧ (speedLoopN defaultConfig 10 (initState blankDevice)).state.currSpeed = 10
    ∧ (speedLoopN defaultConfig 12 critDescent).state.currSpeed = 88 := by
  have h := speedLoop_converges defaultConfig (initState blankDevice) rfl rfl
  have h2 := speedLoop_converges defaultConfig critDescent rfl rfl
  refine ⟨rfl, h.2.2.2.2 rfl (Or.inl (by decide)) 10 ?_, h2.2.2.2.1 rfl 12 ?_⟩
  · norm_num [initState, rateOf, normalSpeedChangeRate]
  · norm_num [critDescent, initState, stepOf, highModeReductionRate, abs_of_nonpos]

/-! ## C5, C6: write suppression -/

/-- C5 (amended): on a working device `writeSpeed` returns.  The value it computes is
`int(floor(currSpeed / 100 * (ecMax - ecMin) + ecMin))` in float64 arithmetic.  With the
default flags 0 and 48 and a whole-number `currSpeed` from 0 to 100 that is the exact
floor of the formula; with any flags `0 ≤ ecMin ≤ ecMax ≤ 255` and `currSpeed` in
[0, 100] it lies between the floors of the exact value minus and plus `2^(-43)`, so it
is the exact floor unless the exact value is that close to a whole number.  `writeSpeed`
writes the value (as a byte) to the speed register exactly when it differs from
`lastECVal`, leaves `lastECVal` equal to it in both cases, and changes no other
variable. -/
theorem writeSpeed_suppression (cfg : Config) (s : State)
    (ho : s.ec.openOk = true) (hw : s.ec.writeOk cfg.ecAddr = true) :
    (cfg.ecMin = 0 → cfg.ecMax = 48 → ∀ n : Nat, n ≤ 100 → s.currSpeed = n →
      ecValOf cfg s.currSpeed = ⌊s.currSpeed / 100 * (cfg.ecMax - cfg.ecMin) + cfg.ecMin⌋)
    ∧ (cfg.ecMin ≤ cfg.ecMax → 0 ≤ cfg.ecMin → cfg.ecMax ≤ 255 →
        0 ≤ s.currSpeed → s.currSpeed ≤ 100 →
        ⌊s.currSpeed / 100 * (cfg.ecMax - cfg.ecMin) + cfg.ecMin - (2 : ℚ) ^ (-43 : Int)⌋
          ≤ ecValOf cfg s.currSpeed
        ∧ ecValOf cfg s.currSpeed
          ≤ ⌊s.currSpeed / 100 * (cfg.ecMax - cfg.ecMin) + cfg.ecMin + (2 : ℚ) ^ (-43 : Int)⌋)
    ∧ (∃ s', writeSpeed cfg s = .returned () s'
        ∧ s'.lastECVal = ecValOf cfg s.currSpeed
        ∧ (ecValOf cfg s.currSpeed ≠ s.lastECVal →
            s'.ec.writes = (cfg.ecAddr, toByte (ecValOf cfg s.currSpeed)) :: s.ec.writes
            ∧ s'.ec.regs cfg.ecAddr = toByte (ecValOf cfg s.currSpeed))
        ∧ (ecValOf cfg s.currSpeed = s.lastECVal → s' = s)
        ∧ SameControl s s' ∧ s'.gracefulQuitTried = s.gracefulQuitTried) := by
  refine ⟨?_, ?_, ?_⟩
  · intro hmin hmax n hn hs
    rw [hs, ecValOf_default cfg hmin hmax n hn, hmin, hmax, sub_zero, add_zero]
    have e : (n : ℚ) / 100 * 48 = ((n * 48 : Nat) : ℚ) / ((100 : Nat) : ℚ) := by
      push_cast
      ring
    rw [e, Rat.floor_natCast_div_natCast]
    rfl
  · intro hle hmin hmax hs0 hs1
    have hnear := ecRounded_near cfg s.currSpeed hs0 hs1 hle hmin hmax
    rw [ecValOf_eq_floor cfg s.currSpeed hs0 hs1 hle (by norm_num; linarith)
      (by norm_num; linarith)]
    rw [abs_le] at hnear
    exact ⟨Int.floor_mono (by linarith [hnear.1]), Int.floor_mono (by linarith [hnear.2])⟩
  rw [writeSpeed_ok cfg s ho hw]
  by_cases h : ecValOf cfg s.currSpeed = s.lastECVal
  · rw [if_neg (not_not.mpr h)]
    exact ⟨s, rfl, h.symm, fun hne => absurd h hne, fun _ => rfl,
      ⟨rfl, rfl, rfl, rfl, rfl, rfl, rfl, rfl⟩, rfl⟩
  · rw [if_pos h]
    refine ⟨_, rfl, rfl, fun _ => ⟨rfl, ?_⟩, fun he => absurd he h,
      ⟨rfl, rfl, rfl, rfl, rfl, rfl, rfl, rfl⟩, rfl⟩
    simp [Device.written]

/-- C5, counterexample: with the flags 0 and 100, `currSpeed` 29 and `lastECVal` 28, the
exact floor of the formula is 29, which differs from `lastECVal`; the float64 computation
gives 28 (29/100 rounds below 0.29, and the product stays below 29), so `writeSpeed`
writes nothing. -/
theorem writeSpeed_suppression_counterexample :
    ⌊staleStep.currSpeed / 100 * (percentConfig.ecMax - percentConfig.ecMin)
        + percentConfig.ecMin⌋ = 29
    ∧ staleStep.lastECVal = 28
    ∧ ecValOf percentConfig staleStep.currSpeed = 28
    ∧ writeSpeed percentConfig staleStep = .returned () staleStep := by
  have hv : ecValOf percentConfig staleStep.currSpeed = 28 :=
    ecValOf_percent_29 percentConfig rfl rfl
  refine ⟨?_, rfl, hv, ?_⟩
  · norm_num [staleStep, percentConfig, defaultConfig, initState]
  · unfold writeSpeed
    simp only [hv]
    rw [if_neg (by simp [staleStep])]

theorem writeSpeed_suppression_witness :
    ∃ s', writeSpeed defaultConfig { initState blankDevice with currSpeed := 50 }
        = .returned () s'
      ∧ s'.lastECVal = 24 ∧ s'.ec.writes = [(25, 24)] := by
  obtain ⟨-, -, s', h1, h2, h3, -⟩ := writeSpeed_suppression defaultConfig
    { initState blankDevice with currSpeed := 50 } rfl rfl
  have hval : ecValOf defaultConfig (50 : ℚ) = 24 := by
    have := ecValOf_defaultConfig 50 (by norm_num)
    norm_num at this
    exact this
  have hne : ecValOf defaultConfig (50 : ℚ) ≠ 0 := by rw [hval]; decide
  refine ⟨s', h1, ?_, ?_⟩
  · rw [h2]; exact hval
  · rw [(h3 hne).1]
    show [(defaultConfig.ecAddr, toByte (ecValOf defaultConfig (50 : ℚ)))] = _
    rw [hval]
    rfl

theorem stepped_frame (s : State) :
    (stepped s).ec = s.ec ∧ (stepped s).lastECVal = s.lastECVal
    ∧ (stepped s).speedTarget = s.speedTarget ∧ (stepped s).mode = s.mode := by
  unfold stepped
  simp only
  split_ifs <;> exact ⟨rfl, rfl, rfl, rfl⟩

theorem stepped_idle (s : State) (h : ¬ CallsWriteSpeed s) :
    (stepped s).currSpeed = s.currSpeed ∧ (stepped s).speedSatisfied = s.speedSatisfied := by
  unfold CallsWriteSpeed rateOf at h
  push_neg at h
  obtain ⟨h1, h2⟩ := h
  unfold stepped
  by_cases hm : s.mode = 2
  · simp only [hm, if_true] at h1 ⊢
    rw [if_neg (not_lt.mpr h1), if_neg h2]
    exact ⟨rfl, rfl⟩
  · simp only [hm, if_false] at h1 ⊢
    rw [if_neg (not_lt.mpr h1), if_neg h2]
    exact ⟨rfl, rfl⟩

theorem speedLoop_call (cfg : Config) (s : State) (h : CallsWriteSpeed s) :
    speedLoop cfg s = writeSpeed cfg (stepped s) := by
  unfold CallsWriteSpeed rateOf at h
  unfold speedLoop stepped
  by_cases hm : s.mode = 2
  · simp only [hm, if_true] at h ⊢
    by_cases hd : |s.speedTarget - s.currSpeed| > critModeSpeedChangeRate
    · simp only [hd, if_true]
    · have hs : s.speedSatisfied = false := h.resolve_left hd
      simp only [hd, hs, if_false, if_true]
  · simp only [hm, if_false] at h ⊢
    by_cases hd : |s.speedTarget - s.currSpeed| > normalSpeedChangeRate
    · simp only [hd, if_true]
    · have hs : s.speedSatisfied = false := h.resolve_left hd
      simp only [hd, hs, if_false, if_true]

theorem speedLoop_idle (cfg : Config) (s : State) (h : ¬ CallsWriteSpeed s) :
    speedLoop cfg s = .returned () (stepped s) := by
  unfold CallsWriteSpeed rateOf at h
  push_neg at h
  obtain ⟨h1, h2⟩ := h
  unfold speedLoop stepped
  by_cases hm : s.mode = 2
  · simp only [hm, if_true] at h1 ⊢
    rw [if_neg (not_lt.mpr h1), if_neg h2, if_neg (not_lt.mpr h1), if_neg h2]
  · simp only [hm, if_false] at h1 ⊢
    rw [if_neg (not_lt.mpr h1), if_neg h2, if_neg (not_lt.mpr h1), if_neg h2]

/-- The register traffic of one actuator tick on a working device. -/
theorem speedLoop_traffic (cfg : Config) (s : State)
    (ho : s.ec.openOk = true) (hw : s.ec.writeOk cfg.ecAddr = true) :
    (CallsWriteSpeed s →
      (speedLoop cfg s).state.lastECVal = ecValOf cfg (speedLoop cfg s).state.currSpeed
      ∧ (speedLoop cfg s).state.ec =
          (if ecValOf cfg (speedLoop cfg s).state.currSpeed ≠ s.lastECVal then
            s.ec.written cfg.ecAddr (toByte (ecValOf cfg (speedLoop cfg s).state.currSpeed))
           else s.ec))
    ∧ (¬ CallsWriteSpeed s →
      (speedLoop cfg s).state.lastECVal = s.lastECVal
      ∧ (speedLoop cfg s).state.ec = s.ec
      ∧ (speedLoop cfg s).state.speedTarget = s.speedTarget
      ∧ (speedLoop cfg s).state.currSpeed = s.currSpeed
      ∧ (speedLoop cfg s).state.mode = s.mode
      ∧ (speedLoop cfg s).state.speedSatisfied = s.speedSatisfied) := by
  obtain ⟨hec, hlast, htgt, hmode⟩ := stepped_frame s
  have hox : (stepped s).ec.openOk = true := by rw [hec]; exact ho
  have hwx : (stepped s).ec.writeOk cfg.ecAddr = true := by rw [hec]; exact hw
  constructor
  · intro hc
    rw [speedLoop_call cfg s hc, writeSpeed_ok cfg (stepped s) hox hwx]
    by_cases hne : ecValOf cfg (stepped s).currSpeed = (stepped s).lastECVal
    · rw [if_neg (not_not.mpr hne)]
      simp only [Outcome.state]
      rw [← hlast, if_neg (not_not.mpr hne)]
      exact ⟨hne.symm, hec⟩
    · rw [if_pos hne]
      have hne2 : ecValOf cfg (stepped s).currSpeed ≠ s.lastECVal := by
        rw [← hlast]; exact hne
      refine ⟨rfl, ?_⟩
      simp only [Outcome.state]
      rw [if_pos hne2, hec]
  · intro hc
    rw [speedLoop_idle cfg s hc]
    obtain ⟨h1, h2⟩ := stepped_idle s hc
    exact ⟨hlast, hec, htgt, h1, hmode, h2⟩

/-- C6 (amended): on a working device, two consecutive actuator ticks that map to the same
register integer issue at most one write between them: the second tick writes nothing,
and the first writes that integer exactly when it calls `writeSpeed` and the integer
differs from `lastECVal`; otherwise neither tick writes. -/
theorem write_suppression_two_ticks (cfg : Config) (s s1 s2 : State)
    (ho : s.ec.openOk = true) (hw : s.ec.writeOk cfg.ecAddr = true)
    (hs1 : s1 = (speedLoop cfg s).state) (hs2 : s2 = (speedLoop cfg s1).state)
    (hsame : ecValOf cfg s1.currSpeed = ecValOf cfg s2.currSpeed) :
    s2.ec.writes = s1.ec.writes
    ∧ (CallsWriteSpeed s ∧ ecValOf cfg s1.currSpeed ≠ s.lastECVal →
        s2.ec.writes = (cfg.ecAddr, toByte (ecValOf cfg s1.currSpeed)) :: s.ec.writes)
    ∧ (¬ (CallsWriteSpeed s ∧ ecValOf cfg s1.currSpeed ≠ s.lastECVal) →
        s2.ec.writes = s.ec.writes) := by
  obtain ⟨-, ho1, hw1⟩ := speedLoop_ok cfg s ho hw
  rw [← hs1] at ho1 hw1
  obtain ⟨t1c, t1i⟩ := speedLoop_traffic cfg s ho hw
  obtain ⟨t2c, t2i⟩ := speedLoop_traffic cfg s1 ho1 hw1
  rw [← hs1] at t1c t1i
  rw [← hs2] at t2c t2i
  have hsecond : s2.ec.writes = s1.ec.writes := by
    by_cases hc2 : CallsWriteSpeed s1
    · by_cases hc1 : CallsWriteSpeed s
      · obtain ⟨-, h2⟩ := t2c hc2
        rw [h2, (t1c hc1).1, hsame, if_neg (not_not.mpr rfl)]
      · exfalso
        obtain ⟨-, -, a, b, c, d⟩ := t1i hc1
        apply hc1
        unfold CallsWriteSpeed at hc2 ⊢
        rw [a, b, c, d] at hc2
        exact hc2
    · rw [(t2i hc2).2.1]
  refine ⟨hsecond, ?_, ?_⟩
  · rintro ⟨hc1, hne⟩
    rw [hsecond, (t1c hc1).2, if_pos hne]
    rfl
  · intro hn
    rw [hsecond]
    by_cases hc1 : CallsWriteSpeed s
    · have : ¬ (ecValOf cfg s1.currSpeed ≠ s.lastECVal) := fun h => hn ⟨hc1, h⟩
      rw [(t1c hc1).2, if_neg this]
    · rw [(t1i hc1).2.1]

/-- C6, counterexample: from the initial state with the default flags, the first two
actuator ticks both call `writeSpeed`, both map to the register integer 0, and no write
is issued at all. -/
theorem write_suppression_two_ticks_counterexample :
    CallsWriteSpeed (initState blankDevice)
    ∧ CallsWriteSpeed (speedLoop defaultConfig (initState blankDevice)).state
    ∧ ecValOf defaultConfig (speedLoop defaultConfig (initState blankDevice)).state.currSpeed = 0
    ∧ ecValOf defaultConfig (speedLoop defaultConfig
        (speedLoop defaultConfig (initState blankDevice)).state).state.currSpeed = 0
    ∧ (speedLoop defaultConfig
        (speedLoop defaultConfig (initState blankDevice)).state).state.ec.writes = [] := by
  have p1 : ecValOf defaultConfig 1 = 0 := by
    have := ecValOf_defaultConfig 1 (by norm_num)
    norm_num at this
    exact this
  have p2 : ecValOf defaultConfig 2 = 0 := by
    have := ecValOf_defaultConfig 2 (by norm_num)
    norm_num at this
    exact this
  have q1 : ecValOf { ecAddr := 25, manualAddr := 21, ecMin := 0, ecMax := 48 } 1 = 0 := p1
  have q2 : ecValOf { ecAddr := 25, manualAddr := 21, ecMin := 0, ecMax := 48 } 2 = 0 := p2
  have e1 : (speedLoop defaultConfig (initState blankDevice)).state
      = { initState blankDevice with currSpeed := 1, speedChangeRate := 1 } := by
    norm_num [speedLoop, writeSpeed, Outcome.state, initState, defaultConfig, q1,
      normalSpeedChangeRate]
  have e2 : (speedLoop defaultConfig
      { initState blankDevice with currSpeed := 1, speedChangeRate := 1 }).state
      = { initState blankDevice with currSpeed := 2, speedChangeRate := 1 } := by
    norm_num [speedLoop, writeSpeed, Outcome.state, initState, defaultConfig, q2,
      normalSpeedChangeRate]
  rw [e1, e2]
  refine ⟨?_, ?_, ?_, ?_, rfl⟩
  · left; norm_num [initState, rateOf, normalSpeedChangeRate]
  · left; norm_num [initState, rateOf, normalSpeedChangeRate]
  · exact p1
  · exact p2

theorem write_suppression_two_ticks_witness :
    (speedLoop defaultConfig
        (speedLoop defaultConfig { initState blankDevice with currSpeed := 2 }).state).state.ec.writes
      = [(25, 1)] := by
  have e1 : (speedLoop defaultConfig { initState blankDevice with currSpeed := 2 }).state.currSpeed
      = 3 := by
    rw [(speedLoop_currSpeed defaultConfig _).1]
    norm_num [initState, rateOf, normalSpeedChangeRate]
  have e2 : (speedLoop defaultConfig
      (speedLoop defaultConfig { initState blankDevice with currSpeed := 2 }).state).state.currSpeed
      = 4 := by
    obtain ⟨hm, ht, -⟩ := speedLoop_frame defaultConfig
      { initState blankDevice with currSpeed := 2 }
    rw [(speedLoop_currSpeed defaultConfig _).1, e1, hm, ht]
    norm_num [initState, rateOf, normalSpeedChangeRate]
  have v1 : ecValOf defaultConfig (3 : ℚ) = 1 := by
    have := ecValOf_defaultConfig 3 (by norm_num)
    norm_num at this
    exact this
  have v2 : ecValOf defaultConfig (4 : ℚ) = 1 := by
    have := ecValOf_defaultConfig 4 (by norm_num)
    norm_num at this
    exact this
  have h := write_suppression_two_ticks defaultConfig
    { initState blankDevice with currSpeed := 2 } _ _ rfl rfl rfl rfl
    (by rw [e1, e2, v1, v2])
  have hc : CallsWriteSpeed { initState blankDevice with currSpeed := 2 } := by
    left; norm_num [initState, rateOf, normalSpeedChangeRate]
  rw [h.2.1 ⟨hc, by rw [e1, v1]; decide⟩, e1, v1]
  rfl

/-! ## C7: the speed-to-register mapping -/

theorem toByte_of_range (v : Int) (h0 : 0 ≤ v) (h1 : v ≤ 255) : (toByte v : Int) = v := by
  unfold toByte
  omega

theorem ecValOf_mono (cfg : Config) (hcfg : cfg.ecMin ≤ cfg.ecMax)
    (hlo : -(2 : ℚ) ^ (61 : Nat) ≤ cfg.ecMin) (hhi : cfg.ecMax ≤ (2 : ℚ) ^ (61 : Nat))
    (x y : ℚ) (hx : 0 ≤ x) (hxy : x ≤ y) (hy : y ≤ 100) :
    ecValOf cfg x ≤ ecValOf cfg y := by
  rw [ecValOf_eq_floor cfg x hx (le_trans hxy hy) hcfg hlo hhi,
    ecValOf_eq_floor cfg y (le_trans hx hxy) hy hcfg hlo hhi]
  exact Int.floor_mono (ecRounded_mono cfg hcfg x y hxy)

/-- C7 (amended): for float64 flags with `-2^61 ≤ ecMin ≤ ecMax ≤ 2^61` the value computed
by `writeSpeed` is `floor(ecMin)` at 0 percent, non-decreasing in `currSpeed` over
[0, 100], and between `floor(ecMin)` and its value at 100 percent; that value is
`floor(ecMax)` when `ecMax` and the difference `ecMax - ecMin` are float64 values, as they
are for `ecMin = 0` and for whole-number flags.  With `0 ≤ ecMin` and `ecMax ≤ 255` the
conversion to a byte does not change the value, and the byte stored in the speed register
is that value. -/
theorem register_mapping (cfg : Config) (hcfg : cfg.ecMin ≤ cfg.ecMax)
    (hlo : -(2 : ℚ) ^ (61 : Nat) ≤ cfg.ecMin) (hhi : cfg.ecMax ≤ (2 : ℚ) ^ (61 : Nat))
    (hfl : IsFloat64 cfg.ecMin) :
    ecValOf cfg 0 = ⌊cfg.ecMin⌋
    ∧ (IsFloat64 cfg.ecMax → IsFloat64 (cfg.ecMax - cfg.ecMin) →
        ecValOf cfg 100 = ⌊cfg.ecMax⌋)
    ∧ (∀ x y : ℚ, 0 ≤ x → x ≤ y → y ≤ 100 → ecValOf cfg x ≤ ecValOf cfg y)
    ∧ (∀ x : ℚ, 0 ≤ x → x ≤ 100 →
        ⌊cfg.ecMin⌋ ≤ ecValOf cfg x ∧ ecValOf cfg x ≤ ecValOf cfg 100)
    ∧ (0 ≤ cfg.ecMin → cfg.ecMax ≤ 255 → ∀ s : State, 0 ≤ s.currSpeed → s.currSpeed ≤ 100 →
        (toByte (ecValOf cfg s.currSpeed) : Int) = ecValOf cfg s.currSpeed
        ∧ (s.ec.openOk = true → s.ec.writeOk cfg.ecAddr = true →
            ecValOf cfg s.currSpeed ≠ s.lastECVal →
            ((writeSpeed cfg s).state.ec.regs cfg.ecAddr : Int) = ecValOf cfg s.currSpeed)) := by
  have h0 : ecValOf cfg 0 = ⌊cfg.ecMin⌋ := by
    rw [ecValOf_eq_floor cfg 0 le_rfl (by norm_num) hcfg hlo hhi, ecRounded_zero cfg hfl]
  have hmono : ∀ x y : ℚ, 0 ≤ x → x ≤ y → y ≤ 100 → ecValOf cfg x ≤ ecValOf cfg y :=
    fun x y hx hxy hy => ecValOf_mono cfg hcfg hlo hhi x y hx hxy hy
  refine ⟨h0, ?_, hmono, ?_, ?_⟩
  · intro hmax hd
    rw [ecValOf_eq_floor cfg 100 (by norm_num) le_rfl hcfg hlo hhi,
      ecRounded_hundred cfg hmax hd]
  · intro x hx0 hx1
    constructor
    · rw [← h0]; exact hmono 0 x le_rfl hx0 hx1
    · exact hmono x 100 hx0 hx1 le_rfl
  intro hmin hmax s hs0 hs1
  obtain ⟨hb0, hb1⟩ := ecRounded_byte cfg s.currSpeed hs0 hs1 hcfg hmin hmax
  have hval := ecValOf_eq_floor cfg s.currSpeed hs0 hs1 hcfg hlo hhi
  have hv0 : 0 ≤ ecValOf cfg s.currSpeed := by
    rw [hval]; exact Int.floor_nonneg.mpr hb0
  have hv1 : ecValOf cfg s.currSpeed ≤ 255 := by
    rw [hval]
    have : ⌊ecRounded cfg s.currSpeed⌋ < 256 := Int.floor_lt.mpr (by push_cast; exact hb1)
    omega
  have hb := toByte_of_range _ hv0 hv1
  refine ⟨hb, ?_⟩
  intro ho hw hne
  rw [writeSpeed_ok cfg s ho hw, if_pos hne]
  simp only [Outcome.state, Device.written, Function.update_same]
  exact hb

/-- C7, counterexample: with the flags 0 and 10^19 the float64 value at 100 percent is
10^19, which does not fit a 64-bit `int`; the conversion gives the smallest `int`, which
is below `floor(ecMin)` = 0 and below the value 0 computed at 0 percent. -/
theorem register_mapping_counterexample :
    hugeConfig.ecMin ≤ hugeConfig.ecMax
    ∧ ecValOf hugeConfig 100 = -9223372036854775808
    ∧ ecValOf hugeConfig 100 < ⌊hugeConfig.ecMin⌋
    ∧ ecValOf hugeConfig 100 ≠ ⌊hugeConfig.ecMax⌋
    ∧ ecValOf hugeConfig 0 = 0
    ∧ ¬ (ecValOf hugeConfig 0 ≤ ecValOf hugeConfig 100) := by
  have h100 : ecValOf hugeConfig 100 = -9223372036854775808 :=
    ecValOf_overflow hugeConfig rfl rfl
  have h0 : ecValOf hugeConfig 0 = 0 := ecValOf_huge_zero
  refine ⟨by norm_num [hugeConfig, defaultConfig], h100, ?_, ?_, h0, ?_⟩
  · rw [h100]; norm_num [hugeConfig, defaultConfig]
  · rw [h100]; norm_num [hugeConfig, defaultConfig]
  · rw [h100, h0]; norm_num

theorem register_mapping_witness :
    defaultConfig.ecMin ≤ defaultConfig.ecMax
    ∧ ecValOf defaultConfig 0 = 0 ∧ ecValOf defaultConfig 100 = 48
    ∧ (toByte (ecValOf defaultConfig (50 : ℚ)) : Int) = ecValOf defaultConfig (50 : ℚ) := by
  have hcfg : defaultConfig.ecMin ≤ defaultConfig.ecMax := by norm_num [defaultConfig]
  have hfl0 : IsFloat64 defaultConfig.ecMin := by
    simpa [defaultConfig] using isFloat64_natCast 0 (by norm_num)
  have hfl48 : IsFloat64 defaultConfig.ecMax := by
    simpa [defaultConfig] using isFloat64_natCast 48 (by norm_num)
  have hfld : IsFloat64 (defaultConfig.ecMax - defaultConfig.ecMin) := by
    have : defaultConfig.ecMax - defaultConfig.ecMin = 48 := by norm_num [defaultConfig]
    rw [this]
    simpa using isFloat64_natCast 48 (by norm_num)
  have h := register_mapping defaultConfig hcfg (by norm_num [defaultConfig])
    (by norm_num [defaultConfig]) hfl0
  refine ⟨hcfg, ?_, ?_, ?_⟩
  · rw [h.1]; norm_num [defaultConfig]
  · rw [h.2.1 hfl48 hfld]; norm_num [defaultConfig]
  · exact (h.2.2.2.2 (by norm_num [defaultConfig]) (by norm_num [defaultConfig])
      { initState blankDevice with currSpeed := 50 } (by norm_num) (by norm_num)).1

/-! ## C8: the Low curve and the forcing rule -/

/-- C8, counterexample: at 28 degrees the raw Low-curve value is 2, not 18. -/
theorem low_curve_boundary_counterexample :
    calculateLowSpeed { initState blankDevice with currTemp := 28 } = 2
    ∧ calculateLowSpeed { initState blankDevice with currTemp := 28 } ≠ 18 := by
  have h : calculateLowSpeed { initState blankDevice with currTemp := 28 } = 2 := by
    norm_num [calculateLowSpeed, initState, mathRound, medFanSpeed]
  exact ⟨h, by rw [h]; norm_num⟩

/-- C8 (amended): in mode Low the raw curve value is `round(28^3 / 11842)` = 2 at 28
degrees and `round(35^3 / 11842)` = 4 at 35 degrees, and `updateSpeed` sets the target to
0 in both cases; in general a Low-curve result of at most `minFanSpeed` is forced to 0
and a larger one is kept. -/
theorem low_curve_boundary (s : State) (hmode : s.mode = 0) :
    (s.currTemp = 28 → mathRound (s.currTemp ^ 2 * s.currTemp / 11842) = 2
      ∧ calculateLowSpeed s = 2 ∧ (updateSpeed s).speedTarget = 0)
    ∧ (s.currTemp = 35 → mathRound (s.currTemp ^ 2 * s.currTemp / 11842) = 4
      ∧ calculateLowSpeed s = 4 ∧ (updateSpeed s).speedTarget = 0)
    ∧ (calculateLowSpeed s ≤ minFanSpeed → (updateSpeed s).speedTarget = 0)
    ∧ (minFanSpeed < calculateLowSpeed s → (updateSpeed s).speedTarget = calculateLowSpeed s) := by
  have hforce : calculateLowSpeed s ≤ minFanSpeed → (updateSpeed s).speedTarget = 0 := by
    intro h
    simp [updateSpeed, hmode, h]
  have hkeep : minFanSpeed < calculateLowSpeed s →
      (updateSpeed s).speedTarget = calculateLowSpeed s := by
    intro h
    simp [updateSpeed, hmode, not_le.mpr h]
  refine ⟨?_, ?_, hforce, hkeep⟩
  · intro hT
    have h1 : mathRound (s.currTemp ^ 2 * s.currTemp / 11842) = 2 := by
      rw [hT]; norm_num [mathRound]
    have h2 : calculateLowSpeed s = 2 := by
      unfold calculateLowSpeed; rw [h1]; norm_num [medFanSpeed]
    exact ⟨h1, h2, hforce (by rw [h2]; norm_num [minFanSpeed])⟩
  · intro hT
    have h1 : mathRound (s.currTemp ^ 2 * s.currTemp / 11842) = 4 := by
      rw [hT]; norm_num [mathRound]
    have h2 : calculateLowSpeed s = 4 := by
      unfold calculateLowSpeed; rw [h1]; norm_num [medFanSpeed]
    exact ⟨h1, h2, hforce (by rw [h2]; norm_num [minFanSpeed])⟩

theorem low_curve_boundary_witness :
    (updateSpeed { initState blankDevice with currTemp := 28 }).speedTarget = 0
    ∧ (updateSpeed { initState blankDevice with currTemp := 35 }).speedTarget = 0 :=
  ⟨((low_curve_boundary { initState blankDevice with currTemp := 28 } rfl).1 rfl).2.2,
   ((low_curve_boundary { initState blankDevice with currTemp := 35 } rfl).2.1 rfl).2.2⟩

/-! ## C9: hysteresis -/

/-- The target update changes `speedTarget` only. -/
theorem updateSpeed_frame (s : State) :
    (updateSpeed s).mode = s.mode ∧ (updateSpeed s).highTempTimer = s.highTempTimer
    ∧ (updateSpeed s).oldTemp = s.oldTemp ∧ (updateSpeed s).currTemp = s.currTemp
    ∧ (updateSpeed s).currSpeed = s.currSpeed
    ∧ (updateSpeed s).speedSatisfied = s.speedSatisfied := by
  unfold updateSpeed
  simp only
  split_ifs <;> exact ⟨rfl, rfl, rfl, rfl, rfl, rfl⟩

/-- An evaluation tick in the zone of the mode, with no timer running, is the delta
check alone. -/
theorem tempLoop_zone (cfg : Config) (T : ℚ) (t : Int) (s : State)
    (htimer : s.highTempTimer = 0) (hz : InZone s.mode T) :
    tempLoop cfg T t s =
      if |T - s.oldTemp| > tempThreshold then
        .returned () (updateSpeed { s with currTemp := T, oldTemp := T })
      else .returned () { s with currTemp := T } := by
  have hnt : ¬ (s.highTempTimer > 0) := by rw [htimer]; decide
  rcases hz with ⟨hm, hT⟩ | ⟨hm, hT1, hT2⟩
  · have hdg : ¬ (T ≥ dangerousTemp) := by
      unfold dangerousTemp; unfold highTemp at hT; linarith
    have hgt : ¬ (T > highTemp) := not_lt.mpr hT
    simp only [tempLoop, hdg, hnt, hm, hgt, if_true, if_false, false_and]
  · have hdg : ¬ (T ≥ dangerousTemp) := by
      unfold dangerousTemp; unfold critTemp at hT2; linarith
    have hlo : ¬ (T < highTemp - tempThreshold) := not_lt.mpr hT1
    have hhi : ¬ (T > critTemp) := not_lt.mpr hT2
    simp only [tempLoop, hdg, hnt, hm, hlo, hhi, if_true, if_false, one_ne_zero]

/-- An evaluation tick in the zone of the mode, with no timer running: mode and timer
stay; the target and `oldTemp` stay when the sample is within `tempThreshold` of
`oldTemp`, and otherwise `oldTemp` becomes the sample. -/
theorem tempLoop_quiet (cfg : Config) (T : ℚ) (t : Int) (s : State)
    (htimer : s.highTempTimer = 0) (hz : InZone s.mode T) :
    (tempLoop cfg T t s).state.mode = s.mode
    ∧ (tempLoop cfg T t s).state.highTempTimer = 0
    ∧ (|T - s.oldTemp| ≤ tempThreshold →
        (tempLoop cfg T t s).state.speedTarget = s.speedTarget
        ∧ (tempLoop cfg T t s).state.oldTemp = s.oldTemp)
    ∧ (tempThreshold < |T - s.oldTemp| → (tempLoop cfg T t s).state.oldTemp = T) := by
  rw [tempLoop_zone cfg T t s htimer hz]
  by_cases hd : |T - s.oldTemp| > tempThreshold
  · rw [if_pos hd]
    obtain ⟨h1, h2, h3, -⟩ := updateSpeed_frame { s with currTemp := T, oldTemp := T }
    refine ⟨?_, ?_, fun h => absurd hd (not_lt.mpr h), fun _ => ?_⟩
    · show (updateSpeed _).mode = _
      rw [h1]
    · show (updateSpeed _).highTempTimer = _
      rw [h2]; exact htimer
    · show (updateSpeed _).oldTemp = _
      rw [h3]
  · rw [if_neg hd]
    exact ⟨rfl, htimer, fun _ => ⟨rfl, rfl⟩, fun h => absurd h hd⟩

theorem tempRun_shift (cfg : Config) (samples : Nat → ℚ × Int) (s : State) (k n : Nat) :
    tempRun cfg samples s (k + n)
      = tempRun cfg (fun i => samples (k + i)) (tempRun cfg samples s k) n := by
  induction n with
  | zero => rfl
  | succ n ih =>
    show (tempLoop cfg (samples (k + n)).1 (samples (k + n)).2
      (tempRun cfg samples s (k + n))).state = _
    rw [ih]
    rfl

theorem tempRun_zone (cfg : Config) (samples : Nat → ℚ × Int) (s : State)
    (htimer : s.highTempTimer = 0) (hzone : ∀ n, InZone s.mode (samples n).1) :
    ∀ n, (tempRun cfg samples s n).mode = s.mode
      ∧ (tempRun cfg samples s n).highTempTimer = 0 := by
  intro n
  induction n with
  | zero => exact ⟨rfl, htimer⟩
  | succ n ih =>
    have hz : InZone (tempRun cfg samples s n).mode (samples n).1 := by
      rw [ih.1]; exact hzone n
    obtain ⟨h1, h2, -, -⟩ := tempLoop_quiet cfg (samples n).1 (samples n).2 _ ih.2 hz
    exact ⟨by rw [tempRun, h1, ih.1], by rw [tempRun, h2]⟩

theorem tempRun_anchored (cfg : Config) (samples : Nat → ℚ × Int) (s : State)
    (htimer : s.highTempTimer = 0) (hzone : ∀ n, InZone s.mode (samples n).1)
    (hband : ∀ n, |(samples n).1 - s.oldTemp| ≤ tempThreshold) :
    ∀ n, (tempRun cfg samples s n).speedTarget = s.speedTarget
      ∧ (tempRun cfg samples s n).oldTemp = s.oldTemp := by
  intro n
  induction n with
  | zero => exact ⟨rfl, rfl⟩
  | succ n ih =>
    obtain ⟨hm, ht⟩ := tempRun_zone cfg samples s htimer hzone n
    have hz : InZone (tempRun cfg samples s n).mode (samples n).1 := by
      rw [hm]; exact hzone n
    obtain ⟨-, -, h3, -⟩ := tempLoop_quiet cfg (samples n).1 (samples n).2 _ ht hz
    have hb : |(samples n).1 - (tempRun cfg samples s n).oldTemp| ≤ tempThreshold := by
      rw [ih.2]; exact hband n
    obtain ⟨h4, h5⟩ := h3 hb
    exact ⟨by rw [tempRun, h4, ih.1], by rw [tempRun, h5, ih.2]⟩

theorem abs_gap_ne (T old : ℚ) (h : tempThreshold < |T - old|) : T ≠ old := by
  intro e
  rw [e, sub_self, abs_zero] at h
  unfold tempThreshold at h
  linarith

theorem updateSpeed_mode (s : State) : (updateSpeed s).mode = s.mode := by
  unfold updateSpeed
  simp only
  split_ifs <;> rfl

theorem updateSpeed_timer (s : State) : (updateSpeed s).highTempTimer = s.highTempTimer := by
  unfold updateSpeed
  simp only
  split_ifs <;> rfl

theorem updateSpeed_old (s : State) : (updateSpeed s).oldTemp = s.oldTemp := by
  unfold updateSpeed
  simp only
  split_ifs <;> rfl

theorem updateSpeed_other (s : State) (h0 : s.mode ≠ 0) (h1 : s.mode ≠ 1) (h2 : s.mode ≠ 2) :
    updateSpeed s = s := by
  unfold updateSpeed
  simp only [h0, h1, h2, if_false]

/-- The three outcomes of the pending-promotion check: nothing, cancel, promote. -/
theorem timerPhase_cases (t : Int) (x : State) :
    (timerPhase t x).currTemp = x.currTemp ∧ (timerPhase t x).oldTemp = x.oldTemp
    ∧ (timerPhase t x = x
      ∨ (x.highTempTimer > 0 ∧ (timerPhase t x).mode = x.mode
          ∧ (timerPhase t x).highTempTimer = 0
          ∧ (timerPhase t x).speedTarget = x.speedTarget)
      ∨ (x.highTempTimer > 0 ∧ ¬ (x.currTemp < highTemp)
          ∧ (timerPhase t x).mode = 1 ∧ (timerPhase t x).highTempTimer = 0)) := by
  unfold timerPhase
  split_ifs with h1 h2 h3
  · exact ⟨rfl, rfl, Or.inr (Or.inl ⟨h1, rfl, rfl, rfl⟩)⟩
  · refine ⟨?_, updateSpeed_old _, Or.inr (Or.inr ⟨h1, h2, updateSpeed_mode _, updateSpeed_timer _⟩)⟩
    unfold updateSpeed
    simp only
    split_ifs <;> rfl
  · exact ⟨rfl, rfl, Or.inl rfl⟩
  · exact ⟨rfl, rfl, Or.inl rfl⟩

/-- What the per-mode step does to the mode, the timer, `oldTemp` and the target. -/
theorem modePhase_facts (t : Int) (y : State) :
    ((modePhase t y).oldTemp = y.oldTemp
      ∨ (tempThreshold < |y.currTemp - y.oldTemp| ∧ (modePhase t y).oldTemp = y.currTemp))
    ∧ (y.mode ≠ 0 → y.mode ≠ 1 → y.mode ≠ 2 → (modePhase t y).mode = y.mode →
        (modePhase t y).speedTarget = y.speedTarget)
    ∧ (y.mode = 1 → ((modePhase t y).mode = 0 ∧ y.currTemp < highTemp - tempThreshold)
        ∨ (modePhase t y).mode = 2
        ∨ ((modePhase t y).mode = 1 ∧ (modePhase t y).highTempTimer = y.highTempTimer
            ∧ ((modePhase t y).speedTarget ≠ y.speedTarget →
                (modePhase t y).oldTemp ≠ y.oldTemp)))
    ∧ (y.mode = 0 → (modePhase t y).mode = 0
        ∧ ((modePhase t y).speedTarget = y.speedTarget
          ∨ (modePhase t y).speedTarget = medFanSpeed
          ∨ (modePhase t y).oldTemp ≠ y.oldTemp)) := by
  unfold modePhase
  split_ifs with h0 hstart hdelta h1 hlow hcrit hdelta2 hlow2
  · exact ⟨Or.inl rfl, fun h => absurd h0 h, fun h => by omega,
      fun _ => ⟨h0, Or.inr (Or.inl rfl)⟩⟩
  · refine ⟨Or.inr ⟨hdelta, updateSpeed_old _⟩, fun h => absurd h0 h, fun h => by omega,
      fun _ => ⟨by rw [updateSpeed_mode]; exact h0, Or.inr (Or.inr ?_)⟩⟩
    rw [updateSpeed_old]
    exact abs_gap_ne _ _ hdelta
  · exact ⟨Or.inl rfl, fun h => absurd h0 h, fun h => by omega, fun _ => ⟨h0, Or.inl rfl⟩⟩
  · exact ⟨Or.inl rfl, fun _ h => absurd h1 h, fun _ => Or.inl ⟨rfl, hlow⟩,
      fun h => absurd h h0⟩
  · exact ⟨Or.inl rfl, fun _ h => absurd h1 h, fun _ => Or.inr (Or.inl rfl),
      fun h => absurd h h0⟩
  · refine ⟨Or.inr ⟨hdelta2, updateSpeed_old _⟩, fun _ h => absurd h1 h,
      fun _ => Or.inr (Or.inr ⟨by rw [updateSpeed_mode]; exact h1, updateSpeed_timer _,
        fun _ => ?_⟩), fun h => absurd h h0⟩
    rw [updateSpeed_old]
    exact abs_gap_ne _ _ hdelta2
  · exact ⟨Or.inl rfl, fun _ h => absurd h1 h,
      fun _ => Or.inr (Or.inr ⟨h1, rfl, fun h => absurd rfl h⟩), fun h => absurd h h0⟩
  · refine ⟨Or.inl rfl, fun _ hn1 _ hk => ?_, fun h => absurd h h1, fun h => absurd h h0⟩
    exact absurd hk.symm hn1
  · refine ⟨Or.inl (updateSpeed_old _), fun a b c _ => ?_, fun h => absurd h h1,
      fun h => absurd h h0⟩
    rw [updateSpeed_other y a b c]

/-- The change of `oldTemp` in an evaluation tick. -/
theorem thermalStep_old (T : ℚ) (t : Int) (s : State) :
    (thermalStep T t s).oldTemp = s.oldTemp
    ∨ (tempThreshold < |T - s.oldTemp| ∧ (thermalStep T t s).oldTemp = T) := by
  unfold thermalStep
  obtain ⟨h1, h2, -⟩ := timerPhase_cases t { s with currTemp := T }
  have h := (modePhase_facts t (timerPhase t { s with currTemp := T })).1
  rw [h1, h2] at h
  exact h

/-- A mode outside 0, 1, 2 that survives the tick leaves the target alone. -/
theorem thermalStep_other (T : ℚ) (t : Int) (s : State)
    (h0 : s.mode ≠ 0) (h1 : s.mode ≠ 1) (h2 : s.mode ≠ 2)
    (hkeep : (thermalStep T t s).mode = s.mode) :
    (thermalStep T t s).speedTarget = s.speedTarget := by
  unfold thermalStep at hkeep ⊢
  obtain ⟨-, -, hc⟩ := timerPhase_cases t { s with currTemp := T }
  obtain ⟨-, f2, f3, -⟩ := modePhase_facts t (timerPhase t { s with currTemp := T })
  rcases hc with e | ⟨-, em, -, et⟩ | ⟨-, -, em, -⟩
  · rw [e] at f2 hkeep ⊢
    exact f2 h0 h1 h2 hkeep
  · rw [em] at f2
    rw [f2 h0 h1 h2 hkeep, et]
  · rcases f3 em with ⟨a, -⟩ | a | ⟨a, -⟩
    · rw [a] at hkeep; exact absurd hkeep.symm h0
    · rw [a] at hkeep; exact absurd hkeep.symm h2
    · rw [a] at hkeep; exact absurd hkeep.symm h1

/-- In mode High, while the mode stays: the timer is kept or cleared, and the target
changes only when the timer is cleared or `oldTemp` changes. -/
theorem thermalStep_high (T : ℚ) (t : Int) (s : State)
    (h1 : s.mode = 1) (hkeep : (thermalStep T t s).mode = 1) :
    ((thermalStep T t s).highTempTimer = s.highTempTimer
      ∨ (thermalStep T t s).highTempTimer = 0)
    ∧ ((thermalStep T t s).speedTarget ≠ s.speedTarget →
        (s.highTempTimer > 0 ∧ (thermalStep T t s).highTempTimer = 0)
        ∨ (thermalStep T t s).oldTemp ≠ s.oldTemp) := by
  unfold thermalStep at hkeep ⊢
  obtain ⟨-, ho, hc⟩ := timerPhase_cases t { s with currTemp := T }
  obtain ⟨-, -, f3, -⟩ := modePhase_facts t (timerPhase t { s with currTemp := T })
  have hy1 : (timerPhase t { s with currTemp := T }).mode = 1 := by
    rcases hc with e | ⟨-, em, -, -⟩ | ⟨-, -, em, -⟩
    · rw [e]; exact h1
    · rw [em]; exact h1
    · exact em
  rcases f3 hy1 with ⟨a, -⟩ | a | ⟨-, b, c⟩
  · rw [a] at hkeep; exact absurd hkeep (by decide)
  · rw [a] at hkeep; exact absurd hkeep (by decide)
  · rw [ho] at c
    rcases hc with e | ⟨hpos, -, et, etg⟩ | ⟨hpos, -, -, et⟩
    · rw [e] at b c ⊢
      exact ⟨Or.inl b, fun hne => Or.inr (c hne)⟩
    · rw [etg] at c
      rw [et] at b
      exact ⟨Or.inr b, fun hne => Or.inr (c hne)⟩
    · rw [et] at b
      exact ⟨Or.inr b, fun _ => Or.inl ⟨hpos, b⟩⟩

/-- In mode Low, while the mode stays: the target is kept, set to `medFanSpeed`, or
set together with `oldTemp`. -/
theorem thermalStep_low (T : ℚ) (t : Int) (s : State)
    (h0 : s.mode = 0) (hkeep : (thermalStep T t s).mode = 0) :
    (thermalStep T t s).speedTarget = s.speedTarget
    ∨ (thermalStep T t s).speedTarget = medFanSpeed
    ∨ (thermalStep T t s).oldTemp ≠ s.oldTemp := by
  unfold thermalStep at hkeep ⊢
  obtain ⟨hct, ho, hc⟩ := timerPhase_cases t { s with currTemp := T }
  obtain ⟨-, -, f3, f4⟩ := modePhase_facts t (timerPhase t { s with currTemp := T })
  rcases hc with e | ⟨-, em, -, etg⟩ | ⟨-, hT, em, -⟩
  · rw [e] at f4 ⊢
    exact (f4 h0).2
  · have h := (f4 (by rw [em]; exact h0)).2
    rw [etg, ho] at h
    exact h
  · exfalso
    rcases f3 em with ⟨-, a⟩ | a | ⟨a, -⟩
    · rw [hct] at a
      apply hT
      have : highTemp - tempThreshold < highTemp := by
        unfold highTemp tempThreshold; norm_num
      exact lt_trans a this
    · rw [a] at hkeep; exact absurd hkeep (by decide)
    · rw [a] at hkeep; exact absurd hkeep (by decide)

theorem modePhase_rank (p : ℚ) (t : Int) (y : State)
    (hband : |y.currTemp - p| ≤ tempThreshold / 2) :
    bandRank p (modePhase t y) ≤ bandRank p y
    ∧ (bandRank p (modePhase t y) = bandRank p y → (modePhase t y).mode = y.mode) := by
  obtain ⟨hlo, hhi⟩ := abs_le.mp hband
  unfold tempThreshold at hlo hhi
  unfold modePhase
  split_ifs with h0 hstart hdelta h1 hlow hcrit hdelta2 hlow2
  all_goals
    unfold bandRank highTemp critTemp tempThreshold at *
    simp only [updateSpeed_mode, updateSpeed_timer]
    split_ifs <;> simp_all <;> first | omega | linarith

theorem timerPhase_rank (p : ℚ) (t : Int) (x : State)
    (hband : |x.currTemp - p| ≤ tempThreshold / 2) :
    bandRank p (timerPhase t x) ≤ bandRank p x
    ∧ (bandRank p (timerPhase t x) = bandRank p x → (timerPhase t x).mode = x.mode) := by
  obtain ⟨hlo, hhi⟩ := abs_le.mp hband
  unfold tempThreshold at hlo hhi
  unfold timerPhase
  split_ifs with h0 hcancel hpromo
  all_goals
    unfold bandRank highTemp critTemp tempThreshold at *
    simp only [updateSpeed_mode, updateSpeed_timer]
    split_ifs <;> simp_all <;> first | omega | linarith

/-- The rank depends on the mode and on whether the timer runs, and on nothing else. -/
theorem bandRank_congr (p : ℚ) (a b : State) (hm : a.mode = b.mode)
    (ht : a.highTempTimer > 0 ↔ b.highTempTimer > 0) : bandRank p a = bandRank p b := by
  unfold bandRank
  simp only [hm, ht]

/-- An evaluation tick below `dangerousTemp` never raises the rank, and changes the mode
only by lowering it. -/
theorem thermalStep_rank (p T : ℚ) (t : Int) (s : State)
    (hband : |T - p| ≤ tempThreshold / 2) :
    bandRank p (thermalStep T t s) ≤ bandRank p s
    ∧ (bandRank p (thermalStep T t s) = bandRank p s → (thermalStep T t s).mode = s.mode) := by
  have hx : bandRank p { s with currTemp := T } = bandRank p s := rfl
  obtain ⟨a1, a2⟩ := timerPhase_rank p t { s with currTemp := T } hband
  obtain ⟨b1, b2⟩ := modePhase_rank p t (timerPhase t { s with currTemp := T })
    (by rw [(timerPhase_cases t _).1]; exact hband)
  rw [hx] at a1 a2
  unfold thermalStep
  refine ⟨le_trans b1 a1, fun h => ?_⟩
  have e1 : bandRank p (timerPhase t { s with currTemp := T }) = bandRank p s := by omega
  have e2 := a2 e1
  rw [b2 (by omega), e2]

/-- Below `dangerousTemp` an evaluation tick is the two phases in sequence. -/
theorem tempLoop_phases (cfg : Config) (T : ℚ) (t : Int) (s : State)
    (hd : T < dangerousTemp) :
    tempLoop cfg T t s = .returned () (thermalStep T t s) := by
  have hd' : ¬ (T ≥ dangerousTemp) := not_le.mpr hd
  unfold thermalStep
  by_cases h1 : s.highTempTimer > 0
  · by_cases h2 : T < highTemp
    · simp only [tempLoop, timerPhase, hd', h1, h2, if_true, if_false]
      unfold modePhase
      simp only
      split_ifs <;> rfl
    · by_cases h3 : wrap64 (t - s.highTempTimer) > sustainedLoadTime
      · simp only [tempLoop, timerPhase, hd', h1, h2, h3, if_true, if_false]
        unfold modePhase
        split_ifs <;> rfl
      · simp only [tempLoop, timerPhase, hd', h1, h2, h3, if_true, if_false]
        unfold modePhase
        simp only
        split_ifs <;> rfl
  · simp only [tempLoop, timerPhase, hd', h1, if_false]
    unfold modePhase
    simp only
    split_ifs <;> rfl

/-- An evaluation tick either takes the dangerous-temperature exit, which leaves the
thermal variables alone, or is the thermal step. -/
theorem tempLoop_cases (cfg : Config) (T : ℚ) (t : Int) (s : State) :
    ((tempLoop cfg T t s).state.mode = s.mode
      ∧ (tempLoop cfg T t s).state.highTempTimer = s.highTempTimer
      ∧ (tempLoop cfg T t s).state.oldTemp = s.oldTemp
      ∧ (tempLoop cfg T t s).state.speedTarget = s.speedTarget)
    ∨ (tempLoop cfg T t s).state = thermalStep T t s := by
  by_cases hd : T ≥ dangerousTemp
  · left
    have e : tempLoop cfg T t s = writeSpeed cfg { s with currTemp := T, currSpeed := 100 } := by
      simp [tempLoop, hd]
    have h := writeSpeed_same cfg { s with currTemp := T, currSpeed := 100 }
    rw [e]
    exact ⟨h.mode, h.highTempTimer, h.oldTemp, h.speedTarget⟩
  · right
    rw [tempLoop_phases cfg T t s (not_le.mp hd)]
    rfl

theorem nat_antitone_stabilizes (f : Nat → Nat) (h : ∀ n, f (n + 1) ≤ f n) :
    ∃ N, ∀ n, N ≤ n → f n = f N := by
  have hanti : ∀ N n, N ≤ n → f n ≤ f N := by
    intro N n hn
    induction n, hn using Nat.le_induction with
    | base => exact le_refl _
    | succ n _ ih => exact le_trans (h n) ih
  have hne : (Set.range f).Nonempty := Set.range_nonempty f
  obtain ⟨N, hN⟩ := Nat.sInf_mem hne
  refine ⟨N, fun n hn => le_antisymm (hanti N n hn) ?_⟩
  rw [hN]
  exact Nat.sInf_le ⟨n, rfl⟩

theorem const_from {α : Type} (f : Nat → α) (N : Nat) (h : ∀ n, N ≤ n → f (n + 1) = f n) :
    ∀ n, N ≤ n → f n = f N := by
  intro n hn
  induction n, hn using Nat.le_induction with
  | base => rfl
  | succ n hn ih => rw [h n hn, ih]

/-- Along samples within `tempThreshold / 2` of `p` the rank never increases and the mode
changes only when the rank drops. -/
theorem tempRun_rank (cfg : Config) (p : ℚ) (samples : Nat → ℚ × Int) (s : State)
    (hband : ∀ n, |(samples n).1 - p| ≤ tempThreshold / 2) (n : Nat) :
    bandRank p (tempRun cfg samples s (n + 1)) ≤ bandRank p (tempRun cfg samples s n)
    ∧ (bandRank p (tempRun cfg samples s (n + 1)) = bandRank p (tempRun cfg samples s n) →
        (tempRun cfg samples s (n + 1)).mode = (tempRun cfg samples s n).mode) := by
  show bandRank p (tempLoop cfg (samples n).1 (samples n).2 (tempRun cfg samples s n)).state ≤ _
    ∧ (bandRank p (tempLoop cfg (samples n).1 (samples n).2 (tempRun cfg samples s n)).state = _
      → (tempLoop cfg (samples n).1 (samples n).2 (tempRun cfg samples s n)).state.mode = _)
  rcases tempLoop_cases cfg (samples n).1 (samples n).2 (tempRun cfg samples s n) with h | h
  · have e := bandRank_congr p _ _ h.1 (by rw [h.2.1])
    exact ⟨le_of_eq e, fun _ => h.1⟩
  · rw [h]
    exact thermalStep_rank p _ _ _ (hband n)

/-- The mode settles. -/
theorem tempRun_mode_settles (cfg : Config) (p : ℚ) (samples : Nat → ℚ × Int) (s : State)
    (hband : ∀ n, |(samples n).1 - p| ≤ tempThreshold / 2) :
    ∃ N, ∀ n, N ≤ n → (tempRun cfg samples s n).mode = (tempRun cfg samples s N).mode := by
  obtain ⟨N, hN⟩ := nat_antitone_stabilizes
    (fun n => bandRank p (tempRun cfg samples s n))
    (fun n => (tempRun_rank cfg p samples s hband n).1)
  refine ⟨N, const_from (fun n => (tempRun cfg samples s n).mode) N (fun n hn => ?_)⟩
  apply (tempRun_rank cfg p samples s hband n).2
  have h1 := hN n hn
  have h2 := hN (n + 1) (by omega)
  simp only at h1 h2
  rw [h1, h2]

/-- After `oldTemp` has been set to a sample of the band it is never set again. -/
theorem tempRun_old_settles (cfg : Config) (p : ℚ) (samples : Nat → ℚ × Int) (s : State)
    (hband : ∀ n, |(samples n).1 - p| ≤ tempThreshold / 2) :
    ∃ N, ∀ n, N ≤ n →
      (tempRun cfg samples s (n + 1)).oldTemp = (tempRun cfg samples s n).oldTemp := by
  have hstep : ∀ n, (tempRun cfg samples s (n + 1)).oldTemp = (tempRun cfg samples s n).oldTemp
      ∨ (tempThreshold < |(samples n).1 - (tempRun cfg samples s n).oldTemp|
        ∧ (tempRun cfg samples s (n + 1)).oldTemp = (samples n).1) := by
    intro n
    show (tempLoop cfg (samples n).1 (samples n).2 (tempRun cfg samples s n)).state.oldTemp = _
      ∨ (_ ∧ (tempLoop cfg (samples n).1 (samples n).2
          (tempRun cfg samples s n)).state.oldTemp = _)
    rcases tempLoop_cases cfg (samples n).1 (samples n).2 (tempRun cfg samples s n) with h | h
    · exact Or.inl h.2.2.1
    · rw [h]
      exact thermalStep_old _ _ _
  by_cases hex : ∃ k, (tempRun cfg samples s (k + 1)).oldTemp
      ≠ (tempRun cfg samples s k).oldTemp
  · obtain ⟨k, hk⟩ := hex
    have hk1 : (tempRun cfg samples s (k + 1)).oldTemp = (samples k).1 := by
      rcases hstep k with h | h
      · exact absurd h hk
      · exact h.2
    have hnear : ∀ n, |(samples n).1 - (samples k).1| ≤ tempThreshold := by
      intro n
      have h1 := abs_le.mp (hband n)
      have h2 := abs_le.mp (hband k)
      rw [abs_le]
      constructor <;> linarith [h1.1, h1.2, h2.1, h2.2]
    have hall : ∀ n, k + 1 ≤ n → (tempRun cfg samples s n).oldTemp = (samples k).1 := by
      intro n hn
      induction n, hn using Nat.le_induction with
      | base => exact hk1
      | succ n _ ih =>
        rcases hstep n with h | h
        · rw [h, ih]
        · rw [ih] at h
          exact absurd h.1 (not_lt.mpr (hnear n))
    exact ⟨k + 1, fun n hn => by rw [hall n hn, hall (n + 1) (by omega)]⟩
  · push_neg at hex
    exact ⟨0, fun n _ => hex n⟩

/-- Once the mode stays put outside Critical, the target settles. -/
theorem tempRun_target_settles (cfg : Config) (p : ℚ) (samples : Nat → ℚ × Int) (s : State)
    (hband : ∀ n, |(samples n).1 - p| ≤ tempThreshold / 2)
    (hmode : ∀ n, (tempRun cfg samples s n).mode = s.mode) (hm2 : s.mode ≠ 2) :
    ∃ N, ∀ n, N ≤ n →
      (tempRun cfg samples s n).speedTarget = (tempRun cfg samples s N).speedTarget := by
  obtain ⟨N1, hold⟩ := tempRun_old_settles cfg p samples s hband
  by_cases h0 : s.mode = 0
  · -- mode Low: besides a delta update the target is only ever set to `medFanSpeed`
    have hstep : ∀ n, N1 ≤ n →
        (tempRun cfg samples s (n + 1)).speedTarget = (tempRun cfg samples s n).speedTarget
        ∨ (tempRun cfg samples s (n + 1)).speedTarget = medFanSpeed := by
      intro n hn
      have hm := hmode n
      have hm1 := hmode (n + 1)
      have ho := hold n hn
      revert hm1 ho
      show (tempLoop cfg (samples n).1 (samples n).2 (tempRun cfg samples s n)).state.mode = _ →
        (tempLoop cfg (samples n).1 (samples n).2 (tempRun cfg samples s n)).state.oldTemp = _ →
        (tempLoop cfg (samples n).1 (samples n).2
          (tempRun cfg samples s n)).state.speedTarget = _
        ∨ (tempLoop cfg (samples n).1 (samples n).2
          (tempRun cfg samples s n)).state.speedTarget = _
      rcases tempLoop_cases cfg (samples n).1 (samples n).2 (tempRun cfg samples s n) with h | h
      · intro _ _
        exact Or.inl h.2.2.2
      · rw [h]
        intro hm1 ho
        rcases thermalStep_low _ _ _ (by rw [hm, h0]) (by rw [hm1, h0]) with h3 | h3 | h3
        · exact Or.inl h3
        · exact Or.inr h3
        · exact absurd ho h3
    by_cases hex : ∃ k, N1 ≤ k ∧ (tempRun cfg samples s (k + 1)).speedTarget = medFanSpeed
    · obtain ⟨k, hk, hk1⟩ := hex
      have hall : ∀ n, k + 1 ≤ n → (tempRun cfg samples s n).speedTarget = medFanSpeed := by
        intro n hn
        induction n, hn using Nat.le_induction with
        | base => exact hk1
        | succ n hn ih =>
          rcases hstep n (by omega) with h | h
          · rw [h, ih]
          · exact h
      exact ⟨k + 1, fun n hn => by rw [hall n hn, hall (k + 1) (le_refl _)]⟩
    · push_neg at hex
      refine ⟨N1, const_from (fun n => (tempRun cfg samples s n).speedTarget) N1 (fun n hn => ?_)⟩
      rcases hstep n hn with h | h
      · exact h
      · exact absurd h (hex n hn)
  · by_cases h1 : s.mode = 1
    · -- mode High: besides a delta update the target is only set when the timer is cleared
      have hstep : ∀ n, N1 ≤ n →
          ((tempRun cfg samples s (n + 1)).highTempTimer
              = (tempRun cfg samples s n).highTempTimer
            ∨ (tempRun cfg samples s (n + 1)).highTempTimer = 0)
          ∧ ((tempRun cfg samples s (n + 1)).speedTarget
              ≠ (tempRun cfg samples s n).speedTarget →
              (tempRun cfg samples s n).highTempTimer > 0
              ∧ (tempRun cfg samples s (n + 1)).highTempTimer = 0) := by
        intro n hn
        have hm := hmode n
        have hm1 := hmode (n + 1)
        have ho := hold n hn
        revert hm1 ho
        show (tempLoop cfg (samples n).1 (samples n).2 (tempRun cfg samples s n)).state.mode = _ →
          (tempLoop cfg (samples n).1 (samples n).2 (tempRun cfg samples s n)).state.oldTemp = _ →
          ((tempLoop cfg (samples n).1 (samples n).2
              (tempRun cfg samples s n)).state.highTempTimer = _
            ∨ (tempLoop cfg (samples n).1 (samples n).2
              (tempRun cfg samples s n)).state.highTempTimer = 0)
          ∧ ((tempLoop cfg (samples n).1 (samples n).2
              (tempRun cfg samples s n)).state.speedTarget ≠ _ →
              _ ∧ (tempLoop cfg (samples n).1 (samples n).2
              (tempRun cfg samples s n)).state.highTempTimer = 0)
        rcases tempLoop_cases cfg (samples n).1 (samples n).2 (tempRun cfg samples s n) with h | h
        · intro _ _
          exact ⟨Or.inl h.2.1, fun hne => absurd h.2.2.2 hne⟩
        · rw [h]
          intro hm1 ho
          obtain ⟨a, b⟩ := thermalStep_high _ _ _ (by rw [hm, h1]) (by rw [hm1, h1])
          refine ⟨a, fun hne => ?_⟩
          rcases b hne with h3 | h3
          · exact h3
          · exact absurd ho h3
      by_cases hex : ∃ k, N1 ≤ k ∧ ¬ ((tempRun cfg samples s k).highTempTimer > 0)
      · obtain ⟨k, hk, hk1⟩ := hex
        have hall : ∀ n, k ≤ n → ¬ ((tempRun cfg samples s n).highTempTimer > 0) := by
          intro n hn
          induction n, hn using Nat.le_induction with
          | base => exact hk1
          | succ n hn ih =>
            rcases (hstep n (by omega)).1 with h | h
            · rw [h]; exact ih
            · rw [h]; decide
        refine ⟨k, const_from (fun n => (tempRun cfg samples s n).speedTarget) k
          (fun n hn => ?_)⟩
        by_contra hne
        exact hall n hn ((hstep n (by omega)).2 hne).1
      · push_neg at hex
        refine ⟨N1, const_from (fun n => (tempRun cfg samples s n).speedTarget) N1
          (fun n hn => ?_)⟩
        by_contra hne
        have h3 := ((hstep n hn).2 hne).2
        have h4 := hex (n + 1) (by omega)
        rw [h3] at h4
        exact absurd h4 (by decide)
    · -- a mode outside 0, 1, 2: `updateSpeed` does nothing
      refine ⟨0, const_from (fun n => (tempRun cfg samples s n).speedTarget) 0 (fun n _ => ?_)⟩
      have hm := hmode n
      have hm1 := hmode (n + 1)
      revert hm1
      show (tempLoop cfg (samples n).1 (samples n).2 (tempRun cfg samples s n)).state.mode = _ →
        (tempLoop cfg (samples n).1 (samples n).2
          (tempRun cfg samples s n)).state.speedTarget = _
      rcases tempLoop_cases cfg (samples n).1 (samples n).2 (tempRun cfg samples s n) with h | h
      · intro _
        exact h.2.2.2
      · rw [h]
        intro hm1
        exact thermalStep_other _ _ _ (by rw [hm]; exact h0) (by rw [hm]; exact h1)
          (by rw [hm]; exact hm2) (by rw [hm1, hm])

/-- C9 (amended): for every fixed point `p`, every starting state and every unending sequence
of evaluation ticks whose samples all lie within `tempThreshold / 2` of `p`, there is a
tick after which the mode never changes again and after which, unless that mode is
Critical, `speedTarget` never changes again.  Moreover, in mode Low or High with no timer
running, samples that stay inside the zone of the mode and within `tempThreshold` of
`oldTemp` never change the mode or `speedTarget`. -/
theorem hysteresis_stability (cfg : Config) (p : ℚ) (samples : Nat → ℚ × Int) (s : State)
    (hband : ∀ n, |(samples n).1 - p| ≤ tempThreshold / 2) :
    (∃ N, ∀ n, N ≤ n →
      (tempRun cfg samples s n).mode = (tempRun cfg samples s N).mode
      ∧ ((tempRun cfg samples s N).mode ≠ 2 →
          (tempRun cfg samples s n).speedTarget = (tempRun cfg samples s N).speedTarget))
    ∧ (s.highTempTimer = 0 → (∀ n, InZone s.mode (samples n).1) →
        (∀ n, |(samples n).1 - s.oldTemp| ≤ tempThreshold) →
        ∀ n, (tempRun cfg samples s n).mode = s.mode
          ∧ (tempRun cfg samples s n).speedTarget = s.speedTarget) := by
  constructor
  · obtain ⟨N0, hN0⟩ := tempRun_mode_settles cfg p samples s hband
    by_cases hcrit : (tempRun cfg samples s N0).mode = 2
    · exact ⟨N0, fun n hn => ⟨hN0 n hn, fun h => absurd hcrit h⟩⟩
    · have hmode : ∀ j, (tempRun cfg (fun i => samples (N0 + i))
          (tempRun cfg samples s N0) j).mode = (tempRun cfg samples s N0).mode := by
        intro j
        rw [← tempRun_shift cfg samples s N0 j]
        exact hN0 (N0 + j) (by omega)
      obtain ⟨M, hM⟩ := tempRun_target_settles cfg p (fun i => samples (N0 + i))
        (tempRun cfg samples s N0) (fun i => hband (N0 + i)) hmode hcrit
      refine ⟨N0 + M, fun n hn => ?_⟩
      obtain ⟨j, rfl⟩ := Nat.exists_eq_add_of_le hn
      refine ⟨by rw [hN0 (N0 + M + j) (by omega), hN0 (N0 + M) (by omega)], fun _ => ?_⟩
      rw [Nat.add_assoc, tempRun_shift cfg samples s N0 (M + j),
        tempRun_shift cfg samples s N0 M]
      exact hM (M + j) (by omega)
  · intro htimer hzone hanch n
    exact ⟨(tempRun_zone cfg samples s htimer hzone n).1,
      (tempRun_anchored cfg samples s htimer hzone hanch n).1⟩

theorem hysteresis_stability_witness :
    (tempRun defaultConfig steadySamples steadyHigh 7).mode = 1
    ∧ (tempRun defaultConfig steadySamples steadyHigh 7).speedTarget = 43 := by
  have h := hysteresis_stability defaultConfig 74 steadySamples steadyHigh
    (by
      intro n
      unfold steadySamples
      split_ifs <;> norm_num [tempThreshold, abs_le])
  refine h.2 rfl ?_ ?_ 7
  · intro n
    right
    refine ⟨rfl, ?_⟩
    unfold steadySamples
    split_ifs <;> norm_num [highTemp, tempThreshold, critTemp]
  · intro n
    unfold steadySamples
    show |(if n % 2 = 0 then (72 : ℚ) else 76) - 74| ≤ tempThreshold
    split_ifs <;> norm_num [tempThreshold, abs_le]

/-- In mode Critical with no timer running, a sample of 86 or 90 degrees keeps the mode
and sets the target by the Critical curve. -/
theorem tempLoop_critical (cfg : Config) (T : ℚ) (t : Int) (s : State)
    (hm : s.mode = 2) (htimer : s.highTempTimer = 0)
    (h1 : critTemp - tempThreshold ≤ T) (h2 : T < dangerousTemp) :
    (tempLoop cfg T t s).state.mode = 2
    ∧ (tempLoop cfg T t s).state.highTempTimer = 0
    ∧ (tempLoop cfg T t s).state.speedTarget
        = min (max (mathRound (T * 2.9 - 172)) medFanSpeed) 100 := by
  have hnt : ¬ (s.highTempTimer > 0) := by rw [htimer]; decide
  have hdg : ¬ (T ≥ dangerousTemp) := not_le.mpr h2
  have hlo : ¬ (T < critTemp - tempThreshold) := not_lt.mpr h1
  have e : tempLoop cfg T t s = .returned () (updateSpeed { s with currTemp := T }) := by
    simp only [tempLoop, hdg, hnt, hm, hlo, if_false]
    norm_num
  rw [e]
  simp only [Outcome.state, updateSpeed, hm]
  norm_num [calculateCritSpeed, htimer]

theorem oscillation_run (n : Nat) :
    (tempRun defaultConfig oscillation (initState blankDevice) (n + 2)).mode = 2
    ∧ (tempRun defaultConfig oscillation (initState blankDevice) (n + 2)).highTempTimer = 0 := by
  induction n with
  | zero =>
    norm_num [tempRun, tempLoop, oscillation, initState, Outcome.state, updateSpeed,
      dangerousTemp, highTemp, critTemp, tempThreshold, sustainedLoadTime, wrap64]
  | succ n ih =>
    have h := tempLoop_critical defaultConfig (oscillation (n + 2)).1 (oscillation (n + 2)).2
      _ ih.1 ih.2
      (by unfold oscillation critTemp tempThreshold; split_ifs <;> norm_num)
      (by unfold oscillation dangerousTemp; split_ifs <;> norm_num)
    exact ⟨h.1, h.2.1⟩

theorem oscillation_target (n : Nat) :
    (tempRun defaultConfig oscillation (initState blankDevice) (n + 3)).speedTarget
      = if n % 2 = 0 then 77 else 89 := by
  obtain ⟨hm, ht⟩ := oscillation_run n
  have h := (tempLoop_critical defaultConfig (oscillation (n + 2)).1 (oscillation (n + 2)).2
      _ hm ht
      (by unfold oscillation critTemp tempThreshold; split_ifs <;> norm_num)
      (by unfold oscillation dangerousTemp; split_ifs <;> norm_num)).2.2
  show (tempLoop defaultConfig (oscillation (n + 2)).1 (oscillation (n + 2)).2
    (tempRun defaultConfig oscillation (initState blankDevice) (n + 2))).state.speedTarget = _
  rw [h]
  have hpar : (n + 2) % 2 = n % 2 := by omega
  unfold oscillation
  simp only [hpar]
  split_ifs <;> norm_num [mathRound, medFanSpeed]

/-- C9, counterexample: from the initial state, samples alternating between 86 and 90
degrees (all within `tempThreshold` of 88) lead to mode Critical, where `speedTarget`
alternates between 77 and 89 for ever: no tick is followed by an unchanging target. -/
theorem hysteresis_stability_counterexample :
    (∀ n, |(oscillation n).1 - 88| ≤ tempThreshold)
    ∧ ¬ ∃ N, ∀ n, N ≤ n →
        (tempRun defaultConfig oscillation (initState blankDevice) n).mode
          = (tempRun defaultConfig oscillation (initState blankDevice) N).mode
        ∧ (tempRun defaultConfig oscillation (initState blankDevice) n).speedTarget
          = (tempRun defaultConfig oscillation (initState blankDevice) N).speedTarget := by
  constructor
  · intro n
    unfold oscillation tempThreshold
    split_ifs <;> norm_num [abs_le]
  · rintro ⟨N, hN⟩
    have h1 := (hN (2 * N + 3) (by omega)).2
    have h2 := (hN (2 * N + 4) (by omega)).2
    rw [oscillation_target (2 * N)] at h1
    rw [show 2 * N + 4 = (2 * N + 1) + 3 by ring, oscillation_target (2 * N + 1)] at h2
    rw [if_pos (by omega)] at h1
    rw [if_neg (by omega)] at h2
    rw [← h1] at h2
    norm_num at h2

/-! ## C10: the manual-control check -/

theorem readEC_ok (cfg : Config) (address : Int) (s : State) (ho : s.ec.openOk = true) :
    readEC cfg address s = .returned ((s.ec.regs address % 256 : Nat) : Int) s := by
  simp [readEC, ho]

/-- C10 (amended): on a working device, when `checkManualControl` reads the manual-control
register as 0 it sets `speedTarget` to 0 and `mode` to Low, writes 1 to the
manual-control register and calls `writeSpeed`, which writes the register value of the
unchanged `currSpeed` only if it differs from `lastECVal`; when the register reads
non-zero nothing changes. -/
theorem manual_control_reset (cfg : Config) (s : State)
    (ho : s.ec.openOk = true) (hw : s.ec.writeOk cfg.ecAddr = true)
    (hm : s.ec.writeOk cfg.manualAddr = true) :
    (s.ec.regs cfg.manualAddr % 256 = 0 →
      ∃ s', checkManualControl cfg s = .returned () s'
        ∧ s'.speedTarget = 0 ∧ s'.mode = 0
        ∧ s'.lastECVal = ecValOf cfg s.currSpeed
        ∧ s'.ec.writes =
            (if ecValOf cfg s.currSpeed ≠ s.lastECVal then
              [(cfg.ecAddr, toByte (ecValOf cfg s.currSpeed))] else [])
            ++ (cfg.manualAddr, 1) :: s.ec.writes
        ∧ s'.currSpeed = s.currSpeed ∧ s'.speedSatisfied = s.speedSatisfied
        ∧ s'.oldTemp = s.oldTemp ∧ s'.highTempTimer = s.highTempTimer
        ∧ s'.currTemp = s.currTemp)
    ∧ (s.ec.regs cfg.manualAddr % 256 ≠ 0 → checkManualControl cfg s = .returned () s) := by
  constructor
  · intro hz
    have hz' : ((s.ec.regs cfg.manualAddr % 256 : Nat) : Int) = 0 := by exact_mod_cast hz
    unfold checkManualControl enableManualControl
    rw [readEC_ok cfg _ s ho]
    simp only [Outcome.andThen, hz', if_true]
    rw [writeEC_ok cfg cfg.manualAddr 1 { s with speedTarget := 0, mode := 0 } ho hm]
    simp only
    rw [writeSpeed_ok cfg
      { s with speedTarget := 0, mode := 0, ec := s.ec.written cfg.manualAddr (toByte 1) }
      ho hw]
    by_cases hne : ecValOf cfg s.currSpeed = s.lastECVal
    · simp [hne, Device.written, toByte]
    · simp [hne, Device.written, toByte]
  · intro hnz
    have hnz' : ¬ (((s.ec.regs cfg.manualAddr % 256 : Nat) : Int) = 0) := by
      intro h; exact hnz (by exact_mod_cast h)
    unfold checkManualControl
    rw [readEC_ok cfg _ s ho]
    simp only [Outcome.andThen, hnz', if_false]

/-- C10, counterexample: in the initial state with the default flags and the
manual-control register reading 0, the only write of the check is the 1 to the
manual-control register; no write to the speed register is issued, neither by the check
nor by the rest of the slow tick at 20 degrees. -/
theorem manual_control_reset_counterexample :
    (initState blankDevice).ec.regs defaultConfig.manualAddr = 0
    ∧ (checkManualControl defaultConfig (initState blankDevice)).state.ec.writes
        = [(defaultConfig.manualAddr, 1)]
    ∧ (∀ w ∈ (checkManualControl defaultConfig (initState blankDevice)).state.ec.writes,
        w.1 ≠ defaultConfig.ecAddr)
    ∧ (loop defaultConfig 20 1000 (initState blankDevice)).state.ec.writes
        = [(defaultConfig.manualAddr, 1)] := by
  have q0 : ecValOf { ecAddr := 25, manualAddr := 21, ecMin := 0, ecMax := 48 } 0 = 0 := by
    have := ecValOf_defaultConfig 0 (by norm_num)
    norm_num at this
    exact this
  have h : (checkManualControl defaultConfig (initState blankDevice)).state.ec.writes
      = [(defaultConfig.manualAddr, 1)] := by
    norm_num [checkManualControl, readEC, enableManualControl, writeEC, writeSpeed,
      Device.writeAt, Device.written, Outcome.andThen, Outcome.state, initState, blankDevice,
      defaultConfig, q0, toByte]
  have h2 : (loop defaultConfig 20 1000 (initState blankDevice)).state.ec.writes
      = [(defaultConfig.manualAddr, 1)] := by
    norm_num [loop, tempLoop, updateSpeed, calculateLowSpeed, mathRound, checkManualControl,
      readEC, enableManualControl, writeEC, writeSpeed,
      Device.writeAt, Device.written, Outcome.andThen, Outcome.state, initState, blankDevice,
      defaultConfig, q0, toByte, dangerousTemp, highTemp, tempThreshold, medFanSpeed,
      minFanSpeed]
  refine ⟨rfl, h, ?_, h2⟩
  rw [h]
  intro w hw
  simp only [List.mem_singleton] at hw
  rw [hw]
  decide

theorem manual_control_reset_witness :
    ∃ s', checkManualControl defaultConfig (initState blankDevice) = .returned () s'
      ∧ s'.speedTarget = 0 ∧ s'.mode = 0 := by
  obtain ⟨s', h1, h2, h3, -⟩ :=
    (manual_control_reset defaultConfig (initState blankDevice) rfl rfl rfl).1 rfl
  exact ⟨s', h1, h2, h3⟩

/-! ## C11, C12, C13: reachable states -/

theorem updateSpeed_range (s : State) (h0 : 0 ≤ s.speedTarget) (h1 : s.speedTarget ≤ 100) :
    0 ≤ (updateSpeed s).speedTarget ∧ (updateSpeed s).speedTarget ≤ 100 := by
  have hcurve : ∀ r : ℚ, 0 ≤ min (max r medFanSpeed) 100 ∧ min (max r medFanSpeed) 100 ≤ 100 := by
    intro r
    unfold medFanSpeed
    exact ⟨le_min (le_trans (by norm_num) (le_max_right _ _)) (by norm_num), min_le_right _ _⟩
  unfold updateSpeed
  simp only
  split_ifs with m1 m0 hforce m2
  · exact hcurve _
  · exact ⟨le_refl _, by norm_num⟩
  · have hgt : minFanSpeed < calculateLowSpeed s := not_le.mp hforce
    have hle : calculateLowSpeed s ≤ medFanSpeed := by
      unfold calculateLowSpeed; exact min_le_right _ _
    unfold minFanSpeed at hgt
    unfold medFanSpeed at hle
    show 0 ≤ calculateLowSpeed s ∧ calculateLowSpeed s ≤ 100
    constructor <;> linarith
  · exact hcurve _
  · exact ⟨h0, h1⟩

theorem updateSpeed_currSpeed (s : State) : (updateSpeed s).currSpeed = s.currSpeed :=
  (updateSpeed_frame s).2.2.2.2.1

theorem timerPhase_range (t : Int) (x : State) (h : SpeedsInRange x) :
    SpeedsInRange (timerPhase t x) := by
  unfold timerPhase
  split_ifs
  · exact h
  · obtain ⟨a, b, c, d⟩ := h
    obtain ⟨e, f⟩ := updateSpeed_range { x with mode := 1, highTempTimer := 0 } a b
    exact ⟨e, f, by rw [updateSpeed_currSpeed]; exact c, by rw [updateSpeed_currSpeed]; exact d⟩
  · exact h
  · exact h

theorem modePhase_range (t : Int) (y : State) (h : SpeedsInRange y) :
    SpeedsInRange (modePhase t y) := by
  obtain ⟨a, b, c, d⟩ := h
  have hu : ∀ z : State, z.speedTarget = y.speedTarget → z.currSpeed = y.currSpeed →
      SpeedsInRange (updateSpeed z) := by
    intro z hz1 hz2
    obtain ⟨e, f⟩ := updateSpeed_range z (by rw [hz1]; exact a) (by rw [hz1]; exact b)
    exact ⟨e, f, by rw [updateSpeed_currSpeed, hz2]; exact c,
      by rw [updateSpeed_currSpeed, hz2]; exact d⟩
  unfold modePhase
  split_ifs
  · exact ⟨by unfold medFanSpeed; norm_num, by unfold medFanSpeed; norm_num, c, d⟩
  · exact hu _ rfl rfl
  · exact ⟨a, b, c, d⟩
  · exact ⟨a, b, c, d⟩
  · exact ⟨a, b, c, d⟩
  · exact hu _ rfl rfl
  · exact ⟨a, b, c, d⟩
  · exact ⟨a, b, c, d⟩
  · exact hu _ rfl rfl

/-- The manual-control check leaves `currSpeed` and `speedSatisfied` alone and either
keeps the target or resets it to 0. -/
theorem checkManualControl_speeds (cfg : Config) (s : State) :
    (checkManualControl cfg s).state.currSpeed = s.currSpeed
    ∧ (checkManualControl cfg s).state.speedSatisfied = s.speedSatisfied
    ∧ ((checkManualControl cfg s).state.speedTarget = s.speedTarget
        ∨ (checkManualControl cfg s).state.speedTarget = 0) := by
  unfold checkManualControl readEC
  by_cases ho : s.ec.openOk = false
  · rw [if_pos ho]
    cases hq : (quit cfg Err.openFailed s : Outcome Int) with
    | returned v s1 =>
      have := quit_isReturned (α := Int) cfg Err.openFailed s
      rw [hq] at this
      exact absurd this (by simp [Outcome.isReturned])
    | panicked e s1 =>
      have := quit_same (α := Int) cfg Err.openFailed s
      rw [hq] at this
      exact ⟨this.currSpeed, this.speedSatisfied, Or.inl this.speedTarget⟩
  · rw [if_neg ho]
    simp only [Outcome.andThen]
    split_ifs with hv
    · cases he : enableManualControl cfg
          { s with speedTarget := 0, mode := 0 } with
      | returned u s1 =>
        have h1 := writeEC_same cfg cfg.manualAddr 1 { s with speedTarget := 0, mode := 0 }
        unfold enableManualControl at he
        rw [he] at h1
        have h2 := writeSpeed_same cfg s1
        simp only [Outcome.state] at h1
        exact ⟨by rw [h2.currSpeed, h1.currSpeed], by rw [h2.speedSatisfied, h1.speedSatisfied],
          Or.inr (by rw [h2.speedTarget, h1.speedTarget])⟩
      | panicked e s1 =>
        have h1 := writeEC_same cfg cfg.manualAddr 1 { s with speedTarget := 0, mode := 0 }
        unfold enableManualControl at he
        rw [he] at h1
        simp only [Outcome.state] at h1
        exact ⟨h1.currSpeed, h1.speedSatisfied, Or.inr h1.speedTarget⟩
    · exact ⟨rfl, rfl, Or.inl rfl⟩

/-- Every tick keeps both speeds within 0 to 100 percent, also when it ends in a panic. -/
theorem Tick.run_range (cfg : Config) (tk : Tick) (s : State) (h : SpeedsInRange s) :
    SpeedsInRange (tk.run cfg s).state := by
  obtain ⟨a, b, c, d⟩ := h
  cases tk with
  | eval sample now =>
    show SpeedsInRange (tempLoop cfg sample now s).state
    by_cases hd : sample ≥ dangerousTemp
    · have e : tempLoop cfg sample now s
          = writeSpeed cfg { s with currTemp := sample, currSpeed := 100 } := by
        simp [tempLoop, hd]
      have hs := writeSpeed_same cfg { s with currTemp := sample, currSpeed := 100 }
      rw [e]
      refine ⟨by rw [hs.speedTarget]; exact a, by rw [hs.speedTarget]; exact b, ?_, ?_⟩
      · rw [hs.currSpeed]; norm_num
      · rw [hs.currSpeed]
    · rw [tempLoop_phases cfg sample now s (not_le.mp hd)]
      exact modePhase_range now _ (timerPhase_range now _ ⟨a, b, c, d⟩)
  | actuate =>
    show SpeedsInRange (speedLoop cfg s).state
    obtain ⟨-, htgt, -⟩ := speedLoop_frame cfg s
    obtain ⟨-, hlo, hhi⟩ := speedLoop_bounds cfg s
    refine ⟨by rw [htgt]; exact a, by rw [htgt]; exact b, le_trans (le_min c a) hlo,
      le_trans hhi (max_le d b)⟩
  | handshake =>
    show SpeedsInRange (checkManualControl cfg s).state
    obtain ⟨h1, h2, h3⟩ := checkManualControl_speeds cfg s
    refine ⟨?_, ?_, by rw [h1]; exact c, by rw [h1]; exact d⟩
    · rcases h3 with h | h <;> rw [h]
      exact a
    · rcases h3 with h | h <;> rw [h]
      · exact b
      · norm_num

/-- C13: in every state reachable from the initial state by any sequence of manual-control
checks, evaluation ticks and actuator ticks, with arbitrary samples and clock values,
`speedTarget` and `currSpeed` lie between 0 and 100 percent. -/
theorem speeds_stay_in_range (cfg : Config) (s : State) (h : Reachable cfg s) :
    0 ≤ s.speedTarget ∧ s.speedTarget ≤ 100 ∧ 0 ≤ s.currSpeed ∧ s.currSpeed ≤ 100 := by
  unfold Reachable at h
  induction h with
  | init d => norm_num [initState]
  | tick tk s s' _ _ hrun ih =>
    have := Tick.run_range cfg tk s ih
    rw [hrun] at this
    exact this
  | env s d _ _ ih => exact ih

theorem speeds_stay_in_range_witness :
    Reachable defaultConfig (speedLoop defaultConfig (initState blankDevice)).state
    ∧ (speedLoop defaultConfig (initState blankDevice)).state.currSpeed ≤ 100 := by
  have hr : Reachable defaultConfig (speedLoop defaultConfig (initState blankDevice)).state :=
    ReachableWith.tick Tick.actuate (initState blankDevice) _ (ReachableWith.init blankDevice)
      trivial (speedLoop_ok defaultConfig (initState blankDevice) rfl rfl).1
  exact ⟨hr, (speeds_stay_in_range defaultConfig _ hr).2.2.2⟩

/-- What the per-mode step does to the timer: it starts it in mode Low only. -/
theorem modePhase_timer (t : Int) (y : State) :
    (y.mode ≠ 0 → (modePhase t y).highTempTimer = y.highTempTimer)
    ∧ (y.mode = 0 → (modePhase t y).mode = 0
        ∧ ((modePhase t y).highTempTimer = y.highTempTimer
          ∨ (modePhase t y).highTempTimer = t)) := by
  unfold modePhase
  split_ifs with h0 hstart hdelta h1 hlow hcrit hdelta2 hlow2
  · exact ⟨fun h => absurd h0 h, fun _ => ⟨h0, Or.inr rfl⟩⟩
  · exact ⟨fun h => absurd h0 h,
      fun _ => ⟨by rw [updateSpeed_mode]; exact h0, Or.inl (updateSpeed_timer _)⟩⟩
  · exact ⟨fun h => absurd h0 h, fun _ => ⟨h0, Or.inl rfl⟩⟩
  · exact ⟨fun _ => rfl, fun h => absurd h h0⟩
  · exact ⟨fun _ => rfl, fun h => absurd h h0⟩
  · exact ⟨fun _ => updateSpeed_timer _, fun h => absurd h h0⟩
  · exact ⟨fun _ => rfl, fun h => absurd h h0⟩
  · exact ⟨fun _ => rfl, fun h => absurd h h0⟩
  · exact ⟨fun _ => updateSpeed_timer _, fun h => absurd h h0⟩

theorem thermalStep_timerInLow (T : ℚ) (t : Int) (s : State) (ht : 0 < t)
    (h : TimerInLow s) : TimerInLow (thermalStep T t s) := by
  unfold thermalStep
  have hx : TimerInLow { s with currTemp := T } := h
  have hy : TimerInLow (timerPhase t { s with currTemp := T }) := by
    obtain ⟨-, -, hc⟩ := timerPhase_cases t { s with currTemp := T }
    rcases hc with e | ⟨-, -, et, -⟩ | ⟨-, -, -, et⟩
    · rw [e]; exact hx
    · exact ⟨by rw [et], fun hne => absurd et hne⟩
    · exact ⟨by rw [et], fun hne => absurd et hne⟩
  obtain ⟨m1, m2⟩ := modePhase_timer t (timerPhase t { s with currTemp := T })
  by_cases h0 : (timerPhase t { s with currTemp := T }).mode = 0
  · obtain ⟨a, b⟩ := m2 h0
    refine ⟨?_, fun _ => a⟩
    rcases b with b | b
    · rw [b]; exact hy.1
    · rw [b]; exact le_of_lt ht
  · have hz : (timerPhase t { s with currTemp := T }).highTempTimer = 0 := by
      by_contra hne
      exact h0 (hy.2 hne)
    have := m1 h0
    rw [hz] at this
    exact ⟨by rw [this], fun hne => absurd this hne⟩

/-- Every tick with a positive clock keeps the timer at 0 outside mode Low. -/
theorem Tick.run_timerInLow (cfg : Config) (tk : Tick) (s : State) (hok : tk.ClockPositive)
    (h : TimerInLow s) : TimerInLow (tk.run cfg s).state := by
  cases tk with
  | eval sample now =>
    show TimerInLow (tempLoop cfg sample now s).state
    rcases tempLoop_cases cfg sample now s with hc | hc
    · exact ⟨by rw [hc.2.1]; exact h.1, fun hne => by rw [hc.1]; exact h.2 (by rw [← hc.2.1]; exact hne)⟩
    · rw [hc]
      exact thermalStep_timerInLow sample now s hok h
  | actuate =>
    show TimerInLow (speedLoop cfg s).state
    obtain ⟨hm, -, -, ht, -⟩ := speedLoop_frame cfg s
    exact ⟨by rw [ht]; exact h.1, fun hne => by rw [hm]; exact h.2 (by rw [← ht]; exact hne)⟩
  | handshake =>
    show TimerInLow (checkManualControl cfg s).state
    obtain ⟨ht, hm⟩ := checkManualControl_frame cfg s
    refine ⟨by rw [ht]; exact h.1, fun hne => ?_⟩
    rcases hm with hm | hm
    · rw [hm]; exact h.2 (by rw [← ht]; exact hne)
    · exact hm

theorem reachable_timerInLow (cfg : Config) (s : State)
    (h : ReachableWith cfg Tick.ClockPositive s) : TimerInLow s := by
  induction h with
  | init d => exact ⟨le_refl _, fun hne => rfl⟩
  | tick tk s s' _ hok hrun ih =>
    have := Tick.run_timerInLow cfg tk s hok ih
    rw [hrun] at this
    exact this
  | env s d _ _ ih => exact ih

/-- C12: in every state reachable from the initial state by manual-control checks,
evaluation ticks and actuator ticks with positive clock values, a running timer implies
mode Low, so in mode High or Critical the timer is 0; and the tick that cancels the timer
(sample below `highTemp`) or promotes to High (sustained-load time exceeded) leaves the
timer at 0. -/
theorem timer_runs_in_low_only (cfg : Config) (s : State)
    (h : ReachableWith cfg Tick.ClockPositive s) :
    (s.highTempTimer ≠ 0 → s.mode = 0)
    ∧ (s.mode = 1 ∨ s.mode = 2 → s.highTempTimer = 0)
    ∧ (∀ (T : ℚ) (t : Int), s.highTempTimer ≠ 0 → T < highTemp →
        (tempLoop cfg T t s).state.highTempTimer = 0
        ∧ (tempLoop cfg T t s).state.mode = 0)
    ∧ (∀ (T : ℚ) (t : Int), s.highTempTimer ≠ 0 → highTemp ≤ T → T < dangerousTemp →
        wrap64 (t - s.highTempTimer) > sustainedLoadTime →
        (tempLoop cfg T t s).state.highTempTimer = 0
        ∧ ((tempLoop cfg T t s).state.mode = 1 ∨ (tempLoop cfg T t s).state.mode = 2)) := by
  obtain ⟨hnn, hlow⟩ := reachable_timerInLow cfg s h
  have hpos : s.highTempTimer ≠ 0 → s.highTempTimer > 0 := fun hne =>
    lt_of_le_of_ne hnn (Ne.symm hne)
  refine ⟨hlow, ?_, ?_, ?_⟩
  · intro hm
    by_contra hne
    have := hlow hne
    rcases hm with hm | hm <;> rw [this] at hm <;> exact absurd hm (by decide)
  · intro T t hne hT
    have hd : T < dangerousTemp := by
      unfold dangerousTemp; unfold highTemp at hT; linarith
    rw [tempLoop_phases cfg T t s hd]
    have hy : timerPhase t { s with currTemp := T }
        = { s with currTemp := T, highTempTimer := 0 } := by
      unfold timerPhase
      rw [if_pos (hpos hne), if_pos hT]
    show (thermalStep T t s).highTempTimer = 0 ∧ (thermalStep T t s).mode = 0
    unfold thermalStep
    rw [hy]
    unfold modePhase
    have hm : s.mode = 0 := hlow hne
    have hgt : ¬ (T > highTemp) := not_lt.mpr (le_of_lt hT)
    simp only [hm, hgt, if_true, false_and, if_false]
    split_ifs
    · exact ⟨updateSpeed_timer _, by rw [updateSpeed_mode]⟩
    · exact ⟨rfl, rfl⟩
  · intro T t hne hT hd hw
    rw [tempLoop_phases cfg T t s hd]
    show (thermalStep T t s).highTempTimer = 0
      ∧ ((thermalStep T t s).mode = 1 ∨ (thermalStep T t s).mode = 2)
    unfold thermalStep
    have hy : timerPhase t { s with currTemp := T }
        = updateSpeed { s with currTemp := T, mode := 1, highTempTimer := 0 } := by
      unfold timerPhase
      rw [if_pos (hpos hne), if_neg (not_lt.mpr hT), if_pos hw]
    have hym : (timerPhase t { s with currTemp := T }).mode = 1 := by
      rw [hy, updateSpeed_mode]
    have hyt : (timerPhase t { s with currTemp := T }).highTempTimer = 0 := by
      rw [hy, updateSpeed_timer]
    have hyc : (timerPhase t { s with currTemp := T }).currTemp = T :=
      (timerPhase_cases t _).1
    obtain ⟨m1, -⟩ := modePhase_timer t (timerPhase t { s with currTemp := T })
    obtain ⟨-, -, f3, -⟩ := modePhase_facts t (timerPhase t { s with currTemp := T })
    refine ⟨by rw [m1 (by rw [hym]; decide), hyt], ?_⟩
    rcases f3 hym with ⟨-, a⟩ | a | ⟨a, -⟩
    · exfalso
      rw [hyc] at a
      unfold highTemp tempThreshold at a
      unfold highTemp at hT
      linarith
    · exact Or.inr a
    · exact Or.inl a

theorem timer_runs_in_low_only_witness :
    ReachableWith defaultConfig Tick.ClockPositive
      (tempLoop defaultConfig 71 1000 (initState blankDevice)).state
    ∧ (tempLoop defaultConfig 71 1000 (initState blankDevice)).state.highTempTimer = 1000
    ∧ (tempLoop defaultConfig 71 1000 (initState blankDevice)).state.mode = 0 := by
  have hr : ReachableWith defaultConfig Tick.ClockPositive
      (tempLoop defaultConfig 71 1000 (initState blankDevice)).state := by
    refine ReachableWith.tick (Tick.eval 71 1000) (initState blankDevice) _
      (ReachableWith.init blankDevice) (by show (0 : Int) < 1000; decide) ?_
    show tempLoop defaultConfig 71 1000 (initState blankDevice) = _
    rw [tempLoop_phases defaultConfig 71 1000 _ (by norm_num [dangerousTemp])]
    rfl
  have ht : (tempLoop defaultConfig 71 1000 (initState blankDevice)).state.highTempTimer
      = 1000 :=
    (tempLoop_start defaultConfig 71 1000 (initState blankDevice) rfl rfl
      (by norm_num [highTemp]) (by norm_num [critTemp])).1
  exact ⟨hr, ht, (timer_runs_in_low_only defaultConfig _ hr).1 (by rw [ht]; decide)⟩

/-- The thermal step touches neither the actuator's variables nor the device. -/
theorem thermalStep_frame (T : ℚ) (t : Int) (s : State) :
    (thermalStep T t s).speedSatisfied = s.speedSatisfied
    ∧ (thermalStep T t s).currSpeed = s.currSpeed := by
  have hu : ∀ z : State, (updateSpeed z).speedSatisfied = z.speedSatisfied
      ∧ (updateSpeed z).currSpeed = z.currSpeed :=
    fun z => ⟨(updateSpeed_frame z).2.2.2.2.2, (updateSpeed_frame z).2.2.2.2.1⟩
  have hy : (timerPhase t { s with currTemp := T }).speedSatisfied = s.speedSatisfied
      ∧ (timerPhase t { s with currTemp := T }).currSpeed = s.currSpeed := by
    unfold timerPhase
    split_ifs
    · exact ⟨rfl, rfl⟩
    · exact hu _
    · exact ⟨rfl, rfl⟩
    · exact ⟨rfl, rfl⟩
  have hz : ∀ y : State, (modePhase t y).speedSatisfied = y.speedSatisfied
      ∧ (modePhase t y).currSpeed = y.currSpeed := by
    intro y
    unfold modePhase
    split_ifs <;> first | exact ⟨rfl, rfl⟩ | exact hu _
  unfold thermalStep
  exact ⟨by rw [(hz _).1, hy.1], by rw [(hz _).2, hy.2]⟩

/-- The evaluation tick never touches `speedSatisfied`. -/
theorem tempLoop_speedSatisfied (cfg : Config) (T : ℚ) (t : Int) (s : State) :
    (tempLoop cfg T t s).state.speedSatisfied = s.speedSatisfied := by
  by_cases hd : T ≥ dangerousTemp
  · have e : tempLoop cfg T t s = writeSpeed cfg { s with currTemp := T, currSpeed := 100 } := by
      simp [tempLoop, hd]
    rw [e, (writeSpeed_same cfg _).speedSatisfied]
  · rw [tempLoop_phases cfg T t s (not_le.mp hd)]
    exact (thermalStep_frame T t s).1

/-- A run of ticks that returns leads from reachable states to reachable states. -/
theorem runTicks_reachable (cfg : Config) (ok : Tick → Prop) (ticks : List Tick) :
    ∀ s s' : State, ReachableWith cfg ok s → (∀ tk ∈ ticks, ok tk) →
      runTicks cfg ticks s = .returned () s' → ReachableWith cfg ok s' := by
  induction ticks with
  | nil =>
    intro s s' hr _ hrun
    simp only [runTicks, Outcome.returned.injEq, true_and] at hrun
    rw [← hrun]; exact hr
  | cons tk rest ih =>
    intro s s' hr hok hrun
    unfold runTicks at hrun
    cases hstep : tk.run cfg s with
    | returned u s1 =>
      rw [hstep] at hrun
      exact ih s1 s' (ReachableWith.tick tk s s1 hr (hok tk (List.mem_cons_self _ _)) hstep)
        (fun tk2 h2 => hok tk2 (List.mem_cons_of_mem _ h2)) hrun
    | panicked e s1 =>
      rw [hstep] at hrun
      simp [Outcome.andThen] at hrun

/-- C11, counterexample: after the slow tick at 20 degrees, one actuator tick and the next
slow tick at 72 degrees, all from the initial state, `speedSatisfied` is true while
`currSpeed` is 0 and `speedTarget` is 35. -/
theorem speedSatisfied_latch_counterexample :
    Reachable defaultConfig (runTicks defaultConfig latchRun (initState blankDevice)).state
    ∧ (runTicks defaultConfig latchRun (initState blankDevice)).state.speedSatisfied = true
    ∧ (runTicks defaultConfig latchRun (initState blankDevice)).state.currSpeed = 0
    ∧ (runTicks defaultConfig latchRun (initState blankDevice)).state.speedTarget = 35 := by
  have q0 : ecValOf { ecAddr := 25, manualAddr := 21, ecMin := 0, ecMax := 48 } 0 = 0 := by
    have := ecValOf_defaultConfig 0 (by norm_num)
    norm_num at this
    exact this
  have e : ∃ s', runTicks defaultConfig latchRun (initState blankDevice) = .returned () s'
      ∧ s'.speedSatisfied = true ∧ s'.currSpeed = 0 ∧ s'.speedTarget = 35 := by
    norm_num [latchRun, runTicks, Tick.run, tempLoop, speedLoop, updateSpeed,
      calculateLowSpeed, mathRound, checkManualControl,
      readEC, enableManualControl, writeEC, writeSpeed,
      Device.writeAt, Device.written, Outcome.andThen, initState, blankDevice,
      defaultConfig, q0, toByte, dangerousTemp, highTemp, tempThreshold, medFanSpeed,
      minFanSpeed, normalSpeedChangeRate, Function.update]
  obtain ⟨s', h1, h2, h3, h4⟩ := e
  rw [h1]
  exact ⟨runTicks_reachable defaultConfig _ latchRun _ s' (ReachableWith.init blankDevice)
    (fun _ _ => trivial) h1, h2, h3, h4⟩

/-- C11 (amended): `speedSatisfied` is a latch.  No tick ever resets it: once true it
stays true; the evaluation tick, the manual-control check and `updateSpeed` leave it as
it is, whatever they do to `speedTarget`.  Only the actuator sets it, and the actuator
tick that sets it leaves `currSpeed` equal to `speedTarget`; actuator ticks alone keep
`speedSatisfied = true → currSpeed = speedTarget`. -/
theorem speedSatisfied_latch (cfg : Config) (s : State) :
    (∀ tk : Tick, s.speedSatisfied = true → (tk.run cfg s).state.speedSatisfied = true)
    ∧ (∀ (T : ℚ) (t : Int), (tempLoop cfg T t s).state.speedSatisfied = s.speedSatisfied)
    ∧ (checkManualControl cfg s).state.speedSatisfied = s.speedSatisfied
    ∧ (updateSpeed s).speedSatisfied = s.speedSatisfied
    ∧ (s.speedSatisfied = false → (speedLoop cfg s).state.speedSatisfied = true →
        (speedLoop cfg s).state.currSpeed = (speedLoop cfg s).state.speedTarget)
    ∧ (Settled s → Settled (speedLoop cfg s).state) := by
  obtain ⟨hc, hs⟩ := speedLoop_currSpeed cfg s
  obtain ⟨-, htgt, -⟩ := speedLoop_frame cfg s
  refine ⟨?_, fun T t => tempLoop_speedSatisfied cfg T t s, (checkManualControl_speeds cfg s).2.1,
    (updateSpeed_frame s).2.2.2.2.2, ?_, fun h => (speedLoop_progress cfg s h).1⟩
  · intro tk htrue
    cases tk with
    | eval sample now =>
      show (tempLoop cfg sample now s).state.speedSatisfied = true
      rw [tempLoop_speedSatisfied, htrue]
    | actuate =>
      show (speedLoop cfg s).state.speedSatisfied = true
      rw [hs]
      split_ifs
      · exact htrue
      · rfl
    | handshake =>
      show (checkManualControl cfg s).state.speedSatisfied = true
      rw [(checkManualControl_speeds cfg s).2.1, htrue]
  · intro hfalse htrue
    rw [htgt, hc]
    by_cases hd : |s.speedTarget - s.currSpeed| > rateOf s.mode
    · rw [if_pos hd] at hs
      rw [hs, hfalse] at htrue
      exact absurd htrue (by decide)
    · rw [if_neg hd, if_pos hfalse]

theorem speedSatisfied_latch_witness :
    (speedLoop defaultConfig { initState blankDevice with currSpeed := 10 }).state.speedSatisfied
      = true
    ∧ (speedLoop defaultConfig { initState blankDevice with currSpeed := 10 }).state.currSpeed
      = (speedLoop defaultConfig
          { initState blankDevice with currSpeed := 10 }).state.speedTarget := by
  have hs : (speedLoop defaultConfig
      { initState blankDevice with currSpeed := 10 }).state.speedSatisfied = true := by
    rw [(speedLoop_currSpeed defaultConfig _).2]
    norm_num [initState, rateOf, normalSpeedChangeRate]
  exact ⟨hs, (speedSatisfied_latch defaultConfig
    { initState blankDevice with currSpeed := 10 }).2.2.2.2.1 rfl hs⟩

/-! ## C14: the sensor read -/

/-- C14 (the code diverges from the claim): a readable sensor file never makes `readTemp`
fatal.  The content "abc" followed by a newline does not parse as an integer, yet
`readTemp` returns 0 degrees and leaves the state alone, because the error of
`strconv.Atoi` is discarded; only a file that cannot be read ends in `quit`.  Content that
parses as `n` gives `n / 1000`, as for 45000 giving 45 degrees. -/
theorem readTemp_ignores_parse_error (cfg : Config) (s : State) :
    (atoi (trimRightNewline "abc\n".toList)) = (0, false)
    ∧ readTemp cfg (some "abc\n") s = .returned 0 s
    ∧ (∀ f : String, (readTemp cfg (some f) s).isReturned = true)
    ∧ (readTemp cfg none s).isReturned = false
    ∧ (∀ (f : String) (n : Int), atoi (trimRightNewline f.toList) = (n, true) →
        readTemp cfg (some f) s = .returned ((n : ℚ) / 1000) s)
    ∧ readTemp cfg (some "45000\n") s = .returned 45 s := by
  have h1 : atoi (trimRightNewline "abc\n".toList) = (0, false) := by decide
  have h2 : atoi (trimRightNewline "45000\n".toList) = (45000, true) := by decide
  refine ⟨h1, ?_, ?_, ?_, ?_, ?_⟩
  · simp only [readTemp, h1]; norm_num
  · intro f; rfl
  · exact quit_isReturned cfg _ s
  · intro f n h; simp only [readTemp, h]
  · simp only [readTemp, h2]; norm_num

/-- The sensor text "abc" is read as 0 degrees, and the text "45000" as 45 degrees. -/
theorem readTemp_ignores_parse_error_witness :
    readTemp defaultConfig (some "abc\n") (initState blankDevice)
        = .returned 0 (initState blankDevice)
    ∧ readTemp defaultConfig (some "45000\n") (initState blankDevice)
        = .returned 45 (initState blankDevice) :=
  ⟨(readTemp_ignores_parse_error defaultConfig (initState blankDevice)).2.1,
   (readTemp_ignores_parse_error defaultConfig (initState blankDevice)).2.2.2.2.2⟩

/-! ## C15: the fatal-error path -/

/-- The literal call chain of `quit` ends for every fuel of at least 4, in the outcome of
the unfolded `quit`, having entered `disableManualControl` once when the flag was clear
and not at all when it was set. -/
theorem exec_quit (cfg : Config) (msg : Err) (s : State) (n : Nat) :
    exec cfg (n + 4) (.quit msg) s
      = some (quit cfg msg s, if s.gracefulQuitTried = false then 1 else 0) := by
  by_cases h : s.gracefulQuitTried = false
  · simp only [exec, quit, h, if_true]
    cases hw : Device.writeAt { s with gracefulQuitTried := true }.ec cfg.manualAddr (toByte 0) with
    | ok d => simp
    | error e => simp
  · have h2 : s.gracefulQuitTried = true := by simpa using h
    simp [exec, quit, h2]

/-- The state in which `quit` ends has the flag set. -/
theorem quit_flag {α : Type} (cfg : Config) (msg : Err) (s : State) :
    (quit cfg msg s : Outcome α).state.gracefulQuitTried = true := by
  unfold quit
  split_ifs with h
  · simp only
    split <;> rfl
  · simpa using h

/-- C15 (amended): with enough fuel (4 nested calls) the literal call chain of `quit`
terminates, never returns, and enters `disableManualControl` exactly once when
`gracefulQuitTried` was clear and not at all when it was set, so no later `quit` hands
back again.  The process ends with the causing error when the hand-back write succeeds
or had been tried before, and with the error of the hand-back write when that write
fails. -/
theorem quit_hands_back_once (cfg : Config) (msg : Err) (s : State) (fuel : Nat)
    (hfuel : 4 ≤ fuel) :
    exec cfg fuel (.quit msg) s
        = some (quit cfg msg s, if s.gracefulQuitTried = false then 1 else 0)
    ∧ (quit cfg msg s : Outcome Unit).isReturned = false
    ∧ (quit cfg msg s : Outcome Unit).state.gracefulQuitTried = true
    ∧ (∀ (msg2 : Err) (fuel2 : Nat), 4 ≤ fuel2 →
        exec cfg fuel2 (.quit msg2) (quit cfg msg s : Outcome Unit).state
          = some (.panicked msg2 (quit cfg msg s : Outcome Unit).state, 0))
    ∧ (s.gracefulQuitTried = true → (quit cfg msg s : Outcome Unit) = .panicked msg s)
    ∧ (s.gracefulQuitTried = false → ∀ d : Device,
        s.ec.writeAt cfg.manualAddr (toByte 0) = .ok d →
        (quit cfg msg s : Outcome Unit)
          = .panicked msg { s with gracefulQuitTried := true, ec := d })
    ∧ (s.gracefulQuitTried = false → ∀ e : Err,
        s.ec.writeAt cfg.manualAddr (toByte 0) = .error e →
        (quit cfg msg s : Outcome Unit)
          = .panicked e { s with gracefulQuitTried := true }) := by
  obtain ⟨n, rfl⟩ : ∃ n, fuel = n + 4 := ⟨fuel - 4, by omega⟩
  refine ⟨exec_quit cfg msg s n, quit_isReturned cfg msg s, quit_flag cfg msg s, ?_, ?_, ?_, ?_⟩
  · intro msg2 fuel2 h2
    obtain ⟨m, rfl⟩ : ∃ m, fuel2 = m + 4 := ⟨fuel2 - 4, by omega⟩
    have hf : (quit cfg msg s : Outcome Unit).state.gracefulQuitTried = true :=
      quit_flag cfg msg s
    generalize (quit cfg msg s : Outcome Unit).state = y at hf
    rw [exec_quit]
    unfold quit
    rw [if_neg (by simp [hf]), if_neg (by simp [hf])]
  · intro h
    unfold quit
    rw [if_neg (by simp [h])]
  · intro h d hd
    simp only [quit, h, if_true]
    have hd2 : Device.writeAt { s with gracefulQuitTried := true }.ec cfg.manualAddr (toByte 0)
        = .ok d := hd
    rw [hd2]
  · intro h e he
    simp only [quit, h, if_true]
    have he2 : Device.writeAt { s with gracefulQuitTried := true }.ec cfg.manualAddr (toByte 0)
        = .error e := he
    rw [he2]

/-- A sensor failure on a device that cannot be opened: `quit` is called with the sensor
error, and the process ends with the error of the hand-back write instead. -/
theorem quit_hands_back_once_counterexample :
    (quit defaultConfig .readFileFailed (initState deadDevice) : Outcome Unit)
        = .panicked .openFailed { initState deadDevice with gracefulQuitTried := true }
    ∧ exec defaultConfig 4 (.quit .readFileFailed) (initState deadDevice)
        = some (.panicked .openFailed { initState deadDevice with gracefulQuitTried := true }, 1)
    ∧ Err.openFailed ≠ Err.readFileFailed := by
  refine ⟨rfl, rfl, by decide⟩

/-- On a fresh state with a working device, `quit` with the sensor error hands back once
and ends with the sensor error. -/
theorem quit_hands_back_once_witness :
    exec defaultConfig 4 (.quit .readFileFailed) (initState blankDevice)
        = some (quit defaultConfig .readFileFailed (initState blankDevice), 1)
    ∧ (quit defaultConfig .readFileFailed (initState blankDevice) : Outcome Unit)
        = .panicked .readFileFailed
            { initState blankDevice with
              gracefulQuitTried := true, ec := blankDevice.written 21 0 } :=
  ⟨(quit_hands_back_once defaultConfig .readFileFailed (initState blankDevice) 4
      (le_refl 4)).1,
   (quit_hands_back_once defaultConfig .readFileFailed (initState blankDevice) 4
      (le_refl 4)).2.2.2.2.2.1 rfl (blankDevice.written 21 0) rfl⟩

/-! ## C16 to C19: what one tick does -/

theorem updateSpeed_target_low (s : State) (h : s.mode = 0) :
    (updateSpeed s).speedTarget = lowTarget s.currTemp := by
  simp only [lowTarget, updateSpeed, h, calculateLowSpeed]
  norm_num
  split_ifs <;> rfl

theorem lowTarget_eq (T : ℚ) :
    lowTarget T = if min (mathRound (T ^ 2 * T / 11842)) 35 ≤ 28 then 0
      else min (mathRound (T ^ 2 * T / 11842)) 35 := by
  simp only [lowTarget, updateSpeed, calculateLowSpeed, medFanSpeed, minFanSpeed]
  norm_num
  split_ifs <;> rfl

theorem updateSpeed_target_high (s : State) (h : s.mode = 1) :
    (updateSpeed s).speedTarget = min (max (mathRound (s.currTemp * 2.7 - 157)) 35) 100 := by
  simp [updateSpeed, h, calculateHighSpeed, medFanSpeed]

theorem updateSpeed_target_crit (s : State) (h : s.mode = 2) :
    (updateSpeed s).speedTarget = min (max (mathRound (s.currTemp * 2.9 - 172)) 35) 100 := by
  simp [updateSpeed, h, calculateCritSpeed, medFanSpeed]

/-- The mode after the per-mode step, as a function of the mode before it. -/
theorem modePhase_mode (t : Int) (y : State) :
    (y.mode = 0 → (modePhase t y).mode = 0)
    ∧ (y.mode = 1 → (modePhase t y).mode =
        (if y.currTemp < highTemp - tempThreshold then 0
         else if y.currTemp > critTemp then 2 else 1))
    ∧ (y.mode = 2 → (modePhase t y).mode =
        (if y.currTemp < critTemp - tempThreshold then 1 else 2)) := by
  refine ⟨?_, ?_, ?_⟩
  · intro h
    unfold modePhase
    rw [if_pos h]
    split_ifs <;> simp [updateSpeed_mode, h]
  · intro h
    unfold modePhase
    rw [if_neg (by omega), if_pos h]
    split_ifs <;> simp [updateSpeed_mode, h]
  · intro h
    unfold modePhase
    rw [if_neg (by omega), if_neg (by omega)]
    split_ifs <;> simp [updateSpeed_mode, h]

/-- A per-mode step that changes the mode changes nothing else but the mode. -/
theorem modePhase_change (t : Int) (y : State) (h : (modePhase t y).mode ≠ y.mode) :
    (modePhase t y).speedTarget = y.speedTarget ∧ (modePhase t y).oldTemp = y.oldTemp
    ∧ (modePhase t y).highTempTimer = y.highTempTimer := by
  unfold modePhase at h ⊢
  split_ifs at h ⊢ <;> simp_all [updateSpeed_mode]

/-- The pending-promotion check promotes to High when the timer has run long enough at or
above `highTemp`. -/
theorem timerPhase_promote (t : Int) (x : State) (ht : x.highTempTimer > 0)
    (hT : highTemp ≤ x.currTemp) (he : wrap64 (t - x.highTempTimer) > sustainedLoadTime) :
    (timerPhase t x).mode = 1 ∧ (timerPhase t x).currTemp = x.currTemp := by
  unfold timerPhase
  rw [if_pos ht, if_neg (not_lt.mpr hT), if_pos he]
  exact ⟨by rw [updateSpeed_mode], (updateSpeed_frame _).2.2.2.1⟩

/-- C17: on an evaluation tick below `dangerousTemp` the per-mode step (`modePhase`) runs
after the pending-promotion check (`timerPhase`).  It takes High to Low below 66 degrees,
otherwise to Critical above 85, otherwise keeps High; it takes Critical to High below 81
and otherwise keeps Critical; it keeps Low.  When it changes the mode it leaves
`speedTarget` and `oldTemp` as they were.  A tick that promotes from the timer therefore
ends in Critical when the sample is above `critTemp`, and in High otherwise. -/
theorem mode_step_transitions (cfg : Config) (T : ℚ) (t : Int) (s : State)
    (hd : T < dangerousTemp) :
    tempLoop cfg T t s = .returned () (modePhase t (timerPhase t { s with currTemp := T }))
    ∧ (∀ y : State, y.currTemp = T →
        (y.mode = 1 → (modePhase t y).mode = (if T < 66 then 0 else if T > 85 then 2 else 1))
        ∧ (y.mode = 2 → (modePhase t y).mode = (if T < 81 then 1 else 2))
        ∧ (y.mode = 0 → (modePhase t y).mode = 0)
        ∧ ((modePhase t y).mode ≠ y.mode →
            (modePhase t y).speedTarget = y.speedTarget
            ∧ (modePhase t y).oldTemp = y.oldTemp))
    ∧ (s.highTempTimer > 0 → highTemp ≤ T →
        wrap64 (t - s.highTempTimer) > sustainedLoadTime →
        (timerPhase t { s with currTemp := T }).mode = 1
        ∧ (tempLoop cfg T t s).state.mode = (if T > critTemp then 2 else 1)) := by
  have hp := tempLoop_phases cfg T t s hd
  refine ⟨hp, ?_, ?_⟩
  · intro y hy
    have hm := modePhase_mode t y
    rw [hy] at hm
    refine ⟨?_, ?_, hm.1, fun hne => ⟨(modePhase_change t y hne).1, (modePhase_change t y hne).2.1⟩⟩
    · intro h1
      rw [hm.2.1 h1]
      norm_num [highTemp, tempThreshold, critTemp]
    · intro h2
      rw [hm.2.2 h2]
      norm_num [critTemp, tempThreshold]
  · intro ht hT he
    have hpr := timerPhase_promote t { s with currTemp := T } ht hT he
    refine ⟨hpr.1, ?_⟩
    rw [hp]
    simp only [Outcome.state, thermalStep]
    rw [(modePhase_mode t _).2.1 hpr.1, hpr.2]
    have h66 : ¬ (T < highTemp - tempThreshold) := by
      unfold highTemp tempThreshold at *
      intro h; linarith
    simp only [if_neg h66]

/-- In mode High a sample of 90 degrees leads to Critical, and from there a sample of 80
degrees leads back to High. -/
theorem mode_step_transitions_witness :
    (modePhase 100 { steadyHigh with currTemp := 90 }).mode = 2
    ∧ (modePhase 200 { steadyCrit with currTemp := 80 }).mode = 1 :=
  ⟨by
    have h := ((mode_step_transitions defaultConfig 90 100 steadyHigh
      (by norm_num [dangerousTemp])).2.1 { steadyHigh with currTemp := 90 } rfl).1 rfl
    norm_num at h
    exact h,
   by
    have h := ((mode_step_transitions defaultConfig 80 200 steadyCrit
      (by norm_num [dangerousTemp])).2.1 { steadyCrit with currTemp := 80 } rfl).2.1 rfl
    norm_num at h
    exact h⟩

/-- The per-mode step in Low or High that neither starts the timer nor changes the mode is
the delta check. -/
theorem modePhase_gate (t : Int) (y : State) (hm : y.mode = 0 ∨ y.mode = 1)
    (hk : (modePhase t y).mode = y.mode)
    (hns : ¬ (y.mode = 0 ∧ y.currTemp > highTemp ∧ y.highTempTimer = 0)) :
    modePhase t y =
      if |y.currTemp - y.oldTemp| > tempThreshold then updateSpeed { y with oldTemp := y.currTemp }
      else y := by
  rcases hm with h0 | h1
  · have hns2 : ¬ (y.currTemp > highTemp ∧ y.highTempTimer = 0) := fun h => hns ⟨h0, h⟩
    unfold modePhase
    rw [if_pos h0, if_neg hns2]
  · have hmode := (modePhase_mode t y).2.1 h1
    rw [hk, h1] at hmode
    unfold modePhase
    rw [if_neg (by omega), if_pos h1]
    split_ifs at hmode ⊢ <;> first | rfl | (exfalso; omega)

/-- The per-mode step in Critical that keeps the mode is `updateSpeed`. -/
theorem modePhase_crit_keep (t : Int) (y : State) (h2 : y.mode = 2)
    (hk : (modePhase t y).mode = 2) : modePhase t y = updateSpeed y := by
  have hmode := (modePhase_mode t y).2.2 h2
  rw [hk] at hmode
  unfold modePhase
  rw [if_neg (by omega), if_neg (by omega)]
  split_ifs at hmode ⊢ <;> first | rfl | (exfalso; omega)

/-- The pending-promotion check on a tick that does not start the timer and ends in the
mode it began in: it changes at most the timer, and leaves no timer start to follow. -/
theorem timerPhase_keep (T : ℚ) (t : Int) (s : State)
    (hinv : s.highTempTimer ≠ 0 → s.mode = 0)
    (hk : (thermalStep T t s).mode = s.mode) (hns : ¬ StartsTimer T s) :
    ∃ y, timerPhase t { s with currTemp := T } = y ∧ y.mode = s.mode ∧ y.currTemp = T
      ∧ y.oldTemp = s.oldTemp ∧ y.speedTarget = s.speedTarget
      ∧ ¬ (y.mode = 0 ∧ y.currTemp > highTemp ∧ y.highTempTimer = 0) := by
  by_cases ht : s.highTempTimer > 0
  · have h0 : s.mode = 0 := hinv (by omega)
    by_cases hT : T < highTemp
    · refine ⟨{ s with currTemp := T, highTempTimer := 0 }, ?_, rfl, rfl, rfl, rfl, ?_⟩
      · unfold timerPhase
        rw [if_pos ht, if_pos hT]
      · rintro ⟨_, h, _⟩
        exact absurd hT (not_lt.mpr (le_of_lt h))
    · by_cases he : wrap64 (t - s.highTempTimer) > sustainedLoadTime
      · exfalso
        have hpr := timerPhase_promote t { s with currTemp := T } ht (not_lt.mp hT) he
        have hm := (modePhase_mode t (timerPhase t { s with currTemp := T })).2.1 hpr.1
        unfold thermalStep at hk
        rw [hm, hpr.2, h0] at hk
        have h66 : ¬ (T < highTemp - tempThreshold) := by
          unfold highTemp tempThreshold at *
          intro h; linarith
        simp only [if_neg h66] at hk
        split_ifs at hk <;> omega
      · refine ⟨{ s with currTemp := T }, ?_, rfl, rfl, rfl, rfl, ?_⟩
        · unfold timerPhase
          rw [if_pos ht, if_neg hT, if_neg he]
        · rintro ⟨_, _, h⟩
          exact absurd h (by simpa using (by omega : s.highTempTimer ≠ 0))
  · refine ⟨{ s with currTemp := T }, ?_, rfl, rfl, rfl, rfl, ?_⟩
    · unfold timerPhase
      rw [if_neg ht]
    · rintro ⟨h0, hT, h⟩
      exact hns ⟨h0, hT, h⟩

/-- C18: on an evaluation tick below `dangerousTemp` that keeps the mode and does not
start the timer, from a state whose timer runs only in Low (as in every reachable
state): in Low and High, `speedTarget` and `oldTemp` change only if the sample differs
from `oldTemp` by more than 4, and then `oldTemp` becomes the sample and `speedTarget`
the curve value of the mode; in Critical, `speedTarget` is recomputed from the Critical
curve on every such tick and `oldTemp` stays. -/
theorem gated_recompute (cfg : Config) (T : ℚ) (t : Int) (s : State)
    (hd : T < dangerousTemp) (hinv : s.highTempTimer ≠ 0 → s.mode = 0)
    (hk : (tempLoop cfg T t s).state.mode = s.mode) (hns : ¬ StartsTimer T s) :
    (s.mode = 0 → |T - s.oldTemp| > 4 →
      (tempLoop cfg T t s).state.oldTemp = T
      ∧ (tempLoop cfg T t s).state.speedTarget = lowTarget T)
    ∧ (s.mode = 1 → |T - s.oldTemp| > 4 →
      (tempLoop cfg T t s).state.oldTemp = T
      ∧ (tempLoop cfg T t s).state.speedTarget
          = min (max (mathRound (T * 2.7 - 157)) 35) 100)
    ∧ (s.mode = 0 ∨ s.mode = 1 → ¬ |T - s.oldTemp| > 4 →
      (tempLoop cfg T t s).state.oldTemp = s.oldTemp
      ∧ (tempLoop cfg T t s).state.speedTarget = s.speedTarget)
    ∧ (s.mode = 2 →
      (tempLoop cfg T t s).state.speedTarget
          = min (max (mathRound (T * 2.9 - 172)) 35) 100
      ∧ (tempLoop cfg T t s).state.oldTemp = s.oldTemp) := by
  rw [tempLoop_phases cfg T t s hd] at hk ⊢
  simp only [Outcome.state] at hk ⊢
  obtain ⟨y, hy, hym, hyT, hyo, hys, hyn⟩ := timerPhase_keep T t s hinv hk hns
  unfold thermalStep at hk ⊢
  rw [hy] at hk ⊢
  have hgate : y.mode = 0 ∨ y.mode = 1 → modePhase t y =
      if |T - s.oldTemp| > 4 then updateSpeed { y with currTemp := T, oldTemp := T }
      else y := by
    intro hm
    have h := modePhase_gate t y hm (by rw [hk, hym]) hyn
    rw [hyT, hyo] at h
    simpa [tempThreshold] using h
  refine ⟨?_, ?_, ?_, ?_⟩
  · intro h0 hgt
    rw [hgate (Or.inl (by rw [hym, h0])), if_pos hgt]
    refine ⟨by rw [updateSpeed_old], ?_⟩
    rw [updateSpeed_target_low _ (by simp only; rw [hym, h0])]
  · intro h1 hgt
    rw [hgate (Or.inr (by rw [hym, h1])), if_pos hgt]
    refine ⟨by rw [updateSpeed_old], ?_⟩
    rw [updateSpeed_target_high _ (by simp only; rw [hym, h1])]
  · intro hm hle
    rw [hgate (by rw [hym]; exact hm), if_neg hle]
    exact ⟨hyo, hys⟩
  · intro h2
    have hy2 : y.mode = 2 := by rw [hym, h2]
    rw [modePhase_crit_keep t y hy2 (by rw [hk, h2])]
    refine ⟨?_, by rw [updateSpeed_old, hyo]⟩
    rw [updateSpeed_target_crit _ hy2, hyT]

/-- In High with the last update at 80 degrees, a sample of 72 degrees sets the target to
37; in Critical a sample of 90 degrees sets it to 89. -/
theorem gated_recompute_witness :
    (tempLoop defaultConfig 72 100 { steadyHigh with oldTemp := 80 }).state.speedTarget = 37
    ∧ (tempLoop defaultConfig 90 100 steadyCrit).state.speedTarget = 89 :=
  ⟨by
    have h := (gated_recompute defaultConfig 72 100 { steadyHigh with oldTemp := 80 }
      (by norm_num [dangerousTemp]) (fun h => absurd rfl h)
      (by norm_num [tempLoop, steadyHigh, initState, dangerousTemp, highTemp, tempThreshold,
        critTemp, updateSpeed, Outcome.state])
      (by norm_num [StartsTimer, steadyHigh, initState])).2.1 rfl
      (by norm_num [steadyHigh, initState, abs_of_neg])
    rw [h.2]
    norm_num [mathRound],
   by
    have h := (gated_recompute defaultConfig 90 100 steadyCrit
      (by norm_num [dangerousTemp]) (fun h => absurd rfl h)
      (by norm_num [tempLoop, steadyCrit, initState, dangerousTemp, highTemp, tempThreshold,
        critTemp, updateSpeed, Outcome.state])
      (by norm_num [StartsTimer, steadyCrit, initState])).2.2.2 rfl
    rw [h.1]
    norm_num [mathRound]⟩

/-- C19: one actuator tick, for every controller state, with the rate 4 in Critical and 1
otherwise.  When the target is further than the rate from `currSpeed`, an increasing
step adds exactly the rate, a decreasing step subtracts exactly the rate in Low and
exactly `highModeReductionRate` in High and Critical, and `speedSatisfied` stays.
Otherwise, when `speedSatisfied` is false, `currSpeed` becomes `speedTarget` and
`speedSatisfied` true; when it is true, the tick returns with nothing changed but the
rate variable, and nothing is written.  The tick never changes `mode`, `speedTarget`,
`oldTemp` or `highTempTimer`. -/
theorem actuator_tick (cfg : Config) (s : State) :
    rateOf s.mode = (if s.mode = 2 then 4 else 1)
    ∧ (|s.speedTarget - s.currSpeed| > rateOf s.mode →
        (s.speedTarget > s.currSpeed →
          (speedLoop cfg s).state.currSpeed = s.currSpeed + rateOf s.mode)
        ∧ (¬ s.speedTarget > s.currSpeed → s.mode = 0 →
          (speedLoop cfg s).state.currSpeed = s.currSpeed - rateOf s.mode)
        ∧ (¬ s.speedTarget > s.currSpeed → s.mode ≠ 0 →
          (speedLoop cfg s).state.currSpeed = s.currSpeed - highModeReductionRate)
        ∧ (speedLoop cfg s).state.speedSatisfied = s.speedSatisfied)
    ∧ (¬ |s.speedTarget - s.currSpeed| > rateOf s.mode → s.speedSatisfied = false →
        (speedLoop cfg s).state.currSpeed = s.speedTarget
        ∧ (speedLoop cfg s).state.speedSatisfied = true)
    ∧ (¬ |s.speedTarget - s.currSpeed| > rateOf s.mode → s.speedSatisfied = true →
        speedLoop cfg s = .returned () { s with speedChangeRate := rateOf s.mode })
    ∧ (speedLoop cfg s).state.mode = s.mode
    ∧ (speedLoop cfg s).state.speedTarget = s.speedTarget
    ∧ (speedLoop cfg s).state.oldTemp = s.oldTemp
    ∧ (speedLoop cfg s).state.highTempTimer = s.highTempTimer := by
  have hc := speedLoop_currSpeed cfg s
  have hf := speedLoop_frame cfg s
  refine ⟨?_, ?_, ?_, ?_, hf.1, hf.2.1, hf.2.2.1, hf.2.2.2.1⟩
  · simp [rateOf, critModeSpeedChangeRate, normalSpeedChangeRate]
  · intro hgt
    rw [if_pos hgt] at hc
    rw [if_pos hgt] at hc
    refine ⟨?_, ?_, ?_, hc.2⟩
    · intro hup
      rw [hc.1, if_pos hup]
    · intro hup h0
      rw [hc.1, if_neg hup, if_pos h0]
    · intro hup h0
      rw [hc.1, if_neg hup, if_neg h0]
  · intro hle hs
    rw [if_neg hle] at hc
    rw [if_neg hle] at hc
    exact ⟨by rw [hc.1, if_pos hs], hc.2⟩
  · intro hle hs
    by_cases h2 : s.mode = 2
    · simp only [rateOf, if_pos h2] at hle ⊢
      simp [speedLoop, h2, hle, hs]
    · simp only [rateOf, if_neg h2] at hle ⊢
      simp [speedLoop, h2, hle, hs]

/-- A controller in Critical at 100 percent with the target at 88 slows by 1, not by 4. -/
theorem actuator_tick_witness :
    (speedLoop defaultConfig critDescent).state.currSpeed
      = critDescent.currSpeed - highModeReductionRate :=
  ((actuator_tick defaultConfig critDescent).2.1
    (by norm_num [critDescent, initState, rateOf, critModeSpeedChangeRate])).2.2.1
    (by norm_num [critDescent, initState])
    (by norm_num [critDescent, initState])

/-- A High-mode tick below 66 degrees with no timer running only sets the mode to Low. -/
theorem thermalStep_demotion (T : ℚ) (t : Int) (s : State) (hm : s.mode = 1)
    (ht : s.highTempTimer = 0) (hT : T < highTemp - tempThreshold) :
    thermalStep T t s = { s with currTemp := T, mode := 0 } := by
  unfold thermalStep timerPhase
  rw [if_neg (by simp only; omega)]
  unfold modePhase
  rw [if_neg (by simp only; omega), if_pos hm, if_pos hT]

/-- A Low-mode tick with no timer running: a timer start above `highTemp`, otherwise the
delta check. -/
theorem thermalStep_lowIdle (T : ℚ) (t : Int) (s : State) (hm : s.mode = 0)
    (ht : s.highTempTimer = 0) :
    thermalStep T t s =
      if T > highTemp then
        { s with currTemp := T, highTempTimer := t, speedTarget := medFanSpeed }
      else if |T - s.oldTemp| > tempThreshold then
        updateSpeed { s with currTemp := T, oldTemp := T }
      else { s with currTemp := T } := by
  unfold thermalStep timerPhase
  rw [if_neg (by simp only; omega)]
  unfold modePhase
  rw [if_pos hm]
  by_cases h : T > highTemp
  · rw [if_pos ⟨h, ht⟩, if_pos h]
  · rw [if_neg (fun h2 => h h2.1), if_neg h]

/-- C16 (amended): a High-mode tick with no timer running and a sample below 66 degrees
sets the mode to Low and leaves `speedTarget` and `oldTemp` as they were.  The next
evaluation tick below `dangerousTemp` sets `speedTarget` to `medFanSpeed` (a timer start)
if its sample is above `highTemp`; otherwise it recomputes `speedTarget` from the Low
curve only if its sample differs by more than 4 from the `oldTemp` kept from High mode,
and else leaves `speedTarget` unchanged. -/
theorem demotion_then_low (cfg : Config) (T1 : ℚ) (t1 : Int) (s : State)
    (hm : s.mode = 1) (ht : s.highTempTimer = 0) (hT1 : T1 < highTemp - tempThreshold) :
    tempLoop cfg T1 t1 s = .returned () { s with currTemp := T1, mode := 0 }
    ∧ ∀ (T2 : ℚ) (t2 : Int), T2 < dangerousTemp →
      (tempLoop cfg T2 t2 { s with currTemp := T1, mode := 0 }).state.mode = 0
      ∧ (T2 > highTemp →
          (tempLoop cfg T2 t2 { s with currTemp := T1, mode := 0 }).state.speedTarget
            = medFanSpeed
          ∧ (tempLoop cfg T2 t2 { s with currTemp := T1, mode := 0 }).state.highTempTimer = t2
          ∧ (tempLoop cfg T2 t2 { s with currTemp := T1, mode := 0 }).state.oldTemp
            = s.oldTemp)
      ∧ (¬ T2 > highTemp → |T2 - s.oldTemp| > 4 →
          (tempLoop cfg T2 t2 { s with currTemp := T1, mode := 0 }).state.speedTarget
            = lowTarget T2
          ∧ (tempLoop cfg T2 t2 { s with currTemp := T1, mode := 0 }).state.oldTemp = T2)
      ∧ (¬ T2 > highTemp → ¬ |T2 - s.oldTemp| > 4 →
          (tempLoop cfg T2 t2 { s with currTemp := T1, mode := 0 }).state.speedTarget
            = s.speedTarget
          ∧ (tempLoop cfg T2 t2 { s with currTemp := T1, mode := 0 }).state.oldTemp
            = s.oldTemp) := by
  have hd1 : T1 < dangerousTemp := by
    unfold highTemp tempThreshold at hT1
    unfold dangerousTemp
    linarith
  refine ⟨?_, ?_⟩
  · rw [tempLoop_phases cfg T1 t1 s hd1, thermalStep_demotion T1 t1 s hm ht hT1]
  · intro T2 t2 hd2
    rw [tempLoop_phases cfg T2 t2 _ hd2,
      thermalStep_lowIdle T2 t2 { s with currTemp := T1, mode := 0 } rfl ht]
    simp only [Outcome.state]
    refine ⟨?_, ?_, ?_, ?_⟩
    · split_ifs
      · rfl
      · rw [updateSpeed_mode]
      · rfl
    · intro h
      rw [if_pos h]
      exact ⟨rfl, rfl, rfl⟩
    · intro h hgt
      have hgt2 : |T2 - s.oldTemp| > tempThreshold := by simpa [tempThreshold] using hgt
      rw [if_neg h, if_pos hgt2]
      exact ⟨updateSpeed_target_low _ rfl, by rw [updateSpeed_old]⟩
    · intro h hle
      have hle2 : ¬ |T2 - s.oldTemp| > tempThreshold := by simpa [tempThreshold] using hle
      rw [if_neg h, if_neg hle2]
      exact ⟨rfl, rfl⟩

/-- After a promotion at 71 degrees and a demotion at 65 degrees, a Low-mode tick at 68
degrees leaves `speedTarget` at 35, although the Low curve gives 0 at 68 degrees: the
sample is within 4 of the `oldTemp` 71 kept from High mode. -/
theorem demotion_then_low_counterexample :
    Reachable defaultConfig (runTicks defaultConfig demotionRun (initState blankDevice)).state
    ∧ (runTicks defaultConfig demotionRun (initState blankDevice)).state.mode = 0
    ∧ (runTicks defaultConfig demotionRun (initState blankDevice)).state.speedTarget = 35
    ∧ (tempLoop defaultConfig 68 400
        (runTicks defaultConfig demotionRun (initState blankDevice)).state).state.mode = 0
    ∧ (tempLoop defaultConfig 68 400
        (runTicks defaultConfig demotionRun (initState blankDevice)).state).state.speedTarget
          = 35
    ∧ lowTarget 68 = 0 := by
  have e : ∃ s', runTicks defaultConfig demotionRun (initState blankDevice) = .returned () s'
      ∧ s'.mode = 0 ∧ s'.speedTarget = 35
      ∧ (tempLoop defaultConfig 68 400 s').state.mode = 0
      ∧ (tempLoop defaultConfig 68 400 s').state.speedTarget = 35 := by
    norm_num [demotionRun, runTicks, Tick.run, tempLoop, updateSpeed,
      calculateHighSpeed, calculateLowSpeed, mathRound, wrap64, sustainedLoadTime,
      Outcome.andThen, Outcome.state, initState, blankDevice, critTemp,
      defaultConfig, dangerousTemp, highTemp, tempThreshold, medFanSpeed,
      minFanSpeed]
  obtain ⟨s', h1, h2, h3, h4, h5⟩ := e
  rw [h1]
  refine ⟨runTicks_reachable defaultConfig _ demotionRun _ s' (ReachableWith.init blankDevice)
    (fun _ _ => trivial) h1, h2, h3, h4, h5, ?_⟩
  rw [lowTarget_eq]
  norm_num [mathRound]

/-- From High with the last update at 74 degrees, a demotion at 65 degrees followed by a
sample of 60 degrees recomputes the target from the Low curve, which gives 0. -/
theorem demotion_then_low_witness :
    tempLoop defaultConfig 65 300 steadyHigh
      = .returned () { steadyHigh with currTemp := 65, mode := 0 }
    ∧ (tempLoop defaultConfig 60 400 { steadyHigh with currTemp := 65, mode := 0 }).state.speedTarget
      = lowTarget 60 :=
  ⟨(demotion_then_low defaultConfig 65 300 steadyHigh rfl rfl
      (by norm_num [highTemp, tempThreshold])).1,
   (((demotion_then_low defaultConfig 65 300 steadyHigh rfl rfl
      (by norm_num [highTemp, tempThreshold])).2 60 400 (by norm_num [dangerousTemp])).2.2.1
      (by norm_num [highTemp])
      (by norm_num [steadyHigh, initState, abs_of_neg])).1⟩

/-! ## C20: the Low curve -/

theorem mathRound_mono (x y : ℚ) (h : x ≤ y) : mathRound x ≤ mathRound y := by
  unfold mathRound
  split_ifs with hx hy hy
  · exact_mod_cast Int.floor_mono (by linarith)
  · exfalso; linarith
  · have h1 : ⌈x - 1 / 2⌉ ≤ 0 := Int.ceil_le.mpr (by push_cast; linarith)
    have h2 : 0 ≤ ⌊y + 1 / 2⌋ := Int.floor_nonneg.mpr (by linarith)
    exact_mod_cast le_trans h1 h2
  · exact_mod_cast Int.ceil_mono (by linarith)

theorem mathRound_le_iff (x : ℚ) (k : Int) (hk : 0 ≤ k) :
    mathRound x ≤ k ↔ x < k + 1 / 2 := by
  unfold mathRound
  split_ifs with hx
  · rw [Int.cast_le, ← Int.lt_add_one_iff, Int.floor_lt]
    push_cast
    constructor <;> intro h <;> linarith
  · have h1 : ⌈x - 1 / 2⌉ ≤ 0 := Int.ceil_le.mpr (by push_cast; linarith)
    have hk2 : (0 : ℚ) ≤ k := by exact_mod_cast hk
    constructor
    · intro _; linarith
    · intro _; exact_mod_cast le_trans h1 hk

theorem mathRound_int (x : ℚ) : ∃ z : Int, mathRound x = z := by
  unfold mathRound
  split_ifs
  · exact ⟨_, rfl⟩
  · exact ⟨_, rfl⟩

theorem cube_mono (a b : ℚ) (h : a ≤ b) : a ^ 2 * a ≤ b ^ 2 * b := by
  nlinarith [sq_nonneg (a + b), sq_nonneg a, sq_nonneg b, sq_nonneg (a - b),
    mul_nonneg (sub_nonneg.mpr h) (sq_nonneg (a + b)),
    mul_nonneg (sub_nonneg.mpr h) (sq_nonneg a),
    mul_nonneg (sub_nonneg.mpr h) (sq_nonneg b)]

/-- The Low target is 0 exactly below the rounding point 28.5 of the curve. -/
theorem lowTarget_zero_iff (T : ℚ) : lowTarget T = 0 ↔ T ^ 2 * T / 11842 < 28.5 := by
  have hr := mathRound_le_iff (T ^ 2 * T / 11842) 28 (by norm_num)
  have hr2 : mathRound (T ^ 2 * T / 11842) ≤ 28 ↔ T ^ 2 * T / 11842 < 28.5 := by
    rw [show ((28 : Int) : ℚ) = 28 by norm_num] at hr
    rw [hr]
    norm_num
  rw [lowTarget_eq, ← hr2]
  have hmin : min (mathRound (T ^ 2 * T / 11842)) 35 ≤ 28
      ↔ mathRound (T ^ 2 * T / 11842) ≤ 28 := by
    rw [min_le_iff]
    constructor
    · rintro (h | h)
      · exact h
      · norm_num at h
    · intro h; exact Or.inl h
  constructor
  · intro h
    by_contra hgt
    rw [if_neg (fun h2 => hgt (hmin.mp h2))] at h
    have : (28 : ℚ) < min (mathRound (T ^ 2 * T / 11842)) 35 := by
      rw [lt_min_iff]
      exact ⟨lt_of_not_le hgt, by norm_num⟩
    linarith
  · intro h
    rw [if_pos (hmin.mpr h)]

theorem lowTarget_mono (a b : ℚ) (h : a ≤ b) : lowTarget a ≤ lowTarget b := by
  have hc : a ^ 2 * a / 11842 ≤ b ^ 2 * b / 11842 :=
    div_le_div_of_nonneg_right (cube_mono a b h) (by norm_num)
  have hm : min (mathRound (a ^ 2 * a / 11842)) 35 ≤ min (mathRound (b ^ 2 * b / 11842)) 35 :=
    min_le_min (mathRound_mono _ _ hc) le_rfl
  rw [lowTarget_eq, lowTarget_eq]
  split_ifs with ha hb hb
  · exact le_rfl
  · linarith
  · exfalso; linarith
  · exact hm

theorem lowTarget_values (T : ℚ) :
    lowTarget T = 0 ∨ ∃ k : Int, 29 ≤ k ∧ k ≤ 35 ∧ lowTarget T = k := by
  rw [lowTarget_eq]
  obtain ⟨z, hz⟩ := mathRound_int (T ^ 2 * T / 11842)
  rw [hz]
  split_ifs with h
  · exact Or.inl rfl
  · right
    rw [not_le, lt_min_iff] at h
    have hz28 : 28 < z := by exact_mod_cast h.1
    by_cases h35 : z ≤ 35
    · refine ⟨z, by omega, h35, ?_⟩
      rw [min_eq_left (by exact_mod_cast h35)]
    · refine ⟨35, by norm_num, le_rfl, ?_⟩
      rw [min_eq_right (by exact_mod_cast (by omega : (35 : Int) ≤ z))]
      norm_num

/-- C20: in mode Low `updateSpeed` sets `speedTarget` to `lowTarget currTemp`, whose only
values are 0 and the integers 29 to 35.  It is 0 exactly when `currTemp^3 / 11842 < 28.5`,
that is `currTemp^3 < 337497`, and otherwise `min(round(currTemp^3 / 11842), 35)`; so it
is 0 up to 69.6 degrees (negative temperatures included), lies in 29..35 from 69.7
degrees on, and is non-decreasing in the temperature. -/
theorem low_target_values (T : ℚ) :
    (∀ s : State, s.mode = 0 → (updateSpeed s).speedTarget = lowTarget s.currTemp)
    ∧ (lowTarget T = 0 ∨ ∃ k : Int, 29 ≤ k ∧ k ≤ 35 ∧ lowTarget T = k)
    ∧ (lowTarget T = 0 ↔ T ^ 3 / 11842 < 28.5)
    ∧ (T ^ 3 / 11842 < 28.5 ↔ T ^ 3 < 337497)
    ∧ (¬ T ^ 3 / 11842 < 28.5 → lowTarget T = min (mathRound (T ^ 3 / 11842)) 35)
    ∧ (T ≤ 69.6 → lowTarget T = 0)
    ∧ (69.7 ≤ T → 29 ≤ lowTarget T ∧ lowTarget T ≤ 35)
    ∧ (∀ T2 : ℚ, T ≤ T2 → lowTarget T ≤ lowTarget T2) := by
  have hpow : T ^ 3 = T ^ 2 * T := by ring
  have hz := lowTarget_zero_iff T
  have hv := lowTarget_values T
  have hlin : T ^ 2 * T / 11842 < 28.5 ↔ T ^ 2 * T < 337497 := by
    rw [div_lt_iff₀ (by norm_num)]
    norm_num
  rw [hpow]
  refine ⟨fun s h => updateSpeed_target_low s h, hv, hz, hlin, ?_, ?_, ?_,
    fun T2 h => lowTarget_mono T T2 h⟩
  · intro h
    rw [lowTarget_eq]
    have h0 : ¬ lowTarget T = 0 := fun h0 => h (hz.mp h0)
    rw [lowTarget_eq] at h0
    split_ifs with hle
    · exact absurd (if_pos hle) h0
    · rfl
  · intro h
    rw [hz, hlin]
    have h1 := cube_mono T 69.6 h
    norm_num at h1 ⊢
    linarith
  · intro h
    have h1 := cube_mono 69.7 T h
    have h0 : ¬ lowTarget T = 0 := by
      rw [hz, hlin]
      norm_num at h1 ⊢
      linarith
    rcases hv with hv | ⟨k, hk1, hk2, hk⟩
    · exact absurd hv h0
    · rw [hk]
      exact ⟨by exact_mod_cast hk1, by exact_mod_cast hk2⟩

/-- At 20 degrees the Low target is 0, and at 70 degrees it lies in 29..35. -/
theorem low_target_values_witness :
    lowTarget 20 = 0 ∧ 29 ≤ lowTarget 70 ∧ lowTarget 70 ≤ 35 :=
  ⟨(low_target_values 20).2.2.2.2.2.1 (by norm_num),
   (low_target_values 70).2.2.2.2.2.2.1 (by norm_num)⟩

end Fanctl
